import Mathlib

/-!
# os-proxy: the shared streaming cache

A shallow embedding of the cache registry (`cache.c`), the client streaming
loop (`client.c`), the upstream fetcher (`download.c`) and the command line
(`main.c`).

Conventions of the embedding

* A byte buffer is a list of byte values. A chunk (`cache_chunk_t`) is the byte
  list it holds; its `size` field is the length of that list, and the `next`
  links of the chunk list are the list order (append order).
* A pointer to a chunk is the index of the chunk in the entry's chunk list
  (`none` is `NULL`). The `next` field of chunk `i` is `NULL` until chunk
  `i + 1` has been appended, and points to chunk `i + 1` afterwards.
* A pointer to an entry is an address (a natural number) into a heap of
  entries; the doubly linked registry list is the list of the addresses from
  `cache.head` to `cache.tail`.
* `size_t` counters wrap modulo `2 ^ 64`. The `int` counters
  (`ref_count`, `num_chunks`, `chunks_read`) are unbounded integers: signed
  overflow is undefined in C, and the counters count live threads and resident
  chunks.
* A critical section (the code between locking and unlocking a mutex, or up
  to a `pthread_cond_wait`) is one atomic step. Code that runs without a lock
  (the `send` calls) is a step of its own.
* Results of system and library calls (`send`, `recv`, `malloc`, `connect`,
  `pthread_create`, `sscanf`, `time`) are inputs of the step that makes the
  call. A `send` that does not fail may have transferred only the first
  bytes of its buffer; the bytes delivered to a client are the bytes
  transferred, not the bytes passed to `send`.
* The on-disk mirror (`cache_file_path`, `cache_fd`, `open`, `write`,
  `unlink`) takes no part in the streaming and is left out of the entry
  record; the path of the mirror file is modelled on its own
  (`get_cache_file_path`).
* `unsigned long` is 64 bits wide. Whether plain `char` is signed is a
  parameter of the functions that read a `char` as a number.
* A string argument (`url`, `argv[i]`) is the list of its bytes before the
  terminating zero.
-/

namespace OsProxy

/-! ## Data model (`cache.h`, `common.h`) -/

/-- A byte buffer. -/
abbrev Bytes := List Nat

/-- The modulus of `size_t` arithmetic. -/
def SIZE_MOD : Nat := 2 ^ 64

/-- `BUFFER_SIZE` of `common.h`. -/
def BUFFER_SIZE : Nat := 16384

/-- `CHUNK_SIZE` of `common.h`. -/
def CHUNK_SIZE : Nat := 8192

/-- `cache_status_t`. -/
inductive cache_status_t where
  | CACHE_LOADING
  | CACHE_COMPLETE
  | CACHE_ERROR
  deriving DecidableEq, Repr

open cache_status_t

/-- `cache_entry_t`: the fields that the registry, the fetcher and the
handlers read and write. -/
structure cache_entry_t where
  url : Bytes
  headers : Option Bytes
  headers_size : Nat
  status_code : Int
  chunks : List Bytes
  total_size : Nat
  status : cache_status_t
  ref_count : Int
  last_accessed : Int
  loading_thread_active : Bool
  num_chunks : Nat
  original_request : Option Bytes
  request_size : Nat
  deriving DecidableEq, Repr

/-- `cache_t`: `list` holds the addresses of the linked entries from `head`
to `tail`. -/
structure cache_t where
  list : List Nat
  total_size : Nat
  max_size : Nat
  deriving DecidableEq, Repr

/-- `init_cache`. -/
def init_cache (max_size_mb : Nat) : cache_t :=
  { list := [], total_size := 0, max_size := (max_size_mb * 1024 * 1024) % SIZE_MOD }

/-! ## Entry operations (`cache.c`, `download.c`, `client.c`) -/

/-- `create_cache_entry` when its allocations succeed: `calloc` zeroes the
record, then the listed fields are set; `now` is the value of `time(NULL)`. -/
def create_cache_entry (url : Bytes) (now : Int) : cache_entry_t :=
  { url := url
    headers := none
    headers_size := 0
    status_code := 0
    chunks := []
    total_size := 0
    status := CACHE_LOADING
    ref_count := 1
    last_accessed := now
    loading_thread_active := false
    num_chunks := 0
    original_request := none
    request_size := 0 }

/-- The critical section of `find_or_create_cache_entry` on the entry it
found: `ref_count++` and `last_accessed = time(NULL)`. -/
def pin_entry (e : cache_entry_t) (now : Int) : cache_entry_t :=
  { e with ref_count := e.ref_count + 1, last_accessed := now }

/-- `release_cache_entry` on a non-null entry: `ref_count--`. -/
def release_cache_entry (e : cache_entry_t) : cache_entry_t :=
  { e with ref_count := e.ref_count - 1 }

/-- `add_chunk_to_cache`: returns the return value, the cache (its
`total_size`) and the entry. `malloc_ok` says whether both allocations of the
new chunk succeeded. The chunk is linked behind `last_chunk`. -/
def add_chunk_to_cache (c : cache_t) (e : cache_entry_t) (data : Bytes) (malloc_ok : Bool) :
    Int × cache_t × cache_entry_t :=
  if malloc_ok then
    (0,
     { c with total_size := (c.total_size + data.length) % SIZE_MOD },
     { e with
        chunks := e.chunks ++ [data]
        total_size := (e.total_size + data.length) % SIZE_MOD
        num_chunks := e.num_chunks + 1 })
  else (-1, c, e)

/-- `set_cache_error`. -/
def set_cache_error (e : cache_entry_t) : cache_entry_t :=
  { e with status := CACHE_ERROR, loading_thread_active := false }

/-- `download_complete`. -/
def download_complete (e : cache_entry_t) : cache_entry_t :=
  { e with status := CACHE_COMPLETE, loading_thread_active := false }

/-- The critical section of `start_download_if_needed`: returns
`need_download` and the entry. `request` is the handler's buffer of
`request_len` bytes; `strdup` copies it up to its first zero byte and yields
`NULL` when `malloc_ok` is false. -/
def start_download_if_needed (e : cache_entry_t) (request : Bytes) (request_len : Nat)
    (malloc_ok : Bool) : Bool × cache_entry_t :=
  let need_download := e.status = CACHE_LOADING ∧ e.loading_thread_active = false
  if need_download then
    let e1 := { e with loading_thread_active := true }
    match e1.original_request with
    | none =>
      (true, { e1 with
                original_request :=
                  if malloc_ok then some (request.takeWhile (fun b => b ≠ 0)) else none
                request_size := request_len })
    | some _ => (true, e1)
  else (false, e)

/-! ## The streaming loop of a handler (`client.c`) -/

/-- What a handler passed to a `send` call that did not fail (that returned a
count of zero or more). -/
inductive Payload where
  | headers (b : Bytes)
  | chunk (b : Bytes)
  deriving DecidableEq, Repr

/-- The bytes of a payload. -/
def Payload.bytes : Payload → Bytes
  | .headers b => b
  | .chunk b => b

/-- Program points of `send_cached_data`. -/
inductive SPc where
  /-- Line 36: lock, test the condition of the header wait loop. -/
  | enter
  /-- Line 39: inside `pthread_cond_wait` of the header wait loop. -/
  | hdr_blocked
  /-- Line 52: `send_headers_to_client`, no lock held. -/
  | send_headers
  /-- Line 56: test of the outer loop (reads the shutdown flags). -/
  | loop_top
  /-- Lines 57 to 61: lock, snapshot `num_chunks` and `status`, test the
  condition of the inner loop. -/
  | snapshot
  /-- Line 68: `send_chunk_to_client (to_send)`, no lock held. -/
  | send_chunk (to_send : Nat)
  /-- Line 72: lock again, test the condition of the inner loop. -/
  | inner
  /-- Line 81: inside `pthread_cond_wait` of the outer loop. -/
  | loop_blocked
  /-- The function has returned `r`. -/
  | returned (r : Int)
  deriving DecidableEq, Repr

/-- The locals of `send_cached_data`, with two ghost fields: `out` logs the
payload of every `send` that did not fail, in order, `waits` counts the calls of
`pthread_cond_wait`. -/
structure Sender where
  pc : SPc
  current : Option Nat
  chunks_read : Nat
  available_chunks : Nat
  status : cache_status_t
  out : List Payload
  waits : Nat
  deriving DecidableEq, Repr

/-- A handler that is about to call `send_cached_data`. -/
def Sender.start : Sender :=
  { pc := .enter, current := none, chunks_read := 0, available_chunks := 0,
    status := CACHE_LOADING, out := [], waits := 0 }

/-- The pointer `entry->chunks`. -/
def chunks_head (e : cache_entry_t) : Option Nat :=
  if e.chunks = [] then none else some 0

/-- The pointer `chunk->next` of chunk `i`, read now. -/
def chunk_next (e : cache_entry_t) (i : Nat) : Option Nat :=
  if i + 1 < e.chunks.length then some (i + 1) else none

/-- `send_headers_to_client`: the return value and the payload sent, if any.
`malloc_ok` is the outcome of the allocation of `headers_copy`, `send_ok` the
outcome of the `send`. -/
def send_headers_to_client (malloc_ok send_ok : Bool) (e : cache_entry_t) :
    Int × Option Bytes :=
  let headers_copy : Option Bytes :=
    match e.headers with
    | some h =>
      if e.headers_size > 0 then
        (if malloc_ok then some (h.take e.headers_size) else none)
      else none
    | none => none
  let headers_size_copy : Nat :=
    match headers_copy with
    | some _ => e.headers_size
    | none => 0
  match headers_copy with
  | some c =>
    if headers_size_copy > 0 then
      (if send_ok then (0, some c) else (-1, none))
    else (0, none)
  | none => (0, none)

/-- `send_chunk_to_client`: the return value for the outcome of `send`. -/
def send_chunk_to_client (send_ok : Bool) : Int :=
  if send_ok then 0 else -1

/-- Lines 75 to 84 of `send_cached_data`, lock held: leave the loop on a
terminal snapshot, else wait when everything seen was read, else go round. -/
def after_inner (s : Sender) : Sender :=
  if s.status = CACHE_COMPLETE ∨ s.status = CACHE_ERROR then
    { s with pc := .returned 0 }
  else if s.chunks_read ≥ s.available_chunks then
    { s with pc := .loop_blocked, waits := s.waits + 1 }
  else
    { s with pc := .loop_top }

/-- Lines 61 to 66 of `send_cached_data`, lock held: the test of the inner
loop and, when it passes, the advance of the cursor. -/
def inner_section (e : cache_entry_t) (s : Sender) : Sender :=
  match s.current with
  | some i =>
    if s.chunks_read < s.available_chunks then
      { s with pc := .send_chunk i, current := chunk_next e i,
               chunks_read := s.chunks_read + 1 }
    else after_inner s
  | none => after_inner s

/-- One step of `send_cached_data` against the entry as it is now. A blocked
handler does not move until it is woken (`sender_wake`). -/
def sender_step (running force_shutdown malloc_ok send_ok : Bool) (e : cache_entry_t)
    (s : Sender) : Sender :=
  match s.pc with
  | .enter =>
    if e.headers = none ∧ e.status = CACHE_LOADING ∧ running = true then
      { s with pc := .hdr_blocked, waits := s.waits + 1 }
    else if e.status = CACHE_ERROR then
      { s with pc := .returned (-1) }
    else
      { s with pc := .send_headers, current := chunks_head e, chunks_read := 0 }
  | .hdr_blocked => s
  | .send_headers =>
    match send_headers_to_client malloc_ok send_ok e with
    | (r, sent) =>
      let s1 : Sender :=
        match sent with
        | some b => { s with out := s.out ++ [Payload.headers b] }
        | none => s
      if r < 0 then { s1 with pc := .returned (-1) } else { s1 with pc := .loop_top }
  | .loop_top =>
    if running = true ∧ force_shutdown = false then
      { s with pc := .snapshot }
    else
      { s with pc := .returned 0 }
  | .snapshot =>
    inner_section e { s with available_chunks := e.num_chunks, status := e.status }
  | .send_chunk to_send =>
    if send_chunk_to_client send_ok < 0 then
      { s with pc := .returned (-1) }
    else
      { s with pc := .inner, out := s.out ++ [Payload.chunk (e.chunks.getD to_send [])] }
  | .inner => inner_section e s
  | .loop_blocked => s
  | .returned _ => s

/-- Return from `pthread_cond_wait` (after a broadcast or spuriously): the
header wait loop tests its condition again; the outer loop unlocks and goes
round. -/
def sender_wake (s : Sender) : Sender :=
  match s.pc with
  | .hdr_blocked => { s with pc := .enter }
  | .loop_blocked => { s with pc := .loop_top }
  | _ => s

/-- The bytes of `"http://"`. -/
def HTTP_SCHEME : Bytes := [104, 116, 116, 112, 58, 47, 47]

/-- The bytes of `"https://"`. -/
def HTTPS_SCHEME : Bytes := [104, 116, 116, 112, 115, 58, 47, 47]

/-- The bytes of `"\r\n\r\n"`. -/
def CRLFCRLF : Bytes := [13, 10, 13, 10]

/-- The return value of `parse_url` once the scheme is skipped: `-1` when the
host part (up to the first `:` that precedes any `/`, else up to the first
`/`, else the whole rest) has 256 bytes or more. -/
def parse_url_host (start : Bytes) : Int :=
  let slash := start.findIdx? (fun b => b = 47)
  let colon := start.findIdx? (fun b => b = 58)
  let host_len : Nat :=
    match colon, slash with
    | some c, none => c
    | some c, some sl => if c < sl then c else sl
    | none, some sl => sl
    | none, none => start.length
  if host_len ≥ 256 then -1 else 0

/-- The return value of `parse_url` (the host, port and path it writes feed
only `connect_to_server`, whose outcome is an input here). -/
def parse_url (url : Bytes) : Int :=
  if url.take 7 = HTTP_SCHEME then parse_url_host (url.drop 7)
  else if url.take 8 = HTTPS_SCHEME then -1
  else parse_url_host url

/-- The index of the first occurrence of `needle` in `hay`. -/
def find_sub (needle : Bytes) : Bytes → Option Nat
  | [] => if needle = [] then some 0 else none
  | b :: rest =>
    if (b :: rest).take needle.length = needle then some 0
    else (find_sub needle rest).map (fun i => i + 1)

/-- `strstr (mem, needle)`: the search runs over the C string that starts at
`mem`, that is over the bytes before the first zero byte. -/
def strstr (mem needle : Bytes) : Option Nat :=
  find_sub needle (mem.takeWhile (fun b => b ≠ 0))

/-- `extract_status_code`: `scanned` is the integer that `sscanf` converted
for `"%s %d"`, `none` when it converted fewer than two items. -/
def extract_status_code (scanned : Option Int) : Int :=
  match scanned with
  | some status_code => status_code
  | none => 0

/-- `send_request_to_server`, given the outcome of its `send`. -/
def send_request_to_server (send_ok : Bool) (e : cache_entry_t) : Int :=
  match e.original_request with
  | none => -1
  | some _ =>
    if e.request_size = 0 then -1
    else if send_ok then 0 else -1

/-- The locals of `process_response_headers` once `strstr` has found the
terminator: `mem` is the memory at `headers_buf` (the `headers_len` bytes read
so far and what lies behind them), `header_size` and `status_code` are as
computed in lines 30 and 31. -/
structure HeaderScan where
  mem : Bytes
  headers_len : Nat
  header_size : Nat
  status_code : Int
  deriving DecidableEq, Repr

/-- Lines 24 to 31 of `process_response_headers`: the search for the
terminator. `headers_buf` holds the `headers_len` bytes read so far and `tail`
is the memory behind them, which `strstr` reads on when the bytes hold no zero
byte. `none` is the early `return 0`. -/
def scan_response_headers (headers_buf : Bytes) (headers_len : Nat) (tail : Bytes)
    (scanned : Option Int) : Option HeaderScan :=
  let mem := headers_buf ++ tail
  match strstr mem CRLFCRLF with
  | none => none
  | some header_end =>
    some { mem := mem, headers_len := headers_len, header_size := header_end + 4,
           status_code := extract_status_code scanned }

/-- Lines 33 to 41 of `process_response_headers`: the critical section that
publishes the headers. -/
def publish_headers (e : cache_entry_t) (p : HeaderScan) (malloc_ok : Bool) : cache_entry_t :=
  let e1 : cache_entry_t :=
    if malloc_ok then
      { e with headers := some (p.mem.take p.header_size), headers_size := p.header_size }
    else
      { e with headers := none }
  { e1 with status_code := p.status_code }

/-- Lines 43 to 52 of `process_response_headers`: the bytes passed to
`add_chunk_to_cache`, `none` when the call is not made. -/
def response_body_start (p : HeaderScan) : Option Bytes :=
  if p.status_code = 200 then
    let body_start := p.header_size
    if body_start < p.headers_len then
      some ((p.mem.drop body_start).take (p.headers_len - body_start))
    else none
  else
    if p.header_size < p.headers_len then
      some ((p.mem.drop p.header_size).take (p.headers_len - p.header_size))
    else none

/-- The result of one `recv` on the upstream socket. -/
inductive RecvResult where
  | data (b : Bytes)
  | eagain
  | error
  | eof
  deriving DecidableEq, Repr

/-- The outcomes of the calls a fetcher step may make. -/
structure FetchEnv where
  connect_ok : Bool
  send_ok : Bool
  malloc_ok : Bool
  realloc_ok : Bool
  recv : RecvResult
  tail : Bytes
  scanned : Option Int
  deriving DecidableEq, Repr

/-- Program points of `download_thread`. -/
inductive FPc where
  /-- Line 75: `parse_url`. -/
  | parse_url
  /-- Line 81: `connect_to_server`. -/
  | connect
  /-- Line 88: `send_request_to_server`. -/
  | send_request
  /-- Line 94: `malloc (BUFFER_SIZE)`. -/
  | alloc_buf
  /-- Line 106: test of the read loop (reads the shutdown flags), `recv`, and
  the thread-local work that follows, up to the next lock. -/
  | recv_loop
  /-- Line 33 of `process_response_headers`: about to lock and publish. -/
  | publish (p : HeaderScan)
  /-- About to call `add_chunk_to_cache (entry, data)`, from
  `process_response_headers` or from line 129. -/
  | append (data : Bytes)
  /-- Line 133: after the loop, up to `download_complete`. -/
  | finish
  /-- The thread has returned. -/
  | exited
  deriving DecidableEq, Repr

/-- The locals of `download_thread`. -/
structure Fetcher where
  pc : FPc
  headers_buf : Bytes
  headers_capacity : Nat
  headers_len : Nat
  headers_done : Bool
  deriving DecidableEq, Repr

/-- A fetcher thread that `pthread_create` has just started. -/
def Fetcher.start : Fetcher :=
  { pc := .parse_url, headers_buf := [], headers_capacity := 0, headers_len := 0,
    headers_done := false }

/-- One round of the read loop of `download_thread` up to its next lock
(lines 106 to 129): the test of the loop, the `recv`, and for a read before
the headers are done the growth of `headers_buf`, the copy and the search for
the terminator. All of it is local to the thread. -/
def recv_loop_step (running force_shutdown : Bool) (env : FetchEnv) (f : Fetcher) : Fetcher :=
  if running = true ∧ force_shutdown = false then
    match env.recv with
    | .eagain => f
    | .error => { f with pc := .finish }
    | .eof => { f with pc := .finish }
    | .data b =>
      let buffer := b.take CHUNK_SIZE
      let n := buffer.length
      if n = 0 then { f with pc := .finish }
      else if f.headers_done = false then
        let grow : Bool := decide (f.headers_len + n ≥ f.headers_capacity)
        let capacity := if grow then (f.headers_capacity * 2) % SIZE_MOD else f.headers_capacity
        if grow = true ∧ env.realloc_ok = false then
          { f with pc := .finish, headers_capacity := capacity }
        else
          let buf := f.headers_buf ++ buffer
          let len := f.headers_len + n
          let f1 := { f with headers_buf := buf, headers_len := len,
                             headers_capacity := capacity }
          match scan_response_headers buf len env.tail env.scanned with
          | none => f1
          | some p => { f1 with pc := .publish p, headers_done := true }
      else
        { f with pc := .append buffer }
  else { f with pc := .finish }

/-- One step of `download_thread`: the fetcher, the cache, the entry, and
whether the entry's condition was broadcast. -/
def download_thread_step (running force_shutdown : Bool) (env : FetchEnv) (c : cache_t)
    (e : cache_entry_t) (f : Fetcher) : Fetcher × cache_t × cache_entry_t × Bool :=
  match f.pc with
  | .parse_url =>
    if parse_url e.url < 0 then ({ f with pc := .exited }, c, set_cache_error e, true)
    else ({ f with pc := .connect }, c, e, false)
  | .connect =>
    if env.connect_ok then ({ f with pc := .send_request }, c, e, false)
    else ({ f with pc := .exited }, c, set_cache_error e, true)
  | .send_request =>
    if send_request_to_server env.send_ok e < 0 then
      ({ f with pc := .exited }, c, set_cache_error e, true)
    else ({ f with pc := .alloc_buf }, c, e, false)
  | .alloc_buf =>
    if env.malloc_ok then
      ({ f with pc := .recv_loop, headers_buf := [], headers_capacity := BUFFER_SIZE,
                headers_len := 0, headers_done := false }, c, e, false)
    else ({ f with pc := .exited }, c, set_cache_error e, true)
  | .recv_loop => (recv_loop_step running force_shutdown env f, c, e, false)
  | .publish p =>
    let e1 := publish_headers e p env.malloc_ok
    match response_body_start p with
    | some data => ({ f with pc := .append data }, c, e1, true)
    | none => ({ f with pc := .recv_loop }, c, e1, true)
  | .append data =>
    let res := add_chunk_to_cache c e data env.malloc_ok
    ({ f with pc := .recv_loop }, res.2.1, res.2.2, decide (res.1 = 0))
  | .finish => ({ f with pc := .exited }, c, download_complete e, true)
  | .exited => (f, c, e, false)

/-! ## One entry with its handlers and its fetcher -/

/-- Where a client thread stands once it has pinned the entry. -/
inductive Phase where
  /-- About to call `start_download_if_needed`. -/
  | ignite
  /-- Inside `send_cached_data`, or back from it and about to release. -/
  | streaming
  /-- After `release_cache_entry`. -/
  | released
  deriving DecidableEq, Repr

/-- A client thread (`client_thread` from line 161 on). -/
structure Handler where
  phase : Phase
  request : Bytes
  sender : Sender
  deriving DecidableEq, Repr

/-- The outcomes of the calls a handler step may make. A `send` that does not
fail (`send_ok`) returns the number of bytes it has transferred, which may be
less than the length of its buffer: `short_count` is that number when it is
less, and `none` when the whole buffer was transferred. The handler tests the
return value against zero only (lines 18 and 29 of `client.c`), so its steps
do not depend on `short_count`. -/
structure HandlerEnv where
  malloc_ok : Bool
  send_ok : Bool
  thread_ok : Bool
  short_count : Option Nat
  deriving DecidableEq, Repr

/-- The threads that work on one entry, the entry, and the shutdown flags,
for as long as the entry is registered (the evictor is not part of this
system). `ignitions` is a ghost log: the value of `need_download` in each call
of `start_download_if_needed`, in order. -/
structure Sys where
  cache : cache_t
  entry : cache_entry_t
  handlers : List Handler
  fetchers : List Fetcher
  running : Bool
  force_shutdown : Bool
  ignitions : List Bool
  deriving DecidableEq, Repr

/-- What the scheduler and the environment can do next. -/
inductive Action where
  /-- Another client thread asks for the url and pins the entry
  (`find_or_create_cache_entry` finds it). -/
  | join (now : Int) (request : Bytes)
  /-- Handler `i` makes its next step. -/
  | handler (i : Nat) (env : HandlerEnv)
  /-- Handler `i` returns spuriously from `pthread_cond_wait`. -/
  | wake (i : Nat)
  /-- Fetcher `j` makes its next step. -/
  | fetcher (j : Nat) (env : FetchEnv)
  /-- A `SIGINT` or `SIGTERM` is delivered (`signal_handler`). -/
  | signal
  deriving DecidableEq, Repr

/-- The entry right after the client thread that created it got it back from
`find_or_create_cache_entry`. -/
def Sys.init (c : cache_t) (url : Bytes) (now : Int) (request : Bytes) : Sys :=
  { cache := c
    entry := create_cache_entry url now
    handlers := [{ phase := .ignite, request := request, sender := Sender.start }]
    fetchers := []
    running := true
    force_shutdown := false
    ignitions := [] }

/-- `pthread_cond_broadcast`: every handler blocked on the entry's condition
returns from its wait. -/
def broadcast (hs : List Handler) : List Handler :=
  hs.map (fun h => { h with sender := sender_wake h.sender })

/-- One step of a client thread: the handler, the entry, and for the ignition
step the value of `need_download` (`none` for any other step). -/
def handler_step (running force_shutdown : Bool) (env : HandlerEnv) (e : cache_entry_t)
    (h : Handler) : Handler × cache_entry_t × Option Bool :=
  match h.phase with
  | .ignite =>
    let res := start_download_if_needed e h.request h.request.length env.malloc_ok
    ({ h with phase := .streaming }, res.2, some res.1)
  | .streaming =>
    match h.sender.pc with
    | .returned _ => ({ h with phase := .released }, release_cache_entry e, none)
    | _ =>
      ({ h with sender :=
            sender_step running force_shutdown env.malloc_ok env.send_ok e h.sender }, e, none)
  | .released => (h, e, none)

/-- One step of the system. An action that names a thread that does not
exist changes nothing. -/
def Sys.step (s : Sys) : Action → Sys
  | .join now request =>
    { s with
      entry := pin_entry s.entry now
      handlers := s.handlers ++ [{ phase := .ignite, request := request,
                                   sender := Sender.start }] }
  | .handler i env =>
    match s.handlers[i]? with
    | none => s
    | some h =>
      let res := handler_step s.running s.force_shutdown env s.entry h
      { s with
        entry := res.2.1
        handlers := s.handlers.set i res.1
        ignitions :=
          match res.2.2 with
          | some need_download => s.ignitions ++ [need_download]
          | none => s.ignitions
        fetchers :=
          if res.2.2 = some true ∧ env.thread_ok = true then s.fetchers ++ [Fetcher.start]
          else s.fetchers }
  | .wake i =>
    match s.handlers[i]? with
    | none => s
    | some h => { s with handlers := s.handlers.set i { h with sender := sender_wake h.sender } }
  | .fetcher j env =>
    match s.fetchers[j]? with
    | none => s
    | some f =>
      let res := download_thread_step s.running s.force_shutdown env s.cache s.entry f
      { s with
        cache := res.2.1
        entry := res.2.2.1
        fetchers := s.fetchers.set j res.1
        handlers := if res.2.2.2 then broadcast s.handlers else s.handlers }
  | .signal =>
    { s with
      force_shutdown := if s.running then s.force_shutdown else true
      running := false }

/-- The system after a schedule. -/
def Sys.run (s : Sys) (sched : List Action) : Sys :=
  sched.foldl Sys.step s

/-! ## Example data -/

/-- The bytes of `"http://x/"`. -/
def EX_URL : Bytes := [104, 116, 116, 112, 58, 47, 47, 120, 47]

/-- The bytes of `"GET http://x/ HTTP/1.0\r\n\r\n"`. -/
def EX_REQUEST : Bytes :=
  [71, 69, 84, 32, 104, 116, 116, 112, 58, 47, 47, 120, 47, 32, 72, 84, 84, 80, 47, 49, 46, 48,
   13, 10, 13, 10]

/-- The bytes of `"HTTP/1.0 200 OK\r\n\r\n"`. -/
def EX_HEADERS : Bytes :=
  [72, 84, 84, 80, 47, 49, 46, 48, 32, 50, 48, 48, 32, 79, 75, 13, 10, 13, 10]

/-- The bytes of `"AB"`. -/
def EX_AB : Bytes := [65, 66]

/-- The bytes of `"CD"`. -/
def EX_CD : Bytes := [67, 68]

/-- A handler step in which every call succeeds and a `send` transfers its
whole buffer. -/
def ENV_OK : HandlerEnv :=
  { malloc_ok := true, send_ok := true, thread_ok := true, short_count := none }

/-- A fetcher step in which every call succeeds and `recv` yields `r`; the
memory behind the header buffer starts with a zero byte and `sscanf` reads
status 200. -/
def env_recv (r : RecvResult) : FetchEnv :=
  { connect_ok := true, send_ok := true, malloc_ok := true, realloc_ok := true, recv := r,
    tail := [0], scanned := some 200 }

/-- A schedule of the late joiner scenario. Client A (handler 0) creates the
entry and ignites the fetch; the upstream delivers the headers and `AB` in
one read, later `CD`, then closes. A is woken by the publication of the
headers and reads `entry->chunks` before `AB` is appended. Client B
(handler 1) joins after `AB` was appended and before `CD` is. -/
def late_joiner_schedule : List Action :=
  [ .handler 0 ENV_OK,                                    -- A: ignition, spawns the fetcher
    .handler 0 ENV_OK,                                    -- A: no headers yet, waits
    .fetcher 0 (env_recv .eof),                           -- parse_url
    .fetcher 0 (env_recv .eof),                           -- connect_to_server
    .fetcher 0 (env_recv .eof),                           -- send_request_to_server
    .fetcher 0 (env_recv .eof),                           -- malloc of headers_buf
    .fetcher 0 (env_recv (.data (EX_HEADERS ++ EX_AB))),  -- recv: headers and AB
    .fetcher 0 (env_recv .eof),                           -- headers published, A woken
    .handler 0 ENV_OK,                                    -- A: current = entry->chunks = NULL
    .fetcher 0 (env_recv .eof),                           -- AB appended
    .join 1 EX_REQUEST,                                   -- B pins the entry
    .handler 1 ENV_OK,                                    -- B: ignition, no spawn
    .handler 1 ENV_OK,                                    -- B: current = entry->chunks = AB
    .handler 1 ENV_OK,                                    -- B: sends the headers
    .handler 1 ENV_OK,                                    -- B: loop test
    .handler 1 ENV_OK,                                    -- B: takes AB, current = AB->next = NULL
    .handler 1 ENV_OK,                                    -- B: sends AB
    .handler 1 ENV_OK,                                    -- B: 1 >= 1, waits
    .handler 0 ENV_OK,                                    -- A: sends the headers
    .fetcher 0 (env_recv (.data EX_CD)),                  -- recv: CD
    .fetcher 0 (env_recv .eof),                           -- CD appended, B woken
    .handler 1 ENV_OK,                                    -- B: loop test
    .handler 1 ENV_OK,                                    -- B: 1 < 2 but current = NULL
    .handler 0 ENV_OK,                                    -- A: loop test
    .handler 0 ENV_OK,                                    -- A: 0 < 2 but current = NULL
    .fetcher 0 (env_recv .eof),                           -- recv: EOF
    .fetcher 0 (env_recv .eof),                           -- download_complete
    .handler 1 ENV_OK,                                    -- B: loop test
    .handler 1 ENV_OK,                                    -- B: snapshot COMPLETE, returns 0
    .handler 0 ENV_OK,                                    -- A: loop test
    .handler 0 ENV_OK ]                                   -- A: snapshot COMPLETE, returns 0

/-- The system after the late joiner schedule. -/
def late_joiner_final : Sys :=
  (Sys.init (init_cache 100) EX_URL 0 EX_REQUEST).run late_joiner_schedule

/-- A completed entry with the example headers and the chunks `AB`, `CD`. -/
def completed_example : cache_entry_t :=
  { create_cache_entry EX_URL 0 with
    headers := some EX_HEADERS
    headers_size := 19
    status_code := 200
    chunks := [EX_AB, EX_CD]
    total_size := 4
    status := CACHE_COMPLETE
    ref_count := 0
    num_chunks := 2
    original_request := some EX_REQUEST
    request_size := 26 }

/-! ## Observations and invariants of the one-entry system -/

/-- The chunk of a payload that is one. -/
def Payload.chunk_of : Payload → Option Bytes
  | .chunk b => some b
  | .headers _ => none

/-- The chunks a handler has sent so far, in the order of its sends. -/
def sent_chunks (s : Sender) : List Bytes :=
  s.out.filterMap Payload.chunk_of

/-- The bytes a handler has passed to the `send` calls that did not fail,
concatenated in order. They are the bytes delivered to its client only when
each of these calls transferred its whole buffer. -/
def offered (s : Sender) : Bytes :=
  (s.out.map Payload.bytes).flatten

/-- The bytes that a `send` of `buf` transfers when it does not fail: the
first `count` bytes when it returns a count below the length of `buf`, else
all of `buf`. -/
def transferred (env : HandlerEnv) (buf : Bytes) : Bytes :=
  match env.short_count with
  | some count => buf.take count
  | none => buf

/-- The buffer of the `send` that the next step of a handler makes, when the
step makes one and it does not fail: the header copy in
`send_headers_to_client` (line 18), the chunk in `send_chunk_to_client`
(line 28). -/
def handler_send (env : HandlerEnv) (e : cache_entry_t) (h : Handler) : Option Bytes :=
  match h.phase with
  | .streaming =>
    match h.sender.pc with
    | .send_headers => (send_headers_to_client env.malloc_ok env.send_ok e).2
    | .send_chunk to_send =>
      if send_chunk_to_client env.send_ok < 0 then none else some (e.chunks.getD to_send [])
    | _ => none
  | _ => none

/-- The bytes that action `a`, taken in state `s`, delivers to the client of
handler `i`. -/
def Sys.delivered_by (s : Sys) (i : Nat) : Action → Bytes
  | .handler k env =>
    if k = i then
      match s.handlers[k]? with
      | some h =>
        match handler_send env s.entry h with
        | some buf => transferred env buf
        | none => []
      | none => []
    else []
  | _ => []

/-- The bytes delivered to the client of handler `i` along a schedule that
starts in state `s`. -/
def Sys.delivered (s : Sys) (i : Nat) : List Action → Bytes
  | [] => []
  | a :: rest => s.delivered_by i a ++ (s.step a).delivered i rest

/-- Action `a`, taken in state `s`, is a call of `send_headers_to_client` whose
`malloc` of the header copy (line 10) fails. -/
def Sys.header_alloc_fails (s : Sys) : Action → Bool
  | .handler k env =>
    match s.handlers[k]? with
    | some h =>
      decide (h.phase = .streaming ∧ h.sender.pc = .send_headers ∧ s.entry.headers ≠ none ∧
        s.entry.headers_size > 0 ∧ env.malloc_ok = false)
    | none => false
  | _ => false

/-- Action `a`, taken in state `s`, is a `send` that does not fail and
transfers less than its buffer. -/
def Sys.send_is_short (s : Sys) : Action → Bool
  | .handler k env =>
    match s.handlers[k]? with
    | some h =>
      match handler_send env s.entry h with
      | some buf => decide (transferred env buf ≠ buf)
      | none => false
    | none => false
  | _ => false

/-- Along the schedule from state `s` no allocation of a header copy fails
and every `send` that does not fail transfers its whole buffer. -/
def Sys.undisturbed (s : Sys) : List Action → Bool
  | [] => true
  | a :: rest =>
    !(s.header_alloc_fails a) && !(s.send_is_short a) && (s.step a).undisturbed rest

/-- What handler `i` has passed to the `send` calls that did not fail; nothing
when there is no handler `i`. -/
def Sys.offered_at (s : Sys) (i : Nat) : Bytes :=
  match s.handlers[i]? with
  | some h => offered h.sender
  | none => []

/-- What `send_headers_to_client` sends for the entry as it is now when its
allocation and its send succeed. -/
def header_payload (e : cache_entry_t) : Option Bytes :=
  (send_headers_to_client true true e).2

/-- The fetcher is past the point where it could still publish headers. -/
def no_publish_ahead (f : Fetcher) : Prop :=
  match f.pc with
  | .exited => True
  | .finish => True
  | .append _ => True
  | .recv_loop => f.headers_done = true
  | _ => False

/-- The locals of a fetcher fit its program point: the headers are marked
done once the terminator was found, and a header block about to be published
is not empty. -/
def fetcher_ok (f : Fetcher) : Prop :=
  match f.pc with
  | .publish p => f.headers_done = true ∧ 0 < p.header_size
  | .append _ => f.headers_done = true
  | _ => True

/-- The cursor of a handler agrees with what it has sent: the chunks sent are
the first chunks of the list, a chunk about to be sent is the next one, and a
non-null `current` points to the chunk after those. -/
def cursor_ok (chunks : List Bytes) (s : Sender) : Prop :=
  sent_chunks s = chunks.take (sent_chunks s).length ∧
  (match s.pc with
   | .send_chunk i =>
     i = (sent_chunks s).length ∧ i < chunks.length ∧
       ∀ j, s.current = some j → j = i + 1 ∧ j < chunks.length
   | .enter => s.out = []
   | .hdr_blocked => s.out = []
   | .send_headers => s.out = [] ∧ ∀ j, s.current = some j → j = 0 ∧ j < chunks.length
   | .returned _ => True
   | _ => ∀ j, s.current = some j → j = (sent_chunks s).length ∧ j < chunks.length)

/-- Invariant of the one-entry system. -/
structure Sys.Inv (s : Sys) : Prop where
  one_fetcher : s.fetchers.length ≤ 1
  fresh : s.ignitions = [] →
    s.fetchers = [] ∧ s.entry.status = CACHE_LOADING ∧
    s.entry.loading_thread_active = false ∧ s.entry.headers = none ∧
    ∀ h ∈ s.handlers, h.phase = .ignite
  ignited : s.ignitions ≠ [] →
    (∃ k, s.ignitions = true :: List.replicate k false) ∧
    (s.entry.loading_thread_active = true ∨ s.entry.status ≠ CACHE_LOADING)
  active : ∀ f ∈ s.fetchers, f.pc ≠ .exited →
    s.entry.status = CACHE_LOADING ∧ s.entry.loading_thread_active = true
  unpublished : ∀ f ∈ s.fetchers, ¬ no_publish_ahead f → s.entry.headers = none
  locals_ok : ∀ f ∈ s.fetchers, fetcher_ok f
  headers_size_pos : ∀ h, s.entry.headers = some h → 0 < s.entry.headers_size
  idle : ∀ h ∈ s.handlers, h.phase = .ignite → h.sender = Sender.start
  cursor : ∀ h ∈ s.handlers, cursor_ok s.entry.chunks h.sender

/-- No headers are published and none will be: the headers are unset, the
ignition is over and the fetcher, if any, is past the publication. -/
def Sys.never_headers (s : Sys) : Prop :=
  s.entry.headers = none ∧ s.ignitions ≠ [] ∧ ∀ f ∈ s.fetchers, no_publish_ahead f

/-- What a handler has sent agrees with the published headers, stated for a
header payload `hp`, for `never` (no headers will ever be published),
`present` (the headers are set) and the `running` flag: either the handler has
sent the header payload and then chunks, or it has sent chunks only, and then
either no headers will ever be published or the handler has sent no chunk and
will send none before it returns. -/
def header_ok_at (hp : Option Bytes) (never present : Prop) (running : Bool) (h : Sender) :
    Prop :=
  (∃ b, hp = some b ∧ h.out = Payload.headers b :: (sent_chunks h).map Payload.chunk) ∨
  (h.out = (sent_chunks h).map Payload.chunk ∧
    match h.pc with
    | .enter => True
    | .hdr_blocked => True
    | .send_headers => never ∨ present ∨ running = false
    | .loop_top => never ∨ (sent_chunks h = [] ∧ running = false)
    | .returned _ => never ∨ sent_chunks h = []
    | _ => never)

/-- What every handler has sent agrees with the published headers. -/
def Sys.headers_ok (s : Sys) : Prop :=
  ∀ h ∈ s.handlers,
    header_ok_at (header_payload s.entry) s.never_headers (s.entry.headers ≠ none) s.running
      h.sender

/-- A handler step in which a `send` transfers its whole buffer and the
allocation fails. -/
def ENV_NOMEM : HandlerEnv :=
  { malloc_ok := false, send_ok := true, thread_ok := true, short_count := none }

/-- A schedule in which the upstream delivers the headers and `AB` and
closes; client A (handler 0) then streams the completed entry; client B
(handler 1) joins and streams it too, but the `malloc` of its header copy in
`send_headers_to_client` fails. -/
def alloc_failure_schedule : List Action :=
  [ .handler 0 ENV_OK,                                    -- A: ignition, spawns the fetcher
    .fetcher 0 (env_recv .eof),                           -- parse_url
    .fetcher 0 (env_recv .eof),                           -- connect_to_server
    .fetcher 0 (env_recv .eof),                           -- send_request_to_server
    .fetcher 0 (env_recv .eof),                           -- malloc of headers_buf
    .fetcher 0 (env_recv (.data (EX_HEADERS ++ EX_AB))),  -- recv: headers and AB
    .fetcher 0 (env_recv .eof),                           -- headers published
    .fetcher 0 (env_recv .eof),                           -- AB appended
    .fetcher 0 (env_recv .eof),                           -- recv: EOF
    .fetcher 0 (env_recv .eof),                           -- download_complete
    .handler 0 ENV_OK,                                    -- A: current = entry->chunks = AB
    .handler 0 ENV_OK,                                    -- A: sends the headers
    .handler 0 ENV_OK,                                    -- A: loop test
    .handler 0 ENV_OK,                                    -- A: takes AB
    .handler 0 ENV_OK,                                    -- A: sends AB
    .handler 0 ENV_OK,                                    -- A: returns 0
    .join 1 EX_REQUEST,                                   -- B pins the entry
    .handler 1 ENV_OK,                                    -- B: ignition, no spawn
    .handler 1 ENV_OK,                                    -- B: current = entry->chunks = AB
    .handler 1 ENV_NOMEM,                                 -- B: malloc fails, no headers sent
    .handler 1 ENV_OK,                                    -- B: loop test
    .handler 1 ENV_OK,                                    -- B: takes AB
    .handler 1 ENV_OK,                                    -- B: sends AB
    .handler 1 ENV_OK ]                                   -- B: returns 0

/-- The system after the allocation failure schedule. -/
def alloc_failure_final : Sys :=
  (Sys.init (init_cache 100) EX_URL 0 EX_REQUEST).run alloc_failure_schedule

/-- A handler step in which every call succeeds, but a `send` returns after
one byte (a signal arrives while it waits for room in the socket buffer). -/
def ENV_SHORT : HandlerEnv :=
  { malloc_ok := true, send_ok := true, thread_ok := true, short_count := some 1 }

/-- A schedule in which the upstream delivers the headers and `AB`, then `CD`,
and closes; client A (handler 0) then streams the completed entry; client B
(handler 1) joins and streams it too, but its `send` of `AB` returns 1. -/
def short_send_schedule : List Action :=
  [ .handler 0 ENV_OK,                                    -- A: ignition, spawns the fetcher
    .fetcher 0 (env_recv .eof),                           -- parse_url
    .fetcher 0 (env_recv .eof),                           -- connect_to_server
    .fetcher 0 (env_recv .eof),                           -- send_request_to_server
    .fetcher 0 (env_recv .eof),                           -- malloc of headers_buf
    .fetcher 0 (env_recv (.data (EX_HEADERS ++ EX_AB))),  -- recv: headers and AB
    .fetcher 0 (env_recv .eof),                           -- headers published
    .fetcher 0 (env_recv .eof),                           -- AB appended
    .fetcher 0 (env_recv (.data EX_CD)),                  -- recv: CD
    .fetcher 0 (env_recv .eof),                           -- CD appended
    .fetcher 0 (env_recv .eof),                           -- recv: EOF
    .fetcher 0 (env_recv .eof),                           -- download_complete
    .handler 0 ENV_OK,                                    -- A: current = entry->chunks = AB
    .handler 0 ENV_OK,                                    -- A: sends the headers
    .handler 0 ENV_OK,                                    -- A: loop test
    .handler 0 ENV_OK,                                    -- A: takes AB
    .handler 0 ENV_OK,                                    -- A: sends AB
    .handler 0 ENV_OK,                                    -- A: takes CD
    .handler 0 ENV_OK,                                    -- A: sends CD
    .handler 0 ENV_OK,                                    -- A: returns 0
    .join 1 EX_REQUEST,                                   -- B pins the entry
    .handler 1 ENV_OK,                                    -- B: ignition, no spawn
    .handler 1 ENV_OK,                                    -- B: current = entry->chunks = AB
    .handler 1 ENV_OK,                                    -- B: sends the headers
    .handler 1 ENV_OK,                                    -- B: loop test
    .handler 1 ENV_OK,                                    -- B: takes AB
    .handler 1 ENV_SHORT,                                 -- B: send of AB returns 1
    .handler 1 ENV_OK,                                    -- B: takes CD
    .handler 1 ENV_OK,                                    -- B: sends CD
    .handler 1 ENV_OK ]                                   -- B: returns 0

/-- A continuation of the late joiner schedule: a third client joins the
completed entry and streams it, the fetcher is scheduled again, a signal
arrives. -/
def after_completion_schedule : List Action :=
  [ .join 2 EX_REQUEST,
    .handler 2 ENV_OK,
    .handler 2 ENV_OK,
    .fetcher 0 (env_recv (.data EX_AB)),
    .handler 2 ENV_OK,
    .signal,
    .handler 2 ENV_OK,
    .fetcher 0 (env_recv .error) ]

/-! ## The registry (`cache.c`) -/

/-- The heap of cache entries: the entry stored at each address. Only the
addresses linked in the registry list hold live entries. -/
abbrev Heap := Nat → cache_entry_t

/-- `find_cache_entry_locked`: the first entry in list order whose url is
`url`. -/
def find_cache_entry_locked (heap : Heap) (list : List Nat) (url : Bytes) : Option Nat :=
  list.find? (fun entry => decide ((heap entry).url = url))

/-- `find_or_create_cache_entry`: the pointer returned, the cache and the
heap. `now` is the value of `time(NULL)`; `alloc` is the address that the
`calloc` of `create_cache_entry` returns, `none` when `create_cache_entry`
returns `NULL`. The new entry becomes `cache.head`. -/
def find_or_create_cache_entry (c : cache_t) (heap : Heap) (url : Bytes) (now : Int)
    (alloc : Option Nat) : Option Nat × cache_t × Heap :=
  match find_cache_entry_locked heap c.list url with
  | some entry => (some entry, c, Function.update heap entry (pin_entry (heap entry) now))
  | none =>
    match alloc with
    | some entry =>
      (some entry, { c with list := entry :: c.list },
        Function.update heap entry (create_cache_entry url now))
    | none => (none, c, heap)

/-- `remove_entry_from_list`: unlink the entry. -/
def remove_entry_from_list (c : cache_t) (entry : Nat) : cache_t :=
  { c with list := c.list.erase entry }

/-- The locals of `gc_thread_func` while it holds `cache.mutex` (lines 233 to
263): `todo` holds the entries still to be visited, that is `entry` and the
entries reached from it by `prev`. -/
structure GcScan where
  todo : List Nat
  oldest : Option Nat
  oldest_time : Int
  deriving DecidableEq, Repr

/-- Lines 233 to 236 of `gc_thread_func`: the start of a scan at time `now`,
at `cache.tail`. -/
def gc_begin (c : cache_t) (now : Int) : GcScan :=
  { todo := c.list.reverse, oldest := none, oldest_time := now }

/-- One round of the scan loop (lines 238 to 246), on the entry as it is
now. -/
def gc_visit (heap : Heap) (g : GcScan) : GcScan :=
  match g.todo with
  | [] => g
  | entry :: rest =>
    if (heap entry).ref_count = 0 ∧ (heap entry).status = CACHE_COMPLETE ∧
        (heap entry).last_accessed < g.oldest_time then
      { todo := rest, oldest := some entry, oldest_time := (heap entry).last_accessed }
    else
      { g with todo := rest }

/-- The scan loop run to its end on a heap that nobody changes. -/
def gc_scan_from (heap : Heap) : List Nat → Option Nat → Int → Option Nat × Int
  | [], oldest, oldest_time => (oldest, oldest_time)
  | entry :: rest, oldest, oldest_time =>
    let g := gc_visit heap { todo := entry :: rest, oldest := oldest, oldest_time := oldest_time }
    gc_scan_from heap rest g.oldest g.oldest_time

/-- The victim that a scan at time `now` selects on a heap that nobody
changes (`oldest` at line 249). -/
def gc_scan (c : cache_t) (heap : Heap) (now : Int) : Option Nat :=
  (gc_scan_from heap c.list.reverse none now).1

/-- Lines 249 to 263 of `gc_thread_func`, given `oldest`: the cache and the
entry that is unlinked and passed to `free_cache_entry`, if any. -/
def gc_finish (c : cache_t) (heap : Heap) (oldest : Option Nat) : cache_t × Option Nat :=
  match oldest with
  | some entry =>
    if (heap entry).ref_count = 0 then
      (remove_entry_from_list
        { c with total_size :=
            (c.total_size + (SIZE_MOD - (heap entry).total_size % SIZE_MOD)) % SIZE_MOD }
        entry,
       some entry)
    else (c, none)
  | none => (c, none)

/-- The sum of the sizes of the chunks of an entry. -/
def chunk_bytes (e : cache_entry_t) : Nat :=
  (e.chunks.map List.length).sum

/-- The sum of `entry->total_size` over the entries in the registry list. -/
def entries_total (c : cache_t) (heap : Heap) : Nat :=
  (c.list.map (fun entry => (heap entry).total_size)).sum

/-- The body bytes resident in memory: the sum of the sizes of all chunks of
all entries in the registry list. -/
def resident_bytes (c : cache_t) (heap : Heap) : Nat :=
  (c.list.map (fun entry => chunk_bytes (heap entry))).sum

/-- The program state of `cache.c`: the cache, the heap, the evictor's locals
while it holds `cache.mutex` (`none` when it does not), and a ghost log of the
entries passed to `free_cache_entry`, each as it was at that moment. -/
structure Registry where
  cache : cache_t
  heap : Heap
  gc : Option GcScan
  freed : List cache_entry_t

/-- The registry after `init_cache`. -/
def Registry.init (max_size_mb : Nat) (heap : Heap) : Registry :=
  { cache := init_cache max_size_mb, heap := heap, gc := none, freed := [] }

/-- The calls that threads make on the registry and its entries. A call on an
entry names its address. -/
inductive Op where
  /-- `find_or_create_cache_entry (url)` at time `now`. -/
  | find_or_create (url : Bytes) (now : Int) (alloc : Option Nat)
  /-- `release_cache_entry (entry)`. -/
  | release (entry : Nat)
  /-- The critical section of `start_download_if_needed (entry, request)`. -/
  | start_download (entry : Nat) (request : Bytes) (malloc_ok : Bool)
  /-- The critical section of `process_response_headers` on `entry`. -/
  | publish (entry : Nat) (p : HeaderScan) (malloc_ok : Bool)
  /-- `add_chunk_to_cache (entry, data)`. -/
  | add_chunk (entry : Nat) (data : Bytes) (malloc_ok : Bool)
  /-- `set_cache_error (entry)`. -/
  | set_error (entry : Nat)
  /-- `download_complete (entry)`. -/
  | complete (entry : Nat)
  /-- The evictor locks `cache.mutex`, passes the size test and starts a scan
  at time `now`. -/
  | gc_begin (now : Int)
  /-- The evictor visits the next entry of its scan. -/
  | gc_visit
  /-- The evictor, at the end of its scan, removes and frees its victim or
  not, and unlocks `cache.mutex`. -/
  | gc_finish
  deriving DecidableEq, Repr

/-- Apply `f` to the entry at `entry` when the entry is linked in the
registry. A call on an address that is not linked (a dangling pointer) is not
modelled and changes nothing. -/
def Registry.on_entry (r : Registry) (entry : Nat) (f : cache_entry_t → cache_entry_t) :
    Registry :=
  if entry ∈ r.cache.list then
    { r with heap := Function.update r.heap entry (f (r.heap entry)) }
  else r

/-- One call on the registry. `find_or_create_cache_entry` and
`add_chunk_to_cache` need `cache.mutex` and do not run while the evictor holds
it; `calloc` does not return the address of a live entry, and `malloc` does
not succeed for a chunk that would bring the chunk bytes resident in the
registry to `2 ^ 64` or more (they would not fit the address space). The size
test of the evictor (a floating point comparison) is not modelled: a scan may
start at any time. -/
def Registry.step (r : Registry) : Op → Registry
  | .find_or_create url now alloc =>
    match r.gc with
    | some _ => r
    | none =>
      if (∃ a, alloc = some a ∧ a ∈ r.cache.list) then r
      else
        let res := find_or_create_cache_entry r.cache r.heap url now alloc
        { r with cache := res.2.1, heap := res.2.2 }
  | .release entry => r.on_entry entry release_cache_entry
  | .start_download entry request malloc_ok =>
    r.on_entry entry (fun e => (start_download_if_needed e request request.length malloc_ok).2)
  | .publish entry p malloc_ok => r.on_entry entry (fun e => publish_headers e p malloc_ok)
  | .add_chunk entry data malloc_ok =>
    match r.gc with
    | some _ => r
    | none =>
      if entry ∈ r.cache.list then
        let fits : Bool := decide (resident_bytes r.cache r.heap + data.length < SIZE_MOD)
        let res := add_chunk_to_cache r.cache (r.heap entry) data (malloc_ok && fits)
        { r with cache := res.2.1, heap := Function.update r.heap entry res.2.2 }
      else r
  | .set_error entry => r.on_entry entry set_cache_error
  | .complete entry => r.on_entry entry download_complete
  | .gc_begin now =>
    match r.gc with
    | some _ => r
    | none => { r with gc := some (gc_begin r.cache now) }
  | .gc_visit =>
    match r.gc with
    | some g => { r with gc := some (gc_visit r.heap g) }
    | none => r
  | .gc_finish =>
    match r.gc with
    | some g =>
      match g.todo with
      | [] =>
        let res := gc_finish r.cache r.heap g.oldest
        { r with
          cache := res.1
          gc := none
          freed :=
            match res.2 with
            | some entry => r.freed ++ [r.heap entry]
            | none => r.freed }
      | _ :: _ => r
    | none => r

/-- The registry after a sequence of calls. -/
def Registry.run (r : Registry) (ops : List Op) : Registry :=
  ops.foldl Registry.step r

/-- Invariant of the registry. -/
structure Registry.Inv (r : Registry) : Prop where
  nodup_list : r.cache.list.Nodup
  nodup_url : (r.cache.list.map (fun entry => (r.heap entry).url)).Nodup
  bounded : resident_bytes r.cache r.heap < SIZE_MOD
  cache_size : r.cache.total_size = entries_total r.cache r.heap
  entry_size : ∀ entry ∈ r.cache.list,
    (r.heap entry).total_size = chunk_bytes (r.heap entry)
  idle_flag : ∀ entry ∈ r.cache.list,
    (r.heap entry).status ≠ CACHE_LOADING → (r.heap entry).loading_thread_active = false
  scan_ok : ∀ g, r.gc = some g →
    (∀ entry ∈ g.todo, entry ∈ r.cache.list) ∧
    (∀ entry, g.oldest = some entry →
      entry ∈ r.cache.list ∧ (r.heap entry).status ≠ CACHE_LOADING)
  freed_ok : ∀ e ∈ r.freed,
    e.ref_count = 0 ∧ e.status ≠ CACHE_LOADING ∧ e.loading_thread_active = false

/-- The bytes of `"http://y/"`. -/
def EX_URL2 : Bytes := [104, 116, 116, 112, 58, 47, 47, 121, 47]

/-- A heap that holds a fresh entry without url at every address. -/
def EX_HEAP : Heap := fun _ => create_cache_entry [] 0

/-- A sequence of calls: a client fetches `http://x/` (two chunks) and
releases it, a second client starts on `http://y/`, a third one asks for
`http://x/` again and releases it, then the evictor scans at time 9 and
removes the first entry. -/
def registry_example_ops : List Op :=
  [ .find_or_create EX_URL 1 (some 0),
    .start_download 0 EX_REQUEST true,
    .add_chunk 0 EX_AB true,
    .find_or_create EX_URL2 2 (some 1),
    .start_download 1 EX_REQUEST true,
    .add_chunk 0 EX_CD true,
    .add_chunk 1 EX_AB true,
    .complete 0,
    .release 0,
    .find_or_create EX_URL 3 (some 2),
    .release 0,
    .gc_begin 9,
    .gc_visit,
    .gc_visit,
    .gc_finish ]

/-- The registry after the example calls without the evictor's. -/
def registry_example_mid : Registry :=
  (Registry.init 100 EX_HEAP).run (registry_example_ops.take 11)

/-- The registry after the example calls. -/
def registry_example_final : Registry :=
  (Registry.init 100 EX_HEAP).run registry_example_ops

/-- A cache with one linked entry at address 0. -/
def one_entry_cache : cache_t := { list := [0], total_size := 4, max_size := 4 }

/-- A heap whose entries are the completed example entry, last accessed at
time 5 and not pinned. -/
def one_entry_heap : Heap := fun _ => { completed_example with last_accessed := 5 }

/-- What the scan requires of a victim besides its age: not pinned and
COMPLETE. -/
def evictable (e : cache_entry_t) : Prop :=
  e.ref_count = 0 ∧ e.status = CACHE_COMPLETE

/-- The entry that the evictor frees in the example, as it is before the
scan. -/
def EX_FREED : cache_entry_t := registry_example_mid.heap 0

/-! ## The failed read scenario -/

/-- A schedule in which the upstream delivers the headers and `AB`, and the
next `recv` fails with `ECONNRESET`. -/
def before_failed_read : List Action :=
  [ .handler 0 ENV_OK,                                    -- A: ignition, spawns the fetcher
    .fetcher 0 (env_recv .eof),                           -- parse_url
    .fetcher 0 (env_recv .eof),                           -- connect_to_server
    .fetcher 0 (env_recv .eof),                           -- send_request_to_server
    .fetcher 0 (env_recv .eof),                           -- malloc of headers_buf
    .fetcher 0 (env_recv (.data (EX_HEADERS ++ EX_AB))),  -- recv: headers and AB
    .fetcher 0 (env_recv .eof),                           -- headers published
    .fetcher 0 (env_recv .eof) ]                          -- AB appended

/-- Client A streams what the entry holds until `send_cached_data` returns. -/
def recv_error_rest : List Action :=
  [ .handler 0 ENV_OK,                                    -- A: current = entry->chunks = AB
    .handler 0 ENV_OK,                                    -- A: sends the headers
    .handler 0 ENV_OK,                                    -- A: loop test
    .handler 0 ENV_OK,                                    -- A: takes AB
    .handler 0 ENV_OK,                                    -- A: sends AB
    .handler 0 ENV_OK,                                    -- A: loop test
    .handler 0 ENV_OK ]                                   -- A: snapshot COMPLETE, returns 0

/-- The system after the failed read: the schedule before it, the `recv` that
fails, the fetcher's next step, and client A streaming to the end. -/
def recv_error_final : Sys :=
  (Sys.init (init_cache 100) EX_URL 0 EX_REQUEST).run
    (before_failed_read ++ [.fetcher 0 (env_recv .error), .fetcher 0 (env_recv .eof)] ++
      recv_error_rest)

/-! ## The path of the on-disk mirror (`cache.c`) -/

/-- The modulus of `unsigned long` arithmetic (LP64). -/
def ULONG_MOD : Nat := 2 ^ 64

/-- The bytes of `CACHE_DIR` (`"cache"`) of `common.h`. -/
def CACHE_DIR : Bytes := [99, 97, 99, 104, 101]

/-- The bytes of `".cache"`. -/
def DOT_CACHE : Bytes := [46, 99, 97, 99, 104, 101]

/-- The value of `c` after `c = *url++` for the byte `b` that `url` points
to: the `char` converted to `int`. Plain `char` is signed on some platforms
(x86-64 Linux among them) and unsigned on others; `char_signed` says which. -/
def char_to_int (char_signed : Bool) (b : Nat) : Int :=
  if char_signed = true ∧ 128 ≤ b then (b : Int) - 256 else (b : Int)

/-- The conversion of an `int` to `unsigned long`. -/
def int_to_ulong (x : Int) : Nat :=
  (x % (ULONG_MOD : Int)).toNat

/-- The loop of `hash_url` from the value `hash` on: `url` is the memory that
the pointer points to, and the loop ends at the first zero byte (the end of the
list stands for the terminating zero of the string). -/
def hash_url_from (char_signed : Bool) : Nat → Bytes → Nat
  | hash, [] => hash
  | hash, b :: rest =>
    if char_to_int char_signed b = 0 then hash
    else
      hash_url_from char_signed
        ((((hash * 2 ^ 5) % ULONG_MOD + hash) % ULONG_MOD
          + int_to_ulong (char_to_int char_signed b)) % ULONG_MOD) rest

/-- `hash_url`. -/
def hash_url (char_signed : Bool) (url : Bytes) : Nat :=
  hash_url_from char_signed 5381 url

/-- What `%lu` prints: the decimal digits of `n`, as bytes. -/
def print_lu (n : Nat) : Bytes :=
  (Nat.toDigits 10 n).map Char.toNat

/-- `get_cache_file_path`: `none` when `malloc (512)` fails; `snprintf` with
size 512 writes at most 511 bytes of the formatted text. -/
def get_cache_file_path (char_signed malloc_ok : Bool) (url : Bytes) : Option Bytes :=
  let hash := hash_url char_signed url
  if malloc_ok then some ((CACHE_DIR ++ [47] ++ print_lu hash ++ DOT_CACHE).take 511)
  else none

/-- The djb2 hash as the specification words it: start at 5381, and for each
byte `c` of the url in order, taken as its value, `hash * 33 + c` modulo
`2 ^ 64`. -/
def djb2_spec (url : Bytes) : Nat :=
  url.foldl (fun hash c => (hash * 33 + c) % 2 ^ 64) 5381

/-- The path as the specification words it: `"cache/"`, the decimal value of
the hash, `".cache"`. -/
def cache_file_path_spec (url : Bytes) : Bytes :=
  [99, 97, 99, 104, 101, 47] ++ print_lu (djb2_spec url) ++ [46, 99, 97, 99, 104, 101]

/-- The bytes of `"http://x/é"` (the last character in UTF-8). -/
def EX_URL_UTF8 : Bytes := [104, 116, 116, 112, 58, 47, 47, 120, 47, 195, 169]

/-! ## The command line (`main.c`) -/

/-- `isspace` in the C locale. -/
def isspace (b : Nat) : Bool :=
  b = 32 || (9 ≤ b && b ≤ 13)

/-- `isdigit`. -/
def isdigit (b : Nat) : Bool :=
  48 ≤ b && b ≤ 57

/-- The digit loop of `atoi`: the value of the leading digits of the string,
on top of `acc`. -/
def atoi_digits : Int → Bytes → Int
  | acc, [] => acc
  | acc, b :: rest =>
    if isdigit b then atoi_digits (acc * 10 + ((b : Int) - 48)) rest else acc

/-- `atoi` of the C library: white space, an optional sign, digits. The value
is an unbounded integer (a value outside `int` is undefined in C). -/
def atoi (nptr : Bytes) : Int :=
  match nptr.dropWhile isspace with
  | 45 :: rest => - atoi_digits 0 rest
  | 43 :: rest => atoi_digits 0 rest
  | s => atoi_digits 0 s

/-- The bytes of `"-h"`. -/
def OPT_H : Bytes := [45, 104]

/-- The bytes of `"--help"`. -/
def OPT_HELP : Bytes := [45, 45, 104, 101, 108, 112]

/-- The bytes of `"-p"`. -/
def OPT_P : Bytes := [45, 112]

/-- The bytes of `"--port"`. -/
def OPT_PORT : Bytes := [45, 45, 112, 111, 114, 116]

/-- The bytes of `"-c"`. -/
def OPT_C : Bytes := [45, 99]

/-- The bytes of `"--cache"`. -/
def OPT_CACHE : Bytes := [45, 45, 99, 97, 99, 104, 101]

/-- The loop of `parse_arguments` from index `i` on, with `port` and
`cache_size_mb` the values stored so far: the return value and the two
stored values. An argument is the byte string of `argv[i]`, and `strcmp`
yields 0 exactly on equal strings. Each round of the loop takes one unit of
`fuel`; `none` when the fuel runs out. -/
def parse_arguments_loop (argc : Nat) (argv : List Bytes) :
    Nat → Nat → Int → Int → Option (Int × Int × Int)
  | 0, _, _, _ => none
  | fuel + 1, i, port, cache_size_mb =>
    if i < argc then
      let arg := argv.getD i []
      if arg = OPT_H ∨ arg = OPT_HELP then some (-1, port, cache_size_mb)
      else if (arg = OPT_P ∨ arg = OPT_PORT) ∧ i + 1 < argc then
        let port1 := atoi (argv.getD (i + 1) [])
        if port1 ≤ 0 ∨ port1 > 65535 then some (-1, port1, cache_size_mb)
        else parse_arguments_loop argc argv fuel (i + 2) port1 cache_size_mb
      else if (arg = OPT_C ∨ arg = OPT_CACHE) ∧ i + 1 < argc then
        let cache1 := atoi (argv.getD (i + 1) [])
        if cache1 ≤ 0 then some (-1, port, cache1)
        else parse_arguments_loop argc argv fuel (i + 2) port cache1
      else if i = 1 ∧ argc = 2 then
        let port1 := atoi arg
        if port1 ≤ 0 ∨ port1 > 65535 then some (-1, port1, cache_size_mb)
        else parse_arguments_loop argc argv fuel (i + 1) port1 cache_size_mb
      else if i = 2 ∧ argc = 3 then
        let cache1 := atoi arg
        if cache1 ≤ 0 then some (-1, port, cache1)
        else parse_arguments_loop argc argv fuel (i + 1) port cache1
      else some (-1, port, cache_size_mb)
    else some (0, port, cache_size_mb)

/-- `parse_arguments`: `port` and `cache_size_mb` are the values that
`*port` and `*cache_size_mb` hold at the call. The loop makes at most `argc`
tests of `i < argc`. -/
def parse_arguments (argc : Nat) (argv : List Bytes) (port cache_size_mb : Int) :
    Option (Int × Int × Int) :=
  parse_arguments_loop argc argv (argc + 1) 1 port cache_size_mb

/-- `DEFAULT_PORT` of `common.h`. -/
def DEFAULT_PORT : Int := 8080

/-- `DEFAULT_CACHE_SIZE_MB` of `common.h`. -/
def DEFAULT_CACHE_SIZE_MB : Int := 100

/-- A decimal number as the specification means it: a string of one or more
decimal digits. -/
def is_decimal (s : Bytes) : Prop :=
  s ≠ [] ∧ ∀ b ∈ s, isdigit b = true

/-- The number that a string of decimal digits denotes. -/
def decimal_value (s : Bytes) : Nat :=
  s.foldl (fun a b => a * 10 + (b - 48)) 0

/-- The bytes of `"proxy"`. -/
def EX_PROG : Bytes := [112, 114, 111, 120, 121]

/-- The bytes of `"3128"`. -/
def EX_PORT : Bytes := [51, 49, 50, 56]

/-- The bytes of `"200"`. -/
def EX_CACHE_MB : Bytes := [50, 48, 48]

/-! ## The header scan of the fetcher (`download.c`) -/

/-- `process_response_headers` run from its call to its return: the cache,
the entry and `*headers_done` afterwards. `headers_buf` holds the
`headers_len` bytes read so far, `tail` is the memory behind them, `scanned`
is what `sscanf` converts, `malloc_ok` is the outcome of the `malloc` of line
34 and `chunk_ok` that of the allocations in `add_chunk_to_cache`. -/
def process_response_headers (c : cache_t) (e : cache_entry_t) (headers_buf : Bytes)
    (headers_len : Nat) (tail : Bytes) (scanned : Option Int) (malloc_ok chunk_ok : Bool)
    (headers_done : Bool) : cache_t × cache_entry_t × Bool :=
  match scan_response_headers headers_buf headers_len tail scanned with
  | none => (c, e, headers_done)
  | some p =>
    let e1 := publish_headers e p malloc_ok
    match response_body_start p with
    | some data =>
      let res := add_chunk_to_cache c e1 data chunk_ok
      (res.2.1, res.2.2, true)
    | none => (c, e1, true)

/-- The bytes of `"HTTP/1.0 200 OK\r\nX: "`. -/
def EX_STATUS_LINE : Bytes :=
  [72, 84, 84, 80, 47, 49, 46, 48, 32, 50, 48, 48, 32, 79, 75, 13, 10, 88, 58, 32]

/-- A response whose header `X` holds a zero byte:
`"HTTP/1.0 200 OK\r\nX: \0\r\n\r\nAB"`. -/
def EX_ZERO_RESPONSE : Bytes :=
  EX_STATUS_LINE ++ 0 :: [] ++ CRLFCRLF ++ EX_AB

/-- The first 18 bytes of a response whose terminator is split between two
reads: `"HTTP/1.0 200 OK\r\n\r"`. -/
def EX_SPLIT_RESPONSE : Bytes :=
  [72, 84, 84, 80, 47, 49, 46, 48, 32, 50, 48, 48, 32, 79, 75, 13, 10, 13]

/-- A schedule in which the upstream sends the response with the zero byte
in one read and closes. -/
def zero_byte_schedule : List Action :=
  [ .handler 0 ENV_OK,                                    -- A: ignition, spawns the fetcher
    .fetcher 0 (env_recv .eof),                           -- parse_url
    .fetcher 0 (env_recv .eof),                           -- connect_to_server
    .fetcher 0 (env_recv .eof),                           -- send_request_to_server
    .fetcher 0 (env_recv .eof),                           -- malloc of headers_buf
    .fetcher 0 (env_recv (.data EX_ZERO_RESPONSE)),       -- recv: the whole response
    .fetcher 0 (env_recv .eof),                           -- recv: EOF
    .fetcher 0 (env_recv .eof) ]                          -- download_complete

/-- The system after the zero byte schedule. -/
def zero_byte_final : Sys :=
  (Sys.init (init_cache 100) EX_URL 0 EX_REQUEST).run zero_byte_schedule

/-! ## The header buffer of the fetcher (`download.c`) -/

/-- `PTRDIFF_MAX`: no object is larger than this many bytes. -/
def PTRDIFF_MAX : Nat := 2 ^ 63 - 1

/-- The header buffer of a fetcher inside its read loop: `headers_buf` holds
the `headers_len` bytes read so far, and as long as these are no more than an
object can hold, they are fewer than `headers_capacity`, which is at least
`BUFFER_SIZE` and at most the larger of `BUFFER_SIZE` and twice
`headers_len`. -/
def buffer_ok (f : Fetcher) : Prop :=
  (f.pc = .recv_loop ∨ (∃ p, f.pc = .publish p) ∨ (∃ d, f.pc = .append d)) →
    f.headers_buf.length = f.headers_len ∧
    (f.headers_len ≤ PTRDIFF_MAX →
      f.headers_len < f.headers_capacity ∧ BUFFER_SIZE ≤ f.headers_capacity ∧
      f.headers_capacity ≤ max BUFFER_SIZE (2 * f.headers_len))

/-- The schedule up to the first test of the read loop: the ignition and the
four steps of the fetcher before the loop. -/
def before_first_read : List Action :=
  [ .handler 0 ENV_OK,                                    -- A: ignition, spawns the fetcher
    .fetcher 0 (env_recv .eof),                           -- parse_url
    .fetcher 0 (env_recv .eof),                           -- connect_to_server
    .fetcher 0 (env_recv .eof),                           -- send_request_to_server
    .fetcher 0 (env_recv .eof) ]                          -- malloc of headers_buf

/-- The locals of the fetcher at its first test of the read loop. -/
def EX_FETCHER : Fetcher :=
  { pc := .recv_loop, headers_buf := [], headers_capacity := BUFFER_SIZE, headers_len := 0,
    headers_done := false }

/-! # Theorems -/

/-! ## The streaming loop on a completed entry -/

set_option maxRecDepth 100000 in
/-- C1 (fails on the code). In the late joiner schedule every send succeeds
and no shutdown is requested; the entry ends COMPLETE with the published
headers and the chunks `AB`, `CD`; both handlers return 0; yet handler A, who
read `entry->chunks` before any chunk was appended, has sent the headers only,
and handler B, who joined between `AB` and `CD`, has sent the headers and `AB`
only. -/
theorem C1_late_joiner_misses_chunks :
    late_joiner_final.entry.status = CACHE_COMPLETE ∧
    late_joiner_final.entry.headers = some EX_HEADERS ∧
    late_joiner_final.entry.chunks = [EX_AB, EX_CD] ∧
    late_joiner_final.handlers.map (fun h => (h.sender.pc, h.sender.out)) =
      [(SPc.returned 0, [Payload.headers EX_HEADERS]),
       (SPc.returned 0, [Payload.headers EX_HEADERS, Payload.chunk EX_AB])] := by
  decide

/-! ## The one-entry system: invariant -/

/-- One round of the read loop ends at the loop again, at `finish`, at the
publication (only when the headers were not done) or at an append (only when
they were). -/
theorem recv_loop_step_cases (r fs : Bool) (env : FetchEnv) (f : Fetcher)
    (hpc : f.pc = .recv_loop) :
    (recv_loop_step r fs env f).pc = .finish ∨
    ((recv_loop_step r fs env f).pc = .recv_loop ∧
      (recv_loop_step r fs env f).headers_done = f.headers_done) ∨
    (∃ p, (recv_loop_step r fs env f).pc = .publish p ∧ f.headers_done = false ∧
      (recv_loop_step r fs env f).headers_done = true ∧ 0 < p.header_size) ∨
    (∃ d, (recv_loop_step r fs env f).pc = .append d ∧ f.headers_done = true ∧
      (recv_loop_step r fs env f).headers_done = true) := by
  unfold recv_loop_step
  by_cases h1 : r = true ∧ fs = false
  · rw [if_pos h1]
    cases env.recv with
    | eagain => simp [hpc]
    | error => simp
    | eof => simp
    | data b =>
      simp only
      by_cases h2 : (b.take CHUNK_SIZE).length = 0
      · rw [if_pos h2]; simp
      · rw [if_neg h2]
        by_cases h3 : f.headers_done = false
        · rw [if_pos h3]
          split
          · simp
          · split
            · simp [hpc, h3]
            · next p hp =>
              simp only [scan_response_headers] at hp
              split at hp
              · simp at hp
              · simp only [Option.some.injEq] at hp
                subst hp
                simp [h3]
        · rw [if_neg h3]
          simp at h3
          simp [h3]
  · rw [if_neg h1]; simp

/-- What one fetcher step can do to the entry: it appends at most one chunk,
an exited fetcher does nothing, the status changes only when the fetcher
exits and then becomes terminal, and headers are written only by a fetcher
that had the publication ahead and has it behind afterwards. -/
theorem download_thread_step_effect (r fs : Bool) (env : FetchEnv) (c : cache_t)
    (e : cache_entry_t) (f f1 : Fetcher) (c1 : cache_t) (e1 : cache_entry_t) (b : Bool)
    (hok : fetcher_ok f)
    (h : download_thread_step r fs env c e f = (f1, c1, e1, b)) :
    fetcher_ok f1 ∧
    (e1.chunks = e.chunks ∨ ∃ d, e1.chunks = e.chunks ++ [d]) ∧
    (f.pc = .exited → f1 = f ∧ e1 = e ∧ c1 = c ∧ b = false) ∧
    (f1.pc ≠ .exited →
      e1.status = e.status ∧ e1.loading_thread_active = e.loading_thread_active) ∧
    (f1.pc = .exited → f.pc ≠ .exited →
      e1.status ≠ CACHE_LOADING ∧ e1.loading_thread_active = false) ∧
    ((e1.headers = e.headers ∧ e1.headers_size = e.headers_size ∧
        (no_publish_ahead f → no_publish_ahead f1)) ∨
     (¬ no_publish_ahead f ∧ no_publish_ahead f1 ∧
        ∀ hd, e1.headers = some hd → 0 < e1.headers_size)) := by
  unfold download_thread_step at h
  cases hpc : f.pc with
  | parse_url =>
    simp only [hpc] at h
    split at h <;> (simp only [Prod.mk.injEq] at h; obtain ⟨rfl, rfl, rfl, rfl⟩ := h) <;>
      simp [set_cache_error, no_publish_ahead, fetcher_ok, hpc]
  | connect =>
    simp only [hpc] at h
    split at h <;> (simp only [Prod.mk.injEq] at h; obtain ⟨rfl, rfl, rfl, rfl⟩ := h) <;>
      simp [set_cache_error, no_publish_ahead, fetcher_ok, hpc]
  | send_request =>
    simp only [hpc] at h
    split at h <;> (simp only [Prod.mk.injEq] at h; obtain ⟨rfl, rfl, rfl, rfl⟩ := h) <;>
      simp [set_cache_error, no_publish_ahead, fetcher_ok, hpc]
  | alloc_buf =>
    simp only [hpc] at h
    split at h <;> (simp only [Prod.mk.injEq] at h; obtain ⟨rfl, rfl, rfl, rfl⟩ := h) <;>
      simp [set_cache_error, no_publish_ahead, fetcher_ok, hpc]
  | recv_loop =>
    simp only [hpc] at h
    simp only [Prod.mk.injEq] at h; obtain ⟨rfl, rfl, rfl, rfl⟩ := h
    rcases recv_loop_step_cases r fs env f hpc with
      h1 | ⟨h1, h2⟩ | ⟨p, h1, h2, h3, h4⟩ | ⟨d, h1, h2, h3⟩
    · simp [no_publish_ahead, fetcher_ok, hpc, h1]
    · simp [no_publish_ahead, fetcher_ok, hpc, h1, h2]
    · simp [no_publish_ahead, fetcher_ok, hpc, h1, h2, h3, h4]
    · simp [no_publish_ahead, fetcher_ok, hpc, h1, h2, h3]
  | publish p =>
    simp only [hpc] at h
    simp only [fetcher_ok, hpc] at hok
    split at h <;> (simp only [Prod.mk.injEq] at h; obtain ⟨rfl, rfl, rfl, rfl⟩ := h) <;>
      (simp only [publish_headers, no_publish_ahead, fetcher_ok, hpc]; cases env.malloc_ok <;>
        simp [hok])
  | append d =>
    simp only [hpc] at h
    simp only [fetcher_ok, hpc] at hok
    simp only [Prod.mk.injEq] at h; obtain ⟨rfl, rfl, rfl, rfl⟩ := h
    simp only [add_chunk_to_cache]
    split <;> simp [no_publish_ahead, fetcher_ok, hpc, hok]
  | finish =>
    simp only [hpc] at h
    simp only [Prod.mk.injEq] at h; obtain ⟨rfl, rfl, rfl, rfl⟩ := h
    simp [download_complete, no_publish_ahead, fetcher_ok, hpc]
  | exited =>
    simp only [hpc] at h
    simp only [Prod.mk.injEq] at h; obtain ⟨rfl, rfl, rfl, rfl⟩ := h
    simp [no_publish_ahead, fetcher_ok, hpc]

/-- A list that is a `take` of its own length of `l` is no longer than `l`. -/
theorem take_length_le {α : Type} (l t : List α) (h : t = l.take t.length) :
    t.length ≤ l.length := by
  have := congrArg List.length h
  simp at this
  omega

/-- Appending a chunk keeps every cursor consistent. -/
theorem cursor_ok_append (l : List Bytes) (d : Bytes) (s : Sender) (h : cursor_ok l s) :
    cursor_ok (l ++ [d]) s := by
  obtain ⟨h1, h2⟩ := h
  have hle := take_length_le l _ h1
  refine ⟨?_, ?_⟩
  · rw [List.take_append_of_le_length hle]; exact h1
  · cases hpc : s.pc <;> simp only [hpc] at h2 ⊢ <;>
      first
      | exact h2
      | (intro j hj; have := h2 j hj; simp only [List.length_append, List.length_singleton]; omega)
      | (obtain ⟨a, b, c⟩ := h2
         refine ⟨a, ?_, ?_⟩
         · simp only [List.length_append, List.length_singleton]; omega
         · intro j hj; have := c j hj
           simp only [List.length_append, List.length_singleton]; omega)
      | (obtain ⟨a, c⟩ := h2
         refine ⟨a, ?_⟩
         intro j hj; have := c j hj
         simp only [List.length_append, List.length_singleton]; omega)

/-- A handler that has not started is consistent. -/
theorem cursor_ok_start (l : List Bytes) : cursor_ok l Sender.start := by
  simp [cursor_ok, Sender.start, sent_chunks]

/-- Waking keeps the cursor consistent. -/
theorem cursor_ok_wake (l : List Bytes) (s : Sender) (h : cursor_ok l s) :
    cursor_ok l (sender_wake s) := by
  obtain ⟨h1, h2⟩ := h
  unfold sender_wake
  cases hpc : s.pc <;> simp only [hpc] at h2 ⊢ <;>
    first
    | exact ⟨h1, h2⟩
    | exact ⟨h1, by simp only [hpc]; exact h2⟩
    | exact ⟨h1, by simp [hpc]⟩

/-- Leaving the inner loop keeps the cursor consistent. -/
theorem cursor_ok_after_inner (l : List Bytes) (s : Sender)
    (h1 : sent_chunks s = l.take (sent_chunks s).length)
    (h2 : ∀ j, s.current = some j → j = (sent_chunks s).length ∧ j < l.length) :
    cursor_ok l (after_inner s) := by
  unfold after_inner
  split
  · exact ⟨h1, by simp⟩
  · split
    · exact ⟨h1, by simpa using h2⟩
    · exact ⟨h1, by simpa using h2⟩

/-- The inner loop test, with or without an advance, keeps the cursor
consistent. -/
theorem cursor_ok_inner_section (e : cache_entry_t) (s : Sender)
    (h1 : sent_chunks s = e.chunks.take (sent_chunks s).length)
    (h2 : ∀ j, s.current = some j → j = (sent_chunks s).length ∧ j < e.chunks.length) :
    cursor_ok e.chunks (inner_section e s) := by
  unfold inner_section
  split
  · next i hi =>
    split
    · refine ⟨h1, ?_⟩
      have := h2 i hi
      simp only [chunk_next]
      refine ⟨this.1, this.2, ?_⟩
      intro j hj
      split at hj
      · simp at hj; omega
      · simp at hj
    · exact cursor_ok_after_inner _ s h1 h2
  · exact cursor_ok_after_inner _ s h1 h2

/-- Every step of `send_cached_data` keeps the cursor consistent. -/
theorem cursor_ok_step (r fs m so : Bool) (e : cache_entry_t) (s : Sender)
    (h : cursor_ok e.chunks s) : cursor_ok e.chunks (sender_step r fs m so e s) := by
  obtain ⟨h1, h2⟩ := h
  unfold sender_step
  cases hpc : s.pc with
  | enter =>
    simp only [hpc] at h2 ⊢
    split
    · exact ⟨h1, by simp [h2]⟩
    · split
      · exact ⟨h1, by simp⟩
      · refine ⟨h1, ?_⟩
        simp only [chunks_head]
        refine ⟨h2, ?_⟩
        intro j hj
        split at hj
        · simp at hj
        · next hne =>
          simp at hj
          exact ⟨hj.symm, by rw [← hj]; exact List.length_pos.mpr hne⟩
  | hdr_blocked => simp only [hpc]; exact ⟨h1, by simpa [hpc] using h2⟩
  | send_headers =>
    simp only [hpc] at h2 ⊢
    obtain ⟨h3, h4⟩ := h2
    cases send_headers_to_client m so e with
    | mk rr sent =>
      cases sent with
      | none =>
        simp only
        split
        · exact ⟨h1, by simp⟩
        · refine ⟨h1, ?_⟩
          simpa [sent_chunks, h3] using h4
      | some b =>
        simp only
        split
        · refine ⟨?_, by simp⟩
          simp [sent_chunks, h3, Payload.chunk_of]
        · refine ⟨?_, ?_⟩
          · simp [sent_chunks, h3, Payload.chunk_of]
          · simpa [sent_chunks, h3, Payload.chunk_of] using h4
  | loop_top =>
    simp only [hpc] at h2 ⊢
    split
    · exact ⟨h1, by simpa using h2⟩
    · exact ⟨h1, by simp⟩
  | snapshot =>
    simp only [hpc] at h2 ⊢
    exact cursor_ok_inner_section e _ h1 h2
  | send_chunk i =>
    simp only [hpc] at h2 ⊢
    obtain ⟨h3, h4, h5⟩ := h2
    split
    · exact ⟨h1, by simp⟩
    · have hget : e.chunks.getD i [] = e.chunks[i] := by
        simp [List.getD, List.getElem?_eq_getElem h4]
      have htake : e.chunks.take (i + 1) = e.chunks.take i ++ [e.chunks[i]] := by
        rw [List.take_succ, List.getElem?_eq_getElem h4]; rfl
      simp only [sent_chunks] at h1 h3 h5 ⊢
      simp only [cursor_ok, sent_chunks, List.filterMap_append, List.filterMap_cons,
        Payload.chunk_of, List.filterMap_nil, List.length_append, List.length_singleton, ← h3]
      refine ⟨?_, h5⟩
      rw [htake, hget]
      have h1b : List.filterMap Payload.chunk_of s.out = List.take i e.chunks := by
        rw [h3]; exact h1
      rw [h1b]
  | inner =>
    simp only [hpc] at h2 ⊢
    exact cursor_ok_inner_section e _ h1 h2
  | loop_blocked => simp only [hpc]; exact ⟨h1, by simpa [hpc] using h2⟩
  | returned x => simp only [hpc]; exact ⟨h1, by simp [hpc]⟩

/-- The ignition touches neither chunks, headers nor status; it decides to
spawn exactly when the entry is LOADING with no active fetcher, and then sets
the flag. -/
theorem start_download_effect (e : cache_entry_t) (req : Bytes) (n : Nat) (m : Bool) :
    (start_download_if_needed e req n m).2.chunks = e.chunks ∧
    (start_download_if_needed e req n m).2.headers = e.headers ∧
    (start_download_if_needed e req n m).2.headers_size = e.headers_size ∧
    (start_download_if_needed e req n m).2.status = e.status ∧
    ((start_download_if_needed e req n m).1 = true ↔
      (e.status = CACHE_LOADING ∧ e.loading_thread_active = false)) ∧
    ((start_download_if_needed e req n m).1 = true →
      (start_download_if_needed e req n m).2.loading_thread_active = true) ∧
    ((start_download_if_needed e req n m).1 = false →
      (start_download_if_needed e req n m).2 = e) := by
  unfold start_download_if_needed
  by_cases h : e.status = CACHE_LOADING ∧ e.loading_thread_active = false
  · simp only [h, and_self, if_true]
    cases e.original_request <;> simp
  · simp only [if_neg h]
    simp [h]

/-- What one handler step can do to the entry and to the handler. -/
theorem handler_step_effect (r fs : Bool) (env : HandlerEnv) (e : cache_entry_t) (h : Handler)
    (hc : cursor_ok e.chunks h.sender) :
    (handler_step r fs env e h).2.1.chunks = e.chunks ∧
    (handler_step r fs env e h).2.1.headers = e.headers ∧
    (handler_step r fs env e h).2.1.headers_size = e.headers_size ∧
    (handler_step r fs env e h).2.1.status = e.status ∧
    cursor_ok e.chunks (handler_step r fs env e h).1.sender ∧
    ((handler_step r fs env e h).1.phase = .ignite → False) ∧
    (h.phase = .ignite →
      (handler_step r fs env e h).1.sender = h.sender ∧
      ∃ d, (handler_step r fs env e h).2.2 = some d ∧
        (d = true ↔ (e.status = CACHE_LOADING ∧ e.loading_thread_active = false)) ∧
        (d = true → (handler_step r fs env e h).2.1.loading_thread_active = true) ∧
        (d = false → (handler_step r fs env e h).2.1 = e)) ∧
    (h.phase ≠ .ignite →
      (handler_step r fs env e h).2.2 = none ∧
      (handler_step r fs env e h).2.1.loading_thread_active = e.loading_thread_active) := by
  unfold handler_step
  cases hph : h.phase with
  | ignite =>
    obtain ⟨a1, a2, a3, a4, a5, a6, a7⟩ :=
      start_download_effect e h.request h.request.length env.malloc_ok
    simp only [a1, a2, a3, a4, hc, true_and, reduceCtorEq, false_implies, forall_const,
      Option.some.injEq, exists_eq_left', ne_eq, not_true_eq_false, and_true]
    exact ⟨a5, a6, a7⟩
  | streaming =>
    simp only
    split
    · simp [release_cache_entry, hc]
    · simp [cursor_ok_step, hc]
  | released => simp [hc, hph]

/-- A list of at most one element with an element at index `j` is that
element alone, and `j = 0`. -/
theorem singleton_of_getElem? {α : Type} (l : List α) (hl : l.length ≤ 1) (j : Nat) (f : α)
    (h : l[j]? = some f) : l = [f] ∧ j = 0 := by
  match l, hl, h with
  | [a], _, h =>
    cases j with
    | zero => simp at h; simp [h]
    | succ n => simp at h
  | [], _, h => simp at h
  | _ :: _ :: _, hl, _ => simp at hl

/-- One more refusal after a spawn followed by `k` refusals. -/
theorem replicate_false_snoc (k : Nat) :
    (true :: List.replicate k false) ++ [false] = true :: List.replicate (k + 1) false := by
  rw [List.cons_append, List.replicate_succ']

/-- The invariant holds for a freshly created entry. -/
theorem sys_inv_init (c : cache_t) (url : Bytes) (now : Int) (request : Bytes) :
    (Sys.init c url now request).Inv := by
  constructor <;> simp [Sys.init, create_cache_entry, cursor_ok_start]

/-- A joining handler keeps the invariant. -/
theorem sys_inv_join (s : Sys) (now : Int) (request : Bytes) (h : s.Inv) :
    (s.step (.join now request)).Inv := by
  obtain ⟨h1, h2, h3, h4, h5, h6, h7, h8, h9⟩ := h
  simp only [Sys.step]
  constructor
  · exact h1
  · intro hi
    obtain ⟨a, b, c, d, e⟩ := h2 hi
    refine ⟨a, b, c, d, ?_⟩
    intro h hh
    simp only [List.mem_append, List.mem_singleton] at hh
    rcases hh with hh | rfl
    · exact e h hh
    · rfl
  · exact h3
  · exact h4
  · exact h5
  · exact h6
  · exact h7
  · intro h hh hp
    simp only [List.mem_append, List.mem_singleton] at hh
    rcases hh with hh | rfl
    · exact h8 h hh hp
    · rfl
  · intro h hh
    simp only [List.mem_append, List.mem_singleton] at hh
    rcases hh with hh | rfl
    · exact h9 h hh
    · exact cursor_ok_start _

/-- A spurious wakeup keeps the invariant. -/
theorem sys_inv_wake (s : Sys) (i : Nat) (h : s.Inv) : (s.step (.wake i)).Inv := by
  obtain ⟨h1, h2, h3, h4, h5, h6, h7, h8, h9⟩ := h
  simp only [Sys.step]
  cases hi : s.handlers[i]? with
  | none => exact ⟨h1, h2, h3, h4, h5, h6, h7, h8, h9⟩
  | some hd =>
    have hmem : hd ∈ s.handlers := List.getElem?_mem hi
    simp only
    constructor
    · exact h1
    · intro hi
      obtain ⟨a, b, c, d, e⟩ := h2 hi
      refine ⟨a, b, c, d, ?_⟩
      intro h hh
      rcases List.mem_or_eq_of_mem_set hh with hh | rfl
      · exact e h hh
      · exact e hd hmem
    · exact h3
    · exact h4
    · exact h5
    · exact h6
    · exact h7
    · intro h hh hp
      rcases List.mem_or_eq_of_mem_set hh with hh | rfl
      · exact h8 h hh hp
      · simp only at hp ⊢
        rw [h8 hd hmem hp]; rfl
    · intro h hh
      rcases List.mem_or_eq_of_mem_set hh with hh | rfl
      · exact h9 h hh
      · exact cursor_ok_wake _ _ (h9 hd hmem)

/-- A signal keeps the invariant. -/
theorem sys_inv_signal (s : Sys) (h : s.Inv) : (s.step .signal).Inv := by
  obtain ⟨h1, h2, h3, h4, h5, h6, h7, h8, h9⟩ := h
  exact ⟨h1, h2, h3, h4, h5, h6, h7, h8, h9⟩

/-- A handler step keeps the invariant. -/
theorem sys_inv_handler (s : Sys) (i : Nat) (env : HandlerEnv) (h : s.Inv) :
    (s.step (.handler i env)).Inv := by
  obtain ⟨h1, h2, h3, h4, h5, h6, h7, h8, h9⟩ := h
  simp only [Sys.step]
  cases hi : s.handlers[i]? with
  | none => exact ⟨h1, h2, h3, h4, h5, h6, h7, h8, h9⟩
  | some hd =>
    have hmem : hd ∈ s.handlers := List.getElem?_mem hi
    have eff := handler_step_effect s.running s.force_shutdown env s.entry hd (h9 hd hmem)
    rcases hres : handler_step s.running s.force_shutdown env s.entry hd with ⟨hh, ee, ign⟩
    rw [hres] at eff
    simp only [hres] at eff ⊢
    obtain ⟨e1, e2, e3, e4, e5, e6, e7, e8⟩ := eff
    have hcur : ∀ x ∈ s.handlers.set i hh, cursor_ok ee.chunks x.sender := by
      intro x hx
      rw [e1]
      rcases List.mem_or_eq_of_mem_set hx with hx | rfl
      · exact h9 x hx
      · exact e5
    have hidle : ∀ x ∈ s.handlers.set i hh, x.phase = .ignite → x.sender = Sender.start := by
      intro x hx hp
      rcases List.mem_or_eq_of_mem_set hx with hx | rfl
      · exact h8 x hx hp
      · exact absurd hp e6
    have hsz : ∀ x, ee.headers = some x → 0 < ee.headers_size := by
      intro x hx
      rw [e3]; rw [e2] at hx; exact h7 x hx
    by_cases hph : hd.phase = .ignite
    · obtain ⟨-, d, rfl, hd2, hd3, hd4⟩ := e7 hph
      by_cases hig : s.ignitions = []
      · obtain ⟨a, b, c, dd, -⟩ := h2 hig
        have hdt : d = true := hd2.mpr ⟨b, c⟩
        subst hdt
        have hact := hd3 rfl
        refine ⟨?_, ?_, ?_, ?_, ?_, ?_, hsz, hidle, hcur⟩
        · simp only [a]; split <;> simp
        · simp [hig]
        · intro _
          exact ⟨⟨0, by simp [hig]⟩, Or.inl hact⟩
        · intro f hf hfe
          rw [e4]
          exact ⟨b, hact⟩
        · intro f hf _
          rw [e2]; exact dd
        · intro f hf
          simp only [a, List.nil_append] at hf
          split at hf
          · simp only [List.mem_singleton] at hf
            subst hf
            simp [fetcher_ok, Fetcher.start]
          · simp at hf
      · obtain ⟨⟨k, hk⟩, hor⟩ := h3 hig
        have hdf : d = false := by
          cases d with
          | false => rfl
          | true =>
            obtain ⟨x, y⟩ := hd2.mp rfl
            rcases hor with hor | hor
            · rw [y] at hor; cases hor
            · exact absurd x hor
        subst hdf
        have hee := hd4 rfl
        subst hee
        simp only [reduceCtorEq, Option.some.injEq, Bool.false_eq_true, false_and, if_false]
        refine ⟨h1, ?_, ?_, h4, h5, h6, hsz, hidle, hcur⟩
        · intro hc; simp at hc
        · intro _
          exact ⟨⟨k + 1, by rw [hk]; exact replicate_false_snoc k⟩, hor⟩
    · obtain ⟨rfl, hact⟩ := e8 hph
      simp only [reduceCtorEq, false_and, if_false]
      refine ⟨h1, ?_, ?_, ?_, ?_, h6, hsz, hidle, hcur⟩
      · intro hig
        obtain ⟨-, -, -, -, ee2⟩ := h2 hig
        exact absurd (ee2 hd hmem) hph
      · intro hig
        obtain ⟨hk, hor⟩ := h3 hig
        exact ⟨hk, by rw [hact, e4]; exact hor⟩
      · intro f hf hfe
        rw [hact, e4]; exact h4 f hf hfe
      · intro f hf hn
        rw [e2]; exact h5 f hf hn

/-- A handler after a broadcast is a handler from before, woken. -/
theorem broadcast_mem (hs : List Handler) (x : Handler) (hx : x ∈ broadcast hs) :
    ∃ y ∈ hs, x = { y with sender := sender_wake y.sender } := by
  simp only [broadcast, List.mem_map] at hx
  obtain ⟨y, hy, rfl⟩ := hx
  exact ⟨y, hy, rfl⟩

/-- A fetcher step keeps the invariant. -/
theorem sys_inv_fetcher (s : Sys) (j : Nat) (env : FetchEnv) (h : s.Inv) :
    (s.step (.fetcher j env)).Inv := by
  obtain ⟨h1, h2, h3, h4, h5, h6, h7, h8, h9⟩ := h
  simp only [Sys.step]
  cases hj : s.fetchers[j]? with
  | none => exact ⟨h1, h2, h3, h4, h5, h6, h7, h8, h9⟩
  | some f =>
    obtain ⟨hfs, rfl⟩ := singleton_of_getElem? s.fetchers h1 j f hj
    have hmem : f ∈ s.fetchers := by simp [hfs]
    rcases hres : download_thread_step s.running s.force_shutdown env s.cache s.entry f
      with ⟨f1, c1, e1, b⟩
    obtain ⟨g1, g2, g3, g4, g5, g6⟩ :=
      download_thread_step_effect _ _ _ _ _ _ _ _ _ _ (h6 f hmem) hres
    simp only [hres, hfs, List.set_cons_zero]
    have hne : s.ignitions ≠ [] := by
      intro hig
      have := (h2 hig).1
      rw [this] at hfs
      cases hfs
    have hhandlers : ∀ x ∈ (if b = true then broadcast s.handlers else s.handlers),
        (x.phase = .ignite → x.sender = Sender.start) ∧ cursor_ok e1.chunks x.sender := by
      intro x hx
      have hwk : ∃ y ∈ s.handlers, x.phase = y.phase ∧
          (x.sender = y.sender ∨ x.sender = sender_wake y.sender) := by
        split at hx
        · obtain ⟨y, hy, rfl⟩ := broadcast_mem _ _ hx
          exact ⟨y, hy, rfl, Or.inr rfl⟩
        · exact ⟨x, hx, rfl, Or.inl rfl⟩
      obtain ⟨y, hy, hp, hs⟩ := hwk
      have hc0 : cursor_ok s.entry.chunks x.sender := by
        rcases hs with hs | hs
        · rw [hs]; exact h9 y hy
        · rw [hs]; exact cursor_ok_wake _ _ (h9 y hy)
      refine ⟨?_, ?_⟩
      · intro hpi
        have := h8 y hy (hp ▸ hpi)
        rcases hs with hs | hs
        · rw [hs, this]
        · rw [hs, this]; rfl
      · rcases g2 with g2 | ⟨d, g2⟩
        · rw [g2]; exact hc0
        · rw [g2]; exact cursor_ok_append _ _ _ hc0
    refine ⟨by simp, fun hig => absurd hig hne, ?_, ?_, ?_, ?_, ?_,
      fun x hx => (hhandlers x hx).1, fun x hx => (hhandlers x hx).2⟩
    · intro _
      obtain ⟨hk, hor⟩ := h3 hne
      refine ⟨hk, ?_⟩
      by_cases hx : f1.pc = .exited
      · by_cases hx0 : f.pc = .exited
        · obtain ⟨-, rfl, -, -⟩ := g3 hx0
          exact hor
        · exact Or.inr (g5 hx hx0).1
      · obtain ⟨a, b⟩ := g4 hx
        rw [a, b]; exact hor
    · intro x hx hxe
      simp only [List.mem_singleton] at hx
      subst hx
      obtain ⟨a, b⟩ := g4 hxe
      rw [a, b]
      apply h4 f hmem
      intro hfe
      obtain ⟨rfl, -, -, -⟩ := g3 hfe
      exact hxe hfe
    · intro x hx hxn
      simp only [List.mem_singleton] at hx
      subst hx
      rcases g6 with ⟨a, -, c⟩ | ⟨-, b, -⟩
      · rw [a]
        exact h5 f hmem (fun hn => hxn (c hn))
      · exact absurd b hxn
    · intro x hx
      simp only [List.mem_singleton] at hx
      subst hx
      exact g1
    · intro x hx
      rcases g6 with ⟨a, b, -⟩ | ⟨-, -, c⟩
      · rw [b]; rw [a] at hx; exact h7 x hx
      · exact c x hx

/-- Every step keeps the invariant. -/
theorem sys_inv_step (s : Sys) (a : Action) (h : s.Inv) : (s.step a).Inv := by
  cases a with
  | join now request => exact sys_inv_join s now request h
  | handler i env => exact sys_inv_handler s i env h
  | wake i => exact sys_inv_wake s i h
  | fetcher j env => exact sys_inv_fetcher s j env h
  | signal => exact sys_inv_signal s h

/-- The invariant holds along every schedule. -/
theorem sys_inv_run (s : Sys) (sched : List Action) (h : s.Inv) : (s.run sched).Inv := by
  induction sched generalizing s with
  | nil => exact h
  | cons a rest ih => exact ih (s.step a) (sys_inv_step s a h)

/-- The run of a concatenated schedule. -/
theorem sys_run_append (s : Sys) (s1 s2 : List Action) :
    s.run (s1 ++ s2) = (s.run s1).run s2 := by
  simp [Sys.run, List.foldl_append]

/-- Once the status is terminal no step changes it. -/
theorem terminal_step (s : Sys) (a : Action) (h : s.Inv)
    (ht : s.entry.status ≠ CACHE_LOADING) : (s.step a).entry.status = s.entry.status := by
  cases a with
  | join now request => rfl
  | wake i =>
    simp only [Sys.step]
    cases s.handlers[i]? <;> rfl
  | signal => rfl
  | handler i env =>
    simp only [Sys.step]
    cases hi : s.handlers[i]? with
    | none => rfl
    | some hd =>
      exact (handler_step_effect s.running s.force_shutdown env s.entry hd
        (h.cursor hd (List.getElem?_mem hi))).2.2.2.1
  | fetcher j env =>
    simp only [Sys.step]
    cases hj : s.fetchers[j]? with
    | none => rfl
    | some f =>
      have hmem : f ∈ s.fetchers := List.getElem?_mem hj
      have hex : f.pc = .exited := by
        by_contra hne
        exact ht (h.active f hmem hne).1
      rcases hres : download_thread_step s.running s.force_shutdown env s.cache s.entry f
        with ⟨f1, c1, e1, b⟩
      obtain ⟨-, -, g3, -⟩ :=
        download_thread_step_effect _ _ _ _ _ _ _ _ _ _ (h.locals_ok f hmem) hres
      simp only [hres]
      rw [(g3 hex).2.1]

/-- Once the status is terminal no schedule changes it. -/
theorem terminal_run (s : Sys) (sched : List Action) (h : s.Inv)
    (ht : s.entry.status ≠ CACHE_LOADING) : (s.run sched).entry.status = s.entry.status := by
  induction sched generalizing s with
  | nil => rfl
  | cons a rest ih =>
    have h1 := terminal_step s a h ht
    have h2 := ih (s.step a) (sys_inv_step s a h) (by rw [h1]; exact ht)
    exact h2.trans h1

/-- C4. For every entry and every schedule of client threads calling
`start_download_if_needed` interleaved with the steps of the fetcher (up to
`set_cache_error` or `download_complete` and beyond), the decisions
`need_download` of the calls, in order, are: spawn at the first call, no
spawn at any later call. -/
theorem C4_fetcher_spawned_exactly_once (c : cache_t) (url : Bytes) (now : Int)
    (request : Bytes) (sched : List Action) :
    ((Sys.init c url now request).run sched).ignitions = [] ∨
    ∃ k, ((Sys.init c url now request).run sched).ignitions = true :: List.replicate k false := by
  have h := sys_inv_run _ sched (sys_inv_init c url now request)
  by_cases hig : ((Sys.init c url now request).run sched).ignitions = []
  · exact Or.inl hig
  · exact Or.inr (h.ignited hig).1

/-- C10. The status of an entry starts as LOADING, and once a schedule of
ignitions, handler steps and fetcher steps has brought it to COMPLETE or
ERROR, no continuation of the schedule changes it. -/
theorem C10_terminal_status_is_sticky (c : cache_t) (url : Bytes) (now : Int)
    (request : Bytes) (s1 s2 : List Action)
    (hterm : ((Sys.init c url now request).run s1).entry.status ≠ CACHE_LOADING) :
    (Sys.init c url now request).entry.status = CACHE_LOADING ∧
    ((Sys.init c url now request).run (s1 ++ s2)).entry.status =
      ((Sys.init c url now request).run s1).entry.status := by
  refine ⟨rfl, ?_⟩
  rw [sys_run_append]
  exact terminal_run _ s2 (sys_inv_run _ s1 (sys_inv_init c url now request)) hterm

/-! ## The one-entry system: what handlers deliver -/

/-- The header agreement of a handler survives any change of the entry that
keeps a published payload, keeps `never` and `present`, and keeps a cleared
`running` flag cleared. -/
theorem header_ok_at_mono (hp hp2 : Option Bytes) (never never2 present present2 : Prop)
    (running running2 : Bool) (h : Sender)
    (h1 : ∀ b, hp = some b → hp2 = some b) (h2 : never → never2) (h3 : present → present2)
    (h4 : running = false → running2 = false)
    (ho : header_ok_at hp never present running h) :
    header_ok_at hp2 never2 present2 running2 h := by
  rcases ho with ⟨b, hb, hout⟩ | ⟨hout, hm⟩
  · exact Or.inl ⟨b, h1 b hb, hout⟩
  · refine Or.inr ⟨hout, ?_⟩
    cases hpc : h.pc <;> simp only [hpc] at hm ⊢ <;>
      first
      | trivial
      | exact h2 hm
      | (rcases hm with hm | hm | hm
         · exact Or.inl (h2 hm)
         · exact Or.inr (Or.inl (h3 hm))
         · exact Or.inr (Or.inr (h4 hm)))
      | (rcases hm with hm | ⟨hm, hm2⟩
         · exact Or.inl (h2 hm)
         · exact Or.inr ⟨hm, h4 hm2⟩)
      | (rcases hm with hm | hm
         · exact Or.inl (h2 hm)
         · exact Or.inr hm)

/-- A handler that has not started agrees with any headers. -/
theorem header_ok_at_start (hp : Option Bytes) (never present : Prop) (running : Bool) :
    header_ok_at hp never present running Sender.start := by
  refine Or.inr ⟨?_, ?_⟩ <;> simp [Sender.start, sent_chunks]

/-- Waking keeps the header agreement. -/
theorem header_ok_at_wake (hp : Option Bytes) (never present : Prop) (running : Bool)
    (h : Sender) (ho : header_ok_at hp never present running h) :
    header_ok_at hp never present running (sender_wake h) := by
  unfold sender_wake
  cases hpc : h.pc <;> simp only <;> try exact ho
  · rcases ho with ⟨b, hb, hout⟩ | ⟨hout, hm⟩
    · exact Or.inl ⟨b, hb, hout⟩
    · exact Or.inr ⟨hout, trivial⟩
  · rcases ho with ⟨b, hb, hout⟩ | ⟨hout, hm⟩
    · exact Or.inl ⟨b, hb, hout⟩
    · simp only [hpc] at hm
      exact Or.inr ⟨hout, Or.inl hm⟩

/-- The header payload is the first `headers_size` bytes of the header
buffer, when there is one and the size is positive. -/
theorem header_payload_eq (e : cache_entry_t) :
    header_payload e =
      match e.headers with
      | some h => if 0 < e.headers_size then some (h.take e.headers_size) else none
      | none => none := by
  unfold header_payload send_headers_to_client
  cases e.headers with
  | none => rfl
  | some h =>
    by_cases hs : 0 < e.headers_size
    · simp [hs]
    · simp [hs]

/-- A log that is `pre` followed by the chunks sent stays so when a chunk is
sent. -/
theorem out_snoc_chunk (h : Sender) (pre : List Payload) (x : Bytes)
    (hob : h.out = pre ++ (sent_chunks h).map Payload.chunk) :
    h.out ++ [Payload.chunk x] =
      pre ++ (List.filterMap Payload.chunk_of (h.out ++ [Payload.chunk x])).map Payload.chunk := by
  rw [List.filterMap_append]
  simp only [List.filterMap_cons, Payload.chunk_of, List.filterMap_nil, List.map_append,
    List.map_cons, List.map_nil]
  unfold sent_chunks at hob
  rw [← List.append_assoc, ← hob]

/-- Leaving the inner loop keeps the header agreement. -/
theorem header_ok_at_after_inner (hp : Option Bytes) (never present : Prop) (running : Bool)
    (h : Sender)
    (ho : (∃ b, hp = some b ∧ h.out = Payload.headers b :: (sent_chunks h).map Payload.chunk) ∨
      (h.out = (sent_chunks h).map Payload.chunk ∧ never)) :
    header_ok_at hp never present running (after_inner h) := by
  unfold after_inner
  rcases ho with ⟨b, hb, hout⟩ | ⟨hout, hn⟩
  · split
    · exact Or.inl ⟨b, hb, hout⟩
    · split <;> exact Or.inl ⟨b, hb, hout⟩
  · split
    · exact Or.inr ⟨hout, Or.inl hn⟩
    · split
      · exact Or.inr ⟨hout, hn⟩
      · exact Or.inr ⟨hout, Or.inl hn⟩

/-- The inner loop test keeps the header agreement. -/
theorem header_ok_at_inner_section (hp : Option Bytes) (never present : Prop) (running : Bool)
    (e : cache_entry_t) (h : Sender)
    (ho : (∃ b, hp = some b ∧ h.out = Payload.headers b :: (sent_chunks h).map Payload.chunk) ∨
      (h.out = (sent_chunks h).map Payload.chunk ∧ never)) :
    header_ok_at hp never present running (inner_section e h) := by
  unfold inner_section
  split
  · split
    · rcases ho with ⟨b, hb, hout⟩ | ⟨hout, hn⟩
      · exact Or.inl ⟨b, hb, hout⟩
      · exact Or.inr ⟨hout, hn⟩
    · exact header_ok_at_after_inner _ _ _ _ _ ho
  · exact header_ok_at_after_inner _ _ _ _ _ ho

/-- Every step of `send_cached_data` whose allocation succeeds keeps the
header agreement. -/
theorem header_ok_at_step (r fs so : Bool) (e : cache_entry_t) (never : Prop) (h : Sender)
    (hc : cursor_ok e.chunks h)
    (hsz : ∀ x, e.headers = some x → 0 < e.headers_size)
    (hnever : e.status ≠ CACHE_LOADING → e.headers = none → never)
    (ho : header_ok_at (header_payload e) never (e.headers ≠ none) r h) :
    header_ok_at (header_payload e) never (e.headers ≠ none) r
      (sender_step r fs true so e h) := by
  unfold sender_step
  cases hpc : h.pc with
  | enter =>
    have hout : h.out = [] := by have := hc.2; simpa [hpc] using this
    simp only
    split
    · refine Or.inr ⟨?_, trivial⟩
      simp [sent_chunks, hout]
    · next hcond =>
      split
      · refine Or.inr ⟨?_, Or.inr ?_⟩ <;> simp [sent_chunks, hout]
      · refine Or.inr ⟨by simp [sent_chunks, hout], ?_⟩
        simp only
        by_cases hh : e.headers = none
        · by_cases hst : e.status = CACHE_LOADING
          · right; right
            cases r with
            | false => rfl
            | true => exact absurd ⟨hh, hst, rfl⟩ hcond
          · exact Or.inl (hnever hst hh)
        · exact Or.inr (Or.inl hh)
  | hdr_blocked => simp only; exact ho
  | send_headers =>
    have hc2 := hc.2
    simp only [hpc] at hc2
    have hout : h.out = [] := hc2.1
    have hsc : sent_chunks h = [] := by simp [sent_chunks, hout]
    simp only
    cases hh : e.headers with
    | none =>
      have h1 : send_headers_to_client true so e = (0, none) := by
        simp [send_headers_to_client, hh]
      rw [h1]
      simp only [Int.lt_irrefl, if_false]
      refine Or.inr ⟨by simp [sent_chunks, hout], ?_⟩
      simp only
      rcases ho with ⟨b, hb, hob⟩ | ⟨-, hm⟩
      · rw [hout] at hob; cases hob
      · simp only [hpc] at hm
        rcases hm with hm | hm | hm
        · exact Or.inl hm
        · exact absurd hh hm
        · exact Or.inr ⟨by simp [sent_chunks, hout], hm⟩
    | some x =>
      have hpos := hsz x hh
      cases so with
      | true =>
        have h1 : send_headers_to_client true true e = (0, some (x.take e.headers_size)) := by
          simp [send_headers_to_client, hh, hpos]
        rw [h1]
        simp only [Int.lt_irrefl, if_false]
        refine Or.inl ⟨x.take e.headers_size, ?_, ?_⟩
        · rw [header_payload_eq]; simp [hh, hpos]
        · simp [sent_chunks, hout, Payload.chunk_of]
      | false =>
        have h1 : send_headers_to_client true false e = (-1, none) := by
          simp [send_headers_to_client, hh, hpos]
        rw [h1]
        simp only
        refine Or.inr ⟨by simp [sent_chunks, hout], ?_⟩
        simp [sent_chunks, hout]
  | loop_top =>
    simp only
    rcases ho with ⟨b, hb, hob⟩ | ⟨hob, hm⟩
    · split <;> exact Or.inl ⟨b, hb, hob⟩
    · simp only [hpc] at hm
      split
      · next hrun =>
        refine Or.inr ⟨hob, ?_⟩
        simp only
        rcases hm with hm | ⟨-, hm⟩
        · exact hm
        · rw [hrun.1] at hm; cases hm
      · refine Or.inr ⟨hob, ?_⟩
        simp only
        rcases hm with hm | ⟨hm, -⟩
        · exact Or.inl hm
        · exact Or.inr hm
  | snapshot =>
    simp only
    apply header_ok_at_inner_section
    rcases ho with ⟨b, hb, hob⟩ | ⟨hob, hm⟩
    · exact Or.inl ⟨b, hb, hob⟩
    · simp only [hpc] at hm
      exact Or.inr ⟨hob, hm⟩
  | send_chunk i =>
    simp only
    rcases ho with ⟨b, hb, hob⟩ | ⟨hob, hm⟩
    · split
      · exact Or.inl ⟨b, hb, hob⟩
      · exact Or.inl ⟨b, hb, out_snoc_chunk h [Payload.headers b] _ hob⟩
    · simp only [hpc] at hm
      split
      · exact Or.inr ⟨hob, Or.inl hm⟩
      · exact Or.inr ⟨out_snoc_chunk h [] _ hob, hm⟩
  | inner =>
    simp only
    apply header_ok_at_inner_section
    rcases ho with ⟨b, hb, hob⟩ | ⟨hob, hm⟩
    · exact Or.inl ⟨b, hb, hob⟩
    · simp only [hpc] at hm
      exact Or.inr ⟨hob, hm⟩
  | loop_blocked => simp only; exact ho
  | returned x => simp only; exact ho

/-- The header payload depends on `headers` and `headers_size` only. -/
theorem header_payload_congr (e e2 : cache_entry_t) (h1 : e2.headers = e.headers)
    (h2 : e2.headers_size = e.headers_size) : header_payload e2 = header_payload e := by
  rw [header_payload_eq, header_payload_eq, h1, h2]

/-- A header payload needs headers. -/
theorem header_payload_some (e : cache_entry_t) (b : Bytes) (h : header_payload e = some b) :
    e.headers ≠ none := by
  intro hn
  rw [header_payload_eq, hn] at h
  cases h

/-- A handler step leaves the locals of `send_cached_data` alone or is a step
of `send_cached_data` that leaves the entry alone. -/
theorem handler_step_sender (r fs : Bool) (env : HandlerEnv) (e : cache_entry_t) (h : Handler) :
    (handler_step r fs env e h).1.sender = h.sender ∨
    ((handler_step r fs env e h).1.sender =
        sender_step r fs env.malloc_ok env.send_ok e h.sender ∧
      (handler_step r fs env e h).2.1 = e ∧ h.phase = .streaming) := by
  unfold handler_step
  cases hph : h.phase with
  | ignite => exact Or.inl rfl
  | released => exact Or.inl rfl
  | streaming =>
    simp only
    split
    · exact Or.inl rfl
    · exact Or.inr ⟨rfl, rfl, trivial⟩

/-- The outcome of `malloc` matters to a step of `send_cached_data` only where
`send_headers_to_client` allocates the header copy. -/
theorem sender_step_alloc (r fs m so : Bool) (e : cache_entry_t) (s : Sender)
    (h : s.pc ≠ .send_headers ∨ e.headers = none ∨ e.headers_size = 0) :
    sender_step r fs m so e s = sender_step r fs true so e s := by
  unfold sender_step
  cases hpc : s.pc with
  | send_headers =>
    rcases h with h | h | h
    · exact absurd hpc h
    · simp [send_headers_to_client, h]
    · simp [send_headers_to_client, h]
  | _ => rfl

/-- No step of the system withdraws a published payload, revives the
possibility of a publication, unsets the headers or sets `running` again. -/
theorem env_mono (s : Sys) (a : Action) (h : s.Inv) :
    (∀ b, header_payload s.entry = some b → header_payload (s.step a).entry = some b) ∧
    (s.never_headers → (s.step a).never_headers) ∧
    (s.entry.headers ≠ none → (s.step a).entry.headers ≠ none) ∧
    (s.running = false → (s.step a).running = false) := by
  cases a with
  | join now request =>
    refine ⟨fun b hb => ?_, fun hn => hn, fun hp => hp, fun hr => hr⟩
    exact hb
  | wake i =>
    simp only [Sys.step]
    cases s.handlers[i]? with
    | none => exact ⟨fun b hb => hb, fun hn => hn, fun hp => hp, fun hr => hr⟩
    | some hd => exact ⟨fun b hb => hb, fun hn => hn, fun hp => hp, fun hr => hr⟩
  | signal =>
    exact ⟨fun b hb => hb, fun hn => hn, fun hp => hp, fun _ => rfl⟩
  | handler i env =>
    simp only [Sys.step]
    cases hi : s.handlers[i]? with
    | none => exact ⟨fun b hb => hb, fun hn => hn, fun hp => hp, fun hr => hr⟩
    | some hd =>
      have hmem : hd ∈ s.handlers := List.getElem?_mem hi
      have eff := handler_step_effect s.running s.force_shutdown env s.entry hd
        (h.cursor hd hmem)
      rcases hres : handler_step s.running s.force_shutdown env s.entry hd with ⟨hh, ee, ign⟩
      rw [hres] at eff
      simp only [hres] at eff ⊢
      obtain ⟨e1, e2, e3, e4, e5, e6, e7, e8⟩ := eff
      refine ⟨?_, ?_, ?_, fun hr => hr⟩
      · intro b hb
        rw [header_payload_congr s.entry ee e2 e3]; exact hb
      · rintro ⟨n1, n2, n3⟩
        obtain ⟨-, hor⟩ := h.ignited n2
        have hnot : ign ≠ some true := by
          intro hign
          subst hign
          by_cases hph : hd.phase = .ignite
          · obtain ⟨-, d, hd1, hd2, -, -⟩ := e7 hph
            simp only [Option.some.injEq] at hd1
            subst hd1
            obtain ⟨x, y⟩ := hd2.mp rfl
            rcases hor with hor | hor
            · rw [y] at hor; cases hor
            · exact hor x
          · have := (e8 hph).1
            cases this
        refine ⟨by rw [e2]; exact n1, ?_, ?_⟩
        · simp only
          cases ign <;> simp [n2]
        · simp only [hnot, false_and, if_false]
          exact n3
      · intro hp
        rw [e2]; exact hp
  | fetcher j env =>
    simp only [Sys.step]
    cases hj : s.fetchers[j]? with
    | none => exact ⟨fun b hb => hb, fun hn => hn, fun hp => hp, fun hr => hr⟩
    | some f =>
      obtain ⟨hfs, rfl⟩ := singleton_of_getElem? s.fetchers h.one_fetcher j f hj
      have hmem : f ∈ s.fetchers := by simp [hfs]
      rcases hres : download_thread_step s.running s.force_shutdown env s.cache s.entry f
        with ⟨f1, c1, e1, b⟩
      obtain ⟨g1, g2, g3, g4, g5, g6⟩ :=
        download_thread_step_effect _ _ _ _ _ _ _ _ _ _ (h.locals_ok f hmem) hres
      simp only [hres, hfs, List.set_cons_zero]
      have hkeep : s.entry.headers ≠ none →
          e1.headers = s.entry.headers ∧ e1.headers_size = s.entry.headers_size := by
        intro hp
        rcases g6 with ⟨a, b, -⟩ | ⟨a, -, -⟩
        · exact ⟨a, b⟩
        · exact absurd (h.unpublished f hmem a) hp
      refine ⟨?_, ?_, ?_, fun hr => hr⟩
      · intro b hb
        obtain ⟨k1, k2⟩ := hkeep (header_payload_some _ _ hb)
        rw [header_payload_congr s.entry e1 k1 k2]; exact hb
      · rintro ⟨n1, n2, n3⟩
        have hnpa : no_publish_ahead f := n3 f hmem
        rcases g6 with ⟨a, -, c⟩ | ⟨a, -, -⟩
        · refine ⟨by rw [a]; exact n1, n2, ?_⟩
          intro x hx
          simp only [List.mem_singleton] at hx
          subst hx
          exact c hnpa
        · exact absurd hnpa a
      · intro hp
        rw [(hkeep hp).1]; exact hp

/-- A terminal entry without headers will never have any. -/
theorem never_of_terminal (s : Sys) (h : s.Inv) (hst : s.entry.status ≠ CACHE_LOADING)
    (hh : s.entry.headers = none) : s.never_headers := by
  refine ⟨hh, ?_, ?_⟩
  · intro hig
    exact hst (h.fresh hig).2.1
  · intro f hf
    have hex : f.pc = .exited := by
      by_contra hne
      exact hst (h.active f hf hne).1
    simp [no_publish_ahead, hex]

/-- After a step, every handler agrees with the headers as they were before
the step. -/
theorem headers_ok_pre (s : Sys) (a : Action) (h : s.Inv) (ho : s.headers_ok)
    (ha : s.header_alloc_fails a = false) :
    ∀ x ∈ (s.step a).handlers,
      header_ok_at (header_payload s.entry) s.never_headers (s.entry.headers ≠ none) s.running
        x.sender := by
  cases a with
  | join now request =>
    intro x hx
    simp only [Sys.step, List.mem_append, List.mem_singleton] at hx
    rcases hx with hx | rfl
    · exact ho x hx
    · exact header_ok_at_start _ _ _ _
  | signal => exact ho
  | wake i =>
    simp only [Sys.step]
    cases hi : s.handlers[i]? with
    | none => exact ho
    | some hd =>
      intro x hx
      rcases List.mem_or_eq_of_mem_set hx with hx | rfl
      · exact ho x hx
      · exact header_ok_at_wake _ _ _ _ _ (ho hd (List.getElem?_mem hi))
  | handler i env =>
    simp only [Sys.step]
    cases hi : s.handlers[i]? with
    | none => exact ho
    | some hd =>
      have hmem : hd ∈ s.handlers := List.getElem?_mem hi
      simp only [Sys.header_alloc_fails, hi, decide_eq_false_iff_not] at ha
      intro x hx
      rcases List.mem_or_eq_of_mem_set hx with hx | rfl
      · exact ho x hx
      · rcases handler_step_sender s.running s.force_shutdown env s.entry hd
          with hs | ⟨hs, -, hph⟩
        · rw [hs]; exact ho hd hmem
        · have hm : sender_step s.running s.force_shutdown env.malloc_ok env.send_ok s.entry
              hd.sender
              = sender_step s.running s.force_shutdown true env.send_ok s.entry hd.sender := by
            by_cases hmo : env.malloc_ok = true
            · rw [hmo]
            · apply sender_step_alloc
              by_contra hcon
              simp only [not_or] at hcon
              exact ha ⟨hph, not_not.mp hcon.1, hcon.2.1, Nat.pos_of_ne_zero hcon.2.2,
                by simpa using hmo⟩
          rw [hs, hm]
          exact header_ok_at_step _ _ _ _ _ _ (h.cursor hd hmem) h.headers_size_pos
            (never_of_terminal s h) (ho hd hmem)
  | fetcher j env =>
    simp only [Sys.step]
    cases hj : s.fetchers[j]? with
    | none => exact ho
    | some f =>
      intro x hx
      simp only at hx
      split at hx
      · obtain ⟨y, hy, rfl⟩ := broadcast_mem _ _ hx
        exact header_ok_at_wake _ _ _ _ _ (ho y hy)
      · exact ho x hx

/-- Every step in which no allocation of a header copy fails keeps the header
agreement. -/
theorem sys_headers_ok_step (s : Sys) (a : Action) (h : s.Inv) (ho : s.headers_ok)
    (ha : s.header_alloc_fails a = false) : (s.step a).headers_ok := by
  obtain ⟨m1, m2, m3, m4⟩ := env_mono s a h
  intro x hx
  exact header_ok_at_mono _ _ _ _ _ _ _ _ _ m1 m2 m3 m4 (headers_ok_pre s a h ho ha x hx)

/-- The header agreement holds along every undisturbed schedule. -/
theorem sys_headers_ok_run (s : Sys) (sched : List Action) (h : s.Inv) (ho : s.headers_ok)
    (ha : s.undisturbed sched = true) : (s.run sched).headers_ok := by
  induction sched generalizing s with
  | nil => exact ho
  | cons a rest ih =>
    simp only [Sys.undisturbed, Bool.and_eq_true, Bool.not_eq_true'] at ha
    exact ih (s.step a) (sys_inv_step s a h) (sys_headers_ok_step s a h ho ha.1.1) ha.2

/-- The header agreement holds for a freshly created entry. -/
theorem sys_headers_ok_init (c : cache_t) (url : Bytes) (now : Int) (request : Bytes) :
    (Sys.init c url now request).headers_ok := by
  intro x hx
  simp only [Sys.init, List.mem_singleton] at hx
  subst hx
  exact header_ok_at_start _ _ _ _

/-- The bytes of the first `m1` chunks start the bytes of the first `m2`
chunks when `m1 ≤ m2`. -/
theorem flatten_take_le {α : Type} (l : List (List α)) (m1 m2 : Nat) (h : m1 ≤ m2) :
    ∃ t, (l.take m1).flatten ++ t = (l.take m2).flatten := by
  refine ⟨((l.take m2).drop m1).flatten, ?_⟩
  have h1 : l.take m1 = (l.take m2).take m1 := by
    rw [List.take_take, Nat.min_eq_left h]
  rw [h1, ← List.flatten_append, List.take_append_drop]

/-- The bytes offered by a log that is `pre` followed by chunks. -/
theorem offered_chunks (h : Sender) (pre : List Payload)
    (ho : h.out = pre ++ (sent_chunks h).map Payload.chunk) :
    offered h = (pre.map Payload.bytes).flatten ++ (sent_chunks h).flatten := by
  unfold offered
  generalize sent_chunks h = l at ho
  rw [ho, List.map_append, List.flatten_append, List.map_map]
  have hid : (Payload.bytes ∘ Payload.chunk) = id := by
    funext b; rfl
  rw [hid, List.map_id]

/-- What a handler has offered is nothing, or the header payload (if any)
followed by the bytes of the first chunks. -/
theorem offered_form (s : Sys) (h : s.Inv) (ho : s.headers_ok) (x : Handler)
    (hx : x ∈ s.handlers) :
    offered x.sender = [] ∨
    ∃ m, offered x.sender =
      (header_payload s.entry).getD [] ++ (s.entry.chunks.take m).flatten := by
  have hc := h.cursor x hx
  rcases ho x hx with ⟨b, hb, hout⟩ | ⟨hout, hm⟩
  · right
    refine ⟨(sent_chunks x.sender).length, ?_⟩
    rw [offered_chunks x.sender [Payload.headers b] hout, hb, ← hc.1]
    simp [Payload.bytes]
  · have hd := offered_chunks x.sender [] hout
    simp only [List.map_nil, List.flatten_nil, List.nil_append] at hd
    cases hp : header_payload s.entry with
    | none =>
      right
      refine ⟨(sent_chunks x.sender).length, ?_⟩
      rw [hd, ← hc.1]; rfl
    | some b =>
      left
      have hpres := header_payload_some _ _ hp
      have hnn : ¬ s.never_headers := fun hn => hpres hn.1
      have hs : sent_chunks x.sender = [] := by
        have hc2 := hc.2
        cases hpc : x.sender.pc <;> simp only [hpc] at hm hc2
        case enter => simp [sent_chunks, hc2]
        case hdr_blocked => simp [sent_chunks, hc2]
        case send_headers => simp [sent_chunks, hc2.1]
        case loop_top =>
          rcases hm with hm | hm
          · exact absurd hm hnn
          · exact hm.1
        case returned =>
          rcases hm with hm | hm
          · exact absurd hm hnn
          · exact hm
        all_goals exact absurd hm hnn
      rw [hd, hs]; rfl

/-- A step of a handler adds to what it has offered the buffer of the `send`
it makes, if that does not fail. -/
theorem offered_handler_step (r fs : Bool) (env : HandlerEnv) (e : cache_entry_t)
    (h : Handler) :
    offered (handler_step r fs env e h).1.sender
      = offered h.sender ++ (handler_send env e h).getD [] := by
  unfold handler_step handler_send
  cases hph : h.phase with
  | ignite => simp
  | released => simp
  | streaming =>
    simp only
    cases hpc : h.sender.pc with
    | enter =>
      simp only [sender_step, hpc]
      split <;> (try split) <;> simp [offered]
    | hdr_blocked => simp [sender_step, hpc]
    | send_headers =>
      simp only [sender_step, hpc]
      rcases hres : send_headers_to_client env.malloc_ok env.send_ok e with ⟨rv, sent⟩
      cases sent with
      | none => simp only; split <;> simp [offered]
      | some b => simp only; split <;> simp [offered, Payload.bytes]
    | loop_top =>
      simp only [sender_step, hpc]
      split <;> simp [offered]
    | snapshot =>
      simp only [sender_step, hpc, inner_section, after_inner]
      split <;> (try split) <;> (try split) <;> (try split) <;> simp [offered]
    | send_chunk i =>
      simp only [sender_step, hpc]
      split <;> simp [offered, Payload.bytes]
    | inner =>
      simp only [sender_step, hpc, inner_section, after_inner]
      split <;> (try split) <;> (try split) <;> (try split) <;> simp [offered]
    | loop_blocked => simp [sender_step, hpc]
    | returned rv => simp

/-- Waking a handler changes nothing in what it has offered. -/
theorem offered_wake (x : Sender) : offered (sender_wake x) = offered x := by
  unfold sender_wake offered
  split <;> rfl

/-- A step in which no `send` returns short adds to what handler `i` has
offered exactly the bytes that the step delivers to its client. -/
theorem offered_at_step (s : Sys) (a : Action) (i : Nat) (hs : s.send_is_short a = false) :
    (s.step a).offered_at i = s.offered_at i ++ s.delivered_by i a := by
  cases a with
  | join now request =>
    simp only [Sys.step, Sys.offered_at, Sys.delivered_by, List.append_nil]
    by_cases hi : i < s.handlers.length
    · rw [List.getElem?_append_left hi]
    · have hnone : s.handlers[i]? = none := List.getElem?_eq_none (by omega)
      rw [hnone]
      by_cases hi2 : i = s.handlers.length
      · subst hi2
        simp [offered, Sender.start]
      · rw [List.getElem?_eq_none (by simp; omega)]
  | signal => simp [Sys.step, Sys.offered_at, Sys.delivered_by]
  | wake k =>
    simp only [Sys.step, Sys.delivered_by, List.append_nil]
    cases hk : s.handlers[k]? with
    | none => rfl
    | some hd =>
      simp only [Sys.offered_at]
      by_cases hki : k = i
      · subst hki
        have hlt : k < s.handlers.length := (List.getElem?_eq_some_iff.mp hk).1
        simp [hk, hlt, offered_wake]
      · rw [List.getElem?_set_ne hki]
  | fetcher j env =>
    simp only [Sys.step, Sys.delivered_by, List.append_nil]
    cases hj : s.fetchers[j]? with
    | none => rfl
    | some f =>
      simp only [Sys.offered_at]
      generalize (download_thread_step s.running s.force_shutdown env s.cache s.entry f).2.2.2
        = b
      cases b with
      | false => rfl
      | true =>
        simp only [if_true, broadcast, List.getElem?_map]
        cases s.handlers[i]? with
        | none => rfl
        | some hd => simp [offered_wake]
  | handler k env =>
    simp only [Sys.step, Sys.delivered_by]
    cases hk : s.handlers[k]? with
    | none => simp [Sys.offered_at]
    | some hd =>
      simp only [Sys.offered_at]
      by_cases hki : k = i
      · subst hki
        have hlt : k < s.handlers.length := (List.getElem?_eq_some_iff.mp hk).1
        simp only [Sys.send_is_short, hk] at hs
        have hstep := offered_handler_step s.running s.force_shutdown env s.entry hd
        simp only [hk, if_true, List.getElem?_set_self hlt, hstep]
        cases hsend : handler_send env s.entry hd with
        | none => simp
        | some buf =>
          simp only [hsend, decide_eq_false_iff_not, not_not] at hs
          simp [hs]
      · rw [List.getElem?_set_ne hki]
        simp [hki]

/-- Along a schedule in which no `send` returns short, what handler `i` has
offered grows by exactly the bytes delivered to its client. -/
theorem offered_at_run (s : Sys) (sched : List Action) (i : Nat)
    (hs : s.undisturbed sched = true) :
    (s.run sched).offered_at i = s.offered_at i ++ s.delivered i sched := by
  induction sched generalizing s with
  | nil => simp [Sys.run, Sys.delivered]
  | cons a rest ih =>
    simp only [Sys.undisturbed, Bool.and_eq_true, Bool.not_eq_true'] at hs
    have h1 := offered_at_step s a i hs.1.2
    have h2 := ih (s.step a) hs.2
    simp only [Sys.run, List.foldl_cons, Sys.delivered] at h2 ⊢
    rw [h2, h1, List.append_assoc]

/-- C3 (amended). At every point of every schedule of one entry's fetcher and
handlers, the chunks each handler has sent so far are a prefix, in append
order, of the entry's chunk list; and when no handler's allocation of its
header copy has failed and every `send` that did not fail has transferred its
whole buffer, of any two handlers the bytes delivered to the client of one are
a prefix of the bytes delivered to the client of the other. -/
theorem C3_handlers_send_prefixes (c : cache_t) (url : Bytes) (now : Int) (request : Bytes)
    (sched : List Action) :
    (∀ h ∈ ((Sys.init c url now request).run sched).handlers,
      sent_chunks h.sender <+: ((Sys.init c url now request).run sched).entry.chunks) ∧
    ((Sys.init c url now request).undisturbed sched = true →
      ∀ i j : Nat,
        (Sys.init c url now request).delivered i sched
          <+: (Sys.init c url now request).delivered j sched ∨
        (Sys.init c url now request).delivered j sched
          <+: (Sys.init c url now request).delivered i sched) := by
  have hinv := sys_inv_run _ sched (sys_inv_init c url now request)
  refine ⟨?_, ?_⟩
  · intro h hh
    have := (hinv.cursor h hh).1
    rw [this]
    exact ⟨_, List.take_append_drop _ _⟩
  · intro ha i j
    have hok := sys_headers_ok_run _ sched (sys_inv_init c url now request)
      (sys_headers_ok_init c url now request) ha
    have hinit : ∀ k, (Sys.init c url now request).offered_at k = [] := by
      intro k
      cases k with
      | zero => rfl
      | succ n => rfl
    have hdel : ∀ k, (Sys.init c url now request).delivered k sched
        = ((Sys.init c url now request).run sched).offered_at k := by
      intro k
      rw [offered_at_run _ sched k ha, hinit k, List.nil_append]
    have hform : ∀ k, ((Sys.init c url now request).run sched).offered_at k = [] ∨
        ∃ m, ((Sys.init c url now request).run sched).offered_at k =
          (header_payload ((Sys.init c url now request).run sched).entry).getD [] ++
            (((Sys.init c url now request).run sched).entry.chunks.take m).flatten := by
      intro k
      unfold Sys.offered_at
      cases hk : ((Sys.init c url now request).run sched).handlers[k]? with
      | none => exact Or.inl rfl
      | some x => exact offered_form _ hinv hok x (List.getElem?_mem hk)
    rw [hdel i, hdel j]
    rcases hform i with e1 | ⟨m1, e1⟩
    · left; rw [e1]; exact ⟨_, List.nil_append _⟩
    · rcases hform j with e2 | ⟨m2, e2⟩
      · right; rw [e2]; exact ⟨_, List.nil_append _⟩
      · rw [e1, e2]
        rcases Nat.le_total m1 m2 with hle | hle
        · left
          obtain ⟨t, ht⟩ := flatten_take_le
            ((Sys.init c url now request).run sched).entry.chunks m1 m2 hle
          exact ⟨t, by rw [List.append_assoc, ht]⟩
        · right
          obtain ⟨t, ht⟩ := flatten_take_le
            ((Sys.init c url now request).run sched).entry.chunks m2 m1 hle
          exact ⟨t, by rw [List.append_assoc, ht]⟩

set_option maxRecDepth 100000 in
/-- C3 (amended) at the late joiner schedule, in which no allocation fails and
no `send` returns short. -/
theorem C3_handlers_send_prefixes_witness :
    (Sys.init (init_cache 100) EX_URL 0 EX_REQUEST).undisturbed late_joiner_schedule = true ∧
    (∀ h ∈ late_joiner_final.handlers, sent_chunks h.sender <+: late_joiner_final.entry.chunks) ∧
    (∀ i j : Nat,
        (Sys.init (init_cache 100) EX_URL 0 EX_REQUEST).delivered i late_joiner_schedule
          <+: (Sys.init (init_cache 100) EX_URL 0 EX_REQUEST).delivered j late_joiner_schedule ∨
        (Sys.init (init_cache 100) EX_URL 0 EX_REQUEST).delivered j late_joiner_schedule
          <+: (Sys.init (init_cache 100) EX_URL 0 EX_REQUEST).delivered i late_joiner_schedule) :=
  ⟨by decide,
   (C3_handlers_send_prefixes (init_cache 100) EX_URL 0 EX_REQUEST late_joiner_schedule).1,
   (C3_handlers_send_prefixes (init_cache 100) EX_URL 0 EX_REQUEST late_joiner_schedule).2
     (by decide)⟩

set_option maxRecDepth 100000 in
/-- C3 as stated fails in two ways. In the allocation failure schedule the
entry is COMPLETE with the example headers and the chunk `AB` and both
handlers return 0; the client of handler A has received the headers followed
by `AB`, the client of handler B, whose header copy could not be allocated,
`AB` alone. In the short send schedule the entry is COMPLETE with the chunks
`AB`, `CD`, no allocation fails and both handlers return 0; the client of
handler A has received the headers, `AB` and `CD`, the client of handler B,
whose `send` of `AB` returned 1, the headers, `A` and `CD`. In neither case is
one a prefix of the other. -/
theorem C3_delivered_not_comparable :
    (alloc_failure_final.entry.status = CACHE_COMPLETE ∧
      alloc_failure_final.handlers.map (fun h => h.sender.pc)
        = [SPc.returned 0, SPc.returned 0] ∧
      (Sys.init (init_cache 100) EX_URL 0 EX_REQUEST).delivered 0 alloc_failure_schedule
        = EX_HEADERS ++ EX_AB ∧
      (Sys.init (init_cache 100) EX_URL 0 EX_REQUEST).delivered 1 alloc_failure_schedule
        = EX_AB ∧
      ¬ ((EX_HEADERS ++ EX_AB) <+: EX_AB ∨ EX_AB <+: (EX_HEADERS ++ EX_AB))) ∧
    (((Sys.init (init_cache 100) EX_URL 0 EX_REQUEST).run short_send_schedule).entry.status
        = CACHE_COMPLETE ∧
      ((Sys.init (init_cache 100) EX_URL 0 EX_REQUEST).run short_send_schedule).handlers.map
          (fun h => (h.sender.pc, sent_chunks h.sender))
        = [(SPc.returned 0, [EX_AB, EX_CD]), (SPc.returned 0, [EX_AB, EX_CD])] ∧
      (Sys.init (init_cache 100) EX_URL 0 EX_REQUEST).delivered 0 short_send_schedule
        = EX_HEADERS ++ EX_AB ++ EX_CD ∧
      (Sys.init (init_cache 100) EX_URL 0 EX_REQUEST).delivered 1 short_send_schedule
        = EX_HEADERS ++ [65] ++ EX_CD ∧
      ¬ ((EX_HEADERS ++ EX_AB ++ EX_CD) <+: (EX_HEADERS ++ [65] ++ EX_CD) ∨
         (EX_HEADERS ++ [65] ++ EX_CD) <+: (EX_HEADERS ++ EX_AB ++ EX_CD))) := by
  decide

set_option maxRecDepth 100000 in
/-- A failed `strdup` at the ignition does not disturb a schedule: in the late
joiner schedule with the first step taken without memory, no header copy
fails to be allocated and no `send` returns short. -/
theorem failed_strdup_is_no_disturbance :
    (Sys.init (init_cache 100) EX_URL 0 EX_REQUEST).undisturbed
      (.handler 0 ENV_NOMEM :: late_joiner_schedule.tail) = true := by
  decide

set_option maxRecDepth 100000 in
/-- C10 at the late joiner schedule, which ends with the entry COMPLETE,
continued by a third client, further fetcher steps and a signal. -/
theorem C10_terminal_status_is_sticky_witness :
    late_joiner_final.entry.status ≠ CACHE_LOADING ∧
    (Sys.init (init_cache 100) EX_URL 0 EX_REQUEST).entry.status = CACHE_LOADING ∧
    ((Sys.init (init_cache 100) EX_URL 0 EX_REQUEST).run
        (late_joiner_schedule ++ after_completion_schedule)).entry.status =
      ((Sys.init (init_cache 100) EX_URL 0 EX_REQUEST).run late_joiner_schedule).entry.status :=
  ⟨by decide,
   C10_terminal_status_is_sticky (init_cache 100) EX_URL 0 EX_REQUEST late_joiner_schedule
     after_completion_schedule (by decide)⟩

/-! ## The registry: invariant -/

/-- An update of the entry at `p` that keeps `g` keeps the values of `g` along
any list. -/
theorem map_update_same {β : Type} (heap : Heap) (p : Nat) (e : cache_entry_t)
    (g : cache_entry_t → β) (hg : g e = g (heap p)) (l : List Nat) :
    l.map (fun q => g (Function.update heap p e q)) = l.map (fun q => g (heap q)) := by
  apply List.map_congr_left
  intro q _
  by_cases hq : q = p
  · subst hq; simp [hg]
  · simp [Function.update_noteq hq]

/-- An update at an address outside the list keeps the values along the list. -/
theorem map_update_fresh {β : Type} (heap : Heap) (p : Nat) (e : cache_entry_t)
    (g : cache_entry_t → β) (l : List Nat) (hp : p ∉ l) :
    l.map (fun q => g (Function.update heap p e q)) = l.map (fun q => g (heap q)) := by
  apply List.map_congr_left
  intro q hq
  have : q ≠ p := fun h => hp (h ▸ hq)
  simp [Function.update_noteq this]

/-- The sum along a list without duplicates splits off the term at a member. -/
theorem sum_split (l : List Nat) (p : Nat) (g : Nat → Nat) (hp : p ∈ l) :
    (l.map g).sum = g p + ((l.erase p).map g).sum := by
  have hperm := (List.perm_cons_erase hp).map g
  rw [hperm.sum_eq, List.map_cons, List.sum_cons]

/-- An update at `p` does not change the values along the list with `p`
erased, when the list has no duplicates. -/
theorem map_update_erase {β : Type} (heap : Heap) (p : Nat) (e : cache_entry_t)
    (g : cache_entry_t → β) (l : List Nat) (hl : l.Nodup) :
    (l.erase p).map (fun q => g (Function.update heap p e q)) =
      (l.erase p).map (fun q => g (heap q)) :=
  map_update_fresh heap p e g (l.erase p) (fun h => (List.Nodup.mem_erase_iff hl).mp h |>.1 rfl)

/-- The effect on the invariant of a change `f` of one entry that keeps the
url, the chunks and the size, keeps a terminal status terminal and keeps the
flag clear in a terminal status. -/
theorem registry_inv_on_entry (r : Registry) (p : Nat) (f : cache_entry_t → cache_entry_t)
    (h : r.Inv)
    (f1 : ∀ e, (f e).url = e.url) (f2 : ∀ e, (f e).chunks = e.chunks)
    (f3 : ∀ e, (f e).total_size = e.total_size)
    (f4 : ∀ e, e.status ≠ CACHE_LOADING → (f e).status ≠ CACHE_LOADING)
    (f5 : ∀ e, (e.status ≠ CACHE_LOADING → e.loading_thread_active = false) →
      (f e).status ≠ CACHE_LOADING → (f e).loading_thread_active = false) :
    (r.on_entry p f).Inv := by
  unfold Registry.on_entry
  split
  · next hp =>
    obtain ⟨h1, h2, h0, h3, h4, h5, h6, h7⟩ := h
    have hval : ∀ q, q ≠ p → Function.update r.heap p (f (r.heap p)) q = r.heap q :=
      fun q hq => Function.update_noteq hq _ _
    have hcb : ∀ e, chunk_bytes (f e) = chunk_bytes e := fun e => by
      simp only [chunk_bytes, f2]
    refine ⟨h1, ?_, ?_, ?_, ?_, ?_, ?_, h7⟩
    · simp only
      rw [map_update_same r.heap p _ (fun e => e.url) (f1 _)]; exact h2
    · simp only [resident_bytes]
      rw [map_update_same r.heap p _ chunk_bytes (hcb _)]; exact h0
    · simp only [entries_total]
      rw [map_update_same r.heap p _ (fun e => e.total_size) (f3 _)]; exact h3
    · intro q hq
      simp only
      by_cases hqp : q = p
      · subst hqp
        simp only [Function.update_same, hcb, f3]
        exact h4 q hq
      · rw [hval q hqp]; exact h4 q hq
    · intro q hq
      simp only
      by_cases hqp : q = p
      · subst hqp
        simp only [Function.update_same]
        exact f5 _ (h5 q hq)
      · rw [hval q hqp]; exact h5 q hq
    · intro g hg
      obtain ⟨a, b⟩ := h6 g hg
      refine ⟨a, ?_⟩
      intro q hq
      obtain ⟨b1, b2⟩ := b q hq
      refine ⟨b1, ?_⟩
      simp only
      by_cases hqp : q = p
      · subst hqp
        simp only [Function.update_same]
        exact f4 _ b2
      · rw [hval q hqp]; exact b2
  · exact h
/-- `find_cache_entry_locked` returns a listed entry with the url. -/
theorem find_cache_entry_locked_some (heap : Heap) (l : List Nat) (url : Bytes) (p : Nat)
    (h : find_cache_entry_locked heap l url = some p) : p ∈ l ∧ (heap p).url = url := by
  unfold find_cache_entry_locked at h
  have h1 := List.mem_of_find?_eq_some h
  have h2 := List.find?_some h
  exact ⟨h1, by simpa using h2⟩

/-- `find_cache_entry_locked` returns `NULL` only when no listed entry has the
url. -/
theorem find_cache_entry_locked_none (heap : Heap) (l : List Nat) (url : Bytes)
    (h : find_cache_entry_locked heap l url = none) : ∀ q ∈ l, (heap q).url ≠ url := by
  unfold find_cache_entry_locked at h
  intro q hq
  have := List.find?_eq_none.mp h q hq
  simpa using this

/-- The invariant depends on the four components only. -/
theorem registry_inv_congr (r r2 : Registry) (h : r.Inv) (hc : r2.cache = r.cache)
    (hh : r2.heap = r.heap) (hg : r2.gc = r.gc) (hf : r2.freed = r.freed) : r2.Inv := by
  cases r; cases r2
  simp only at hc hh hg hf
  subst hc hh hg hf
  exact h

/-- `find_or_create_cache_entry` keeps the invariant. -/
theorem registry_inv_find_or_create (r : Registry) (url : Bytes) (now : Int)
    (alloc : Option Nat) (h : r.Inv) : (r.step (.find_or_create url now alloc)).Inv := by
  simp only [Registry.step]
  cases hgc : r.gc with
  | some g => exact h
  | none =>
    simp only
    split
    · exact h
    · next hfresh =>
      unfold find_or_create_cache_entry
      cases hf : find_cache_entry_locked r.heap r.cache.list url with
      | some p =>
        obtain ⟨hp, -⟩ := find_cache_entry_locked_some _ _ _ _ hf
        have := registry_inv_on_entry r p (fun e => pin_entry e now) h
          (fun _ => rfl) (fun _ => rfl) (fun _ => rfl) (fun _ he => he) (fun _ he => he)
        simp only [Registry.on_entry, hp, if_true] at this
        exact registry_inv_congr _ _ this rfl rfl hgc.symm rfl
      | none =>
        cases alloc with
        | none => exact registry_inv_congr _ _ h rfl rfl hgc.symm rfl
        | some a =>
          have ha : a ∉ r.cache.list := fun hm => hfresh ⟨a, rfl, hm⟩
          have hno := find_cache_entry_locked_none _ _ _ hf
          obtain ⟨h1, h2, h0, h3, h4, h5, h6, h7⟩ := h
          have hval : ∀ q ∈ r.cache.list,
              Function.update r.heap a (create_cache_entry url now) q = r.heap q := by
            intro q hq
            exact Function.update_noteq (fun hqa => ha (by rw [← hqa]; exact hq)) _ _
          refine ⟨?_, ?_, ?_, ?_, ?_, ?_, ?_, h7⟩
          · exact List.nodup_cons.mpr ⟨ha, h1⟩
          · simp only [List.map_cons, Function.update_same]
            rw [map_update_fresh r.heap a _ (fun e => e.url) _ ha]
            refine List.nodup_cons.mpr ⟨?_, h2⟩
            intro hm
            obtain ⟨q, hq, hqe⟩ := List.mem_map.mp hm
            exact hno q hq hqe
          · simp only [resident_bytes, List.map_cons, Function.update_same, List.sum_cons]
            rw [map_update_fresh r.heap a _ chunk_bytes _ ha]
            simp only [chunk_bytes, create_cache_entry, List.map_nil, List.sum_nil, Nat.zero_add]
            exact h0
          · simp only [entries_total, List.map_cons, Function.update_same, List.sum_cons]
            rw [map_update_fresh r.heap a _ (fun e => e.total_size) _ ha]
            simp only [create_cache_entry, Nat.zero_add]
            exact h3
          · intro q hq
            simp only [List.mem_cons] at hq
            rcases hq with rfl | hq
            · simp [chunk_bytes, create_cache_entry]
            · simp only
              rw [hval q hq]; exact h4 q hq
          · intro q hq
            simp only [List.mem_cons] at hq
            rcases hq with rfl | hq
            · simp [create_cache_entry]
            · simp only
              rw [hval q hq]; exact h5 q hq
          · intro g hg
            cases hg
/-- With exact entry sizes the sum of the entry sizes is the number of
resident chunk bytes. -/
theorem entries_total_eq_resident (c : cache_t) (heap : Heap)
    (h : ∀ entry ∈ c.list, (heap entry).total_size = chunk_bytes (heap entry)) :
    entries_total c heap = resident_bytes c heap := by
  unfold entries_total resident_bytes
  congr 1
  exact List.map_congr_left h

/-- The chunk bytes of a listed entry are among the resident bytes. -/
theorem chunk_bytes_le_resident (c : cache_t) (heap : Heap) (p : Nat) (hp : p ∈ c.list) :
    chunk_bytes (heap p) ≤ resident_bytes c heap := by
  unfold resident_bytes
  rw [sum_split c.list p (fun entry => chunk_bytes (heap entry)) hp]
  exact Nat.le_add_right _ _

/-- Linking a chunk of `n` bytes that fits the address space to a listed entry
and adding `n` to both sizes keeps the invariant. -/
theorem registry_inv_append (r : Registry) (p n : Nat) (E : cache_entry_t) (h : r.Inv)
    (hp : p ∈ r.cache.list) (hfit : resident_bytes r.cache r.heap + n < SIZE_MOD)
    (e1 : E.url = (r.heap p).url)
    (e2 : chunk_bytes E = chunk_bytes (r.heap p) + n)
    (e3 : E.total_size = ((r.heap p).total_size + n) % SIZE_MOD)
    (e4 : E.status = (r.heap p).status)
    (e5 : E.loading_thread_active = (r.heap p).loading_thread_active) :
    Registry.Inv
      { cache := { r.cache with total_size := (r.cache.total_size + n) % SIZE_MOD }
        heap := Function.update r.heap p E
        gc := none
        freed := r.freed } := by
  obtain ⟨h1, h2, h0, h3, h4, h5, h6, h7⟩ := h
  have hval : ∀ q, q ≠ p → Function.update r.heap p E q = r.heap q :=
    fun q hq => Function.update_noteq hq _ _
  have hle := chunk_bytes_le_resident r.cache r.heap p hp
  have htot := entries_total_eq_resident r.cache r.heap h4
  have hE : E.total_size = chunk_bytes E := by
    rw [e3, e2, h4 p hp]
    exact Nat.mod_eq_of_lt (by omega)
  refine ⟨h1, ?_, ?_, ?_, ?_, ?_, ?_, h7⟩
  · simp only
    rw [map_update_same r.heap p E (fun e => e.url) e1]; exact h2
  · simp only [resident_bytes] at h0 hfit ⊢
    rw [sum_split r.cache.list p _ hp] at h0 hfit ⊢
    rw [map_update_erase r.heap p E chunk_bytes _ h1]
    simp only [Function.update_same]
    rw [e2]
    omega
  · have hT : r.cache.total_size + n < SIZE_MOD := by
      rw [h3, htot]; exact hfit
    simp only
    rw [Nat.mod_eq_of_lt hT, h3]
    simp only [entries_total]
    rw [sum_split r.cache.list p _ hp, sum_split r.cache.list p _ hp,
      map_update_erase r.heap p E (fun e => e.total_size) _ h1]
    simp only [Function.update_same]
    rw [hE, e2, h4 p hp]
    omega
  · intro q hq
    simp only
    by_cases hqp : q = p
    · subst hqp
      simp only [Function.update_same]
      exact hE
    · rw [hval q hqp]; exact h4 q hq
  · intro q hq
    simp only
    by_cases hqp : q = p
    · subst hqp
      simp only [Function.update_same]
      rw [e4, e5]
      exact h5 q hq
    · rw [hval q hqp]; exact h5 q hq
  · intro g hg
    cases hg

/-- `add_chunk_to_cache` on a listed entry keeps the invariant. -/
theorem registry_inv_add_chunk (r : Registry) (p : Nat) (data : Bytes) (malloc_ok : Bool)
    (h : r.Inv) : (r.step (.add_chunk p data malloc_ok)).Inv := by
  simp only [Registry.step]
  cases hgc : r.gc with
  | some g => exact h
  | none =>
    simp only
    split
    · next hp =>
      by_cases hok : malloc_ok = true ∧
          resident_bytes r.cache r.heap + data.length < SIZE_MOD
      · have hb : (malloc_ok && decide
            (resident_bytes r.cache r.heap + data.length < SIZE_MOD)) = true := by
          simp [hok.1, hok.2]
        rw [hb]
        simp only [add_chunk_to_cache, if_true]
        refine registry_inv_append r p data.length _ h hp hok.2 rfl ?_ rfl rfl rfl
        simp [chunk_bytes]
      · have hb : (malloc_ok && decide
            (resident_bytes r.cache r.heap + data.length < SIZE_MOD)) = false := by
          cases malloc_ok with
          | false => rfl
          | true => simpa using hok
        rw [hb]
        simp only [add_chunk_to_cache, Bool.false_eq_true, if_false]
        refine registry_inv_congr _ _ h rfl ?_ hgc.symm rfl
        simp
    · exact h

/-- The start of a scan keeps the invariant. -/
theorem registry_inv_gc_begin (r : Registry) (now : Int) (h : r.Inv) :
    (r.step (.gc_begin now)).Inv := by
  simp only [Registry.step]
  cases hgc : r.gc with
  | some g => exact h
  | none =>
    obtain ⟨h1, h2, h0, h3, h4, h5, h6, h7⟩ := h
    refine ⟨h1, h2, h0, h3, h4, h5, ?_, h7⟩
    intro g hg
    simp only [Option.some.injEq] at hg
    subst hg
    simp [OsProxy.gc_begin]

/-- A visit of the scan keeps the invariant. -/
theorem registry_inv_gc_visit (r : Registry) (h : r.Inv) : (r.step .gc_visit).Inv := by
  simp only [Registry.step]
  cases hgc : r.gc with
  | none => exact h
  | some g =>
    obtain ⟨h1, h2, h0, h3, h4, h5, h6, h7⟩ := h
    obtain ⟨a, b⟩ := h6 g hgc
    refine ⟨h1, h2, h0, h3, h4, h5, ?_, h7⟩
    intro g2 hg2
    simp only [Option.some.injEq] at hg2
    subst hg2
    unfold OsProxy.gc_visit
    cases htodo : g.todo with
    | nil => simp only; exact ⟨fun q hq => a q (htodo ▸ hq), b⟩
    | cons q rest =>
      have hq : q ∈ r.cache.list := a q (by rw [htodo]; exact List.mem_cons_self _ _)
      have hrest : ∀ x ∈ rest, x ∈ r.cache.list :=
        fun x hx => a x (by rw [htodo]; exact List.mem_cons_of_mem _ hx)
      simp only
      split
      · next hc =>
        refine ⟨hrest, ?_⟩
        intro x hx
        simp only [Option.some.injEq] at hx
        subst hx
        refine ⟨hq, ?_⟩
        rw [hc.2.1]
        decide
      · exact ⟨hrest, b⟩

/-- The end of a scan, with or without a removal, keeps the invariant. -/
theorem registry_inv_gc_finish (r : Registry) (h : r.Inv) : (r.step .gc_finish).Inv := by
  simp only [Registry.step]
  cases hgc : r.gc with
  | none => exact h
  | some g =>
    simp only
    cases htodo : g.todo with
    | cons q rest => exact h
    | nil =>
      obtain ⟨h1, h2, h0, h3, h4, h5, h6, h7⟩ := h
      obtain ⟨-, b⟩ := h6 g hgc
      simp only
      unfold OsProxy.gc_finish
      cases hold : g.oldest with
      | none =>
        exact ⟨h1, h2, h0, h3, h4, h5, fun g hg => (by cases hg), h7⟩
      | some p =>
        obtain ⟨hp, hst⟩ := b p hold
        simp only
        split
        · next href =>
          simp only [remove_entry_from_list]
          have hsub : (r.cache.list.erase p).Sublist r.cache.list := List.erase_sublist _ _
          have hle := chunk_bytes_le_resident r.cache r.heap p hp
          have htot := entries_total_eq_resident r.cache r.heap h4
          refine ⟨h1.sublist hsub, h2.sublist (hsub.map _), ?_, ?_, ?_, ?_,
            fun g hg => (by cases hg), ?_⟩
          · simp only [resident_bytes] at h0 ⊢
            rw [sum_split r.cache.list p _ hp] at h0
            omega
          · simp only [entries_total] at h3 htot ⊢
            rw [sum_split r.cache.list p _ hp] at h3 htot
            rw [h3]
            have h4p := h4 p hp
            simp only [SIZE_MOD] at h0 ⊢
            omega
          · intro x hx
            exact h4 x (List.mem_of_mem_erase hx)
          · intro x hx
            exact h5 x (List.mem_of_mem_erase hx)
          · intro e he
            simp only [List.mem_append, List.mem_singleton] at he
            rcases he with he | rfl
            · exact h7 e he
            · exact ⟨href, hst, h5 p hp hst⟩
        · exact ⟨h1, h2, h0, h3, h4, h5, fun g hg => (by cases hg), h7⟩

/-- Every call keeps the invariant. -/
theorem registry_inv_step (r : Registry) (op : Op) (h : r.Inv) : (r.step op).Inv := by
  cases op with
  | find_or_create url now alloc => exact registry_inv_find_or_create r url now alloc h
  | release p =>
    exact registry_inv_on_entry r p release_cache_entry h
      (fun _ => rfl) (fun _ => rfl) (fun _ => rfl) (fun _ he => he) (fun _ he => he)
  | start_download p request malloc_ok =>
    refine registry_inv_on_entry r p
      (fun e => (start_download_if_needed e request request.length malloc_ok).2) h
      ?_ ?_ ?_ ?_ ?_
    · intro e
      simp only [start_download_if_needed]
      split
      · cases e.original_request <;> rfl
      · rfl
    · intro e
      exact (start_download_effect e request request.length malloc_ok).1
    · intro e
      simp only [start_download_if_needed]
      split
      · cases e.original_request <;> rfl
      · rfl
    · intro e he
      rw [(start_download_effect e request request.length malloc_ok).2.2.2.1]; exact he
    · intro e he hs
      obtain ⟨-, -, -, a4, a5, -, a7⟩ := start_download_effect e request request.length malloc_ok
      rw [a4] at hs
      have hd : (start_download_if_needed e request request.length malloc_ok).1 = false := by
        cases hx : (start_download_if_needed e request request.length malloc_ok).1 with
        | false => rfl
        | true => exact absurd (a5.mp hx).1 hs
      show (start_download_if_needed e request request.length malloc_ok).2.loading_thread_active
        = false
      rw [a7 hd]; exact he hs
  | publish p hs malloc_ok =>
    refine registry_inv_on_entry r p (fun e => publish_headers e hs malloc_ok) h
      ?_ ?_ ?_ ?_ ?_ <;>
      (intro e; simp only [publish_headers]; cases malloc_ok <;> simp)
  | add_chunk p data malloc_ok => exact registry_inv_add_chunk r p data malloc_ok h
  | set_error p =>
    refine registry_inv_on_entry r p set_cache_error h ?_ ?_ ?_ ?_ ?_ <;>
      (intro e; simp [set_cache_error])
  | complete p =>
    refine registry_inv_on_entry r p download_complete h ?_ ?_ ?_ ?_ ?_ <;>
      (intro e; simp [download_complete])
  | gc_begin now => exact registry_inv_gc_begin r now h
  | gc_visit => exact registry_inv_gc_visit r h
  | gc_finish => exact registry_inv_gc_finish r h

/-- The invariant holds after `init_cache`. -/
theorem registry_inv_init (max_size_mb : Nat) (heap : Heap) :
    (Registry.init max_size_mb heap).Inv := by
  constructor <;> simp [Registry.init, init_cache, entries_total, resident_bytes, SIZE_MOD]

/-- The invariant holds after every sequence of calls. -/
theorem registry_inv_run (r : Registry) (ops : List Op) (h : r.Inv) : (r.run ops).Inv := by
  induction ops generalizing r with
  | nil => exact h
  | cons op rest ih => exact ih (r.step op) (registry_inv_step r op h)

/-! ## The registry: lookup, uniqueness, sizes, eviction -/

/-- C5. `find_or_create_cache_entry (url)`: if the registry list holds an
entry with that url, the call returns such an entry `p`, the entry is as
before except that `ref_count` is one more and `last_accessed` is `now`, and
the cache (list order, sizes) and every other entry are unchanged; if it holds
none and the allocation succeeds with a fresh address `a`, the call returns
`a`, the new entry has that url, status LOADING, `ref_count` 1, no headers, no
chunks and `loading_thread_active` 0, the list is `a` followed by the previous
list, and every other entry is unchanged. -/
theorem C5_find_or_create (c : cache_t) (heap : Heap) (url : Bytes) (now : Int)
    (alloc : Option Nat) :
    ((∃ q ∈ c.list, (heap q).url = url) →
      ∃ p ∈ c.list, (heap p).url = url ∧
        (find_or_create_cache_entry c heap url now alloc).1 = some p ∧
        (find_or_create_cache_entry c heap url now alloc).2.1 = c ∧
        (find_or_create_cache_entry c heap url now alloc).2.2 p =
          { heap p with ref_count := (heap p).ref_count + 1, last_accessed := now } ∧
        ∀ q, q ≠ p → (find_or_create_cache_entry c heap url now alloc).2.2 q = heap q) ∧
    ((∀ q ∈ c.list, (heap q).url ≠ url) → ∀ a, alloc = some a → a ∉ c.list →
      (find_or_create_cache_entry c heap url now alloc).1 = some a ∧
      (find_or_create_cache_entry c heap url now alloc).2.1.list = a :: c.list ∧
      (find_or_create_cache_entry c heap url now alloc).2.1.total_size = c.total_size ∧
      ((find_or_create_cache_entry c heap url now alloc).2.2 a).url = url ∧
      ((find_or_create_cache_entry c heap url now alloc).2.2 a).status = CACHE_LOADING ∧
      ((find_or_create_cache_entry c heap url now alloc).2.2 a).ref_count = 1 ∧
      ((find_or_create_cache_entry c heap url now alloc).2.2 a).headers = none ∧
      ((find_or_create_cache_entry c heap url now alloc).2.2 a).chunks = [] ∧
      ((find_or_create_cache_entry c heap url now alloc).2.2 a).loading_thread_active = false ∧
      ∀ q, q ≠ a → (find_or_create_cache_entry c heap url now alloc).2.2 q = heap q) := by
  refine ⟨?_, ?_⟩
  · rintro ⟨q, hq, hqu⟩
    cases hf : find_cache_entry_locked heap c.list url with
    | none => exact absurd hqu (find_cache_entry_locked_none _ _ _ hf q hq)
    | some p =>
      obtain ⟨hp, hpu⟩ := find_cache_entry_locked_some _ _ _ _ hf
      refine ⟨p, hp, hpu, ?_⟩
      simp only [find_or_create_cache_entry, hf, Function.update_same, pin_entry, true_and]
      intro x hx
      exact Function.update_noteq hx _ _
  · intro hno a ha hfresh
    subst ha
    have hf : find_cache_entry_locked heap c.list url = none := by
      unfold find_cache_entry_locked
      rw [List.find?_eq_none]
      intro q hq
      simpa using hno q hq
    simp only [find_or_create_cache_entry, hf, Function.update_same, create_cache_entry,
      true_and]
    intro x hx
    exact Function.update_noteq hx _ _

/-- C6. Starting from the empty registry, after any sequence of calls
(`find_or_create_cache_entry`, `release_cache_entry`, `add_chunk_to_cache`,
the other entry operations, and the evictor's scans and removals), no two
entries in the registry list have the same url. -/
theorem C6_one_entry_per_url (max_size_mb : Nat) (heap : Heap) (ops : List Op) :
    (((Registry.init max_size_mb heap).run ops).cache.list.map
      (fun entry => (((Registry.init max_size_mb heap).run ops).heap entry).url)).Nodup :=
  (registry_inv_run _ ops (registry_inv_init max_size_mb heap)).nodup_url

/-- C7. Starting from `init_cache`, after any sequence of calls
(`find_or_create_cache_entry`, `add_chunk_to_cache` on registered entries, the
other entry operations, the evictor's scans and removals), `cache.total_size`
equals the sum of `entry->total_size` over the entries in the registry list,
and the `total_size` of each such entry equals the sum of the sizes of its
chunks. -/
theorem C7_total_size_accounting (max_size_mb : Nat) (heap : Heap) (ops : List Op) :
    ((Registry.init max_size_mb heap).run ops).cache.total_size =
      entries_total ((Registry.init max_size_mb heap).run ops).cache
        ((Registry.init max_size_mb heap).run ops).heap ∧
    ∀ entry ∈ ((Registry.init max_size_mb heap).run ops).cache.list,
      (((Registry.init max_size_mb heap).run ops).heap entry).total_size =
        chunk_bytes (((Registry.init max_size_mb heap).run ops).heap entry) :=
  ⟨(registry_inv_run _ ops (registry_inv_init max_size_mb heap)).cache_size,
   (registry_inv_run _ ops (registry_inv_init max_size_mb heap)).entry_size⟩

/-- C9. After any sequence of calls (pins, releases, ignitions, the fetcher's
entry operations, the evictor's scans) every entry that the evictor unlinked
and freed had, at that moment, `ref_count == 0`, a terminal status and
`loading_thread_active == 0`. -/
theorem C9_evictor_frees_only_idle_entries (max_size_mb : Nat) (heap : Heap) (ops : List Op)
    (e : cache_entry_t) (he : e ∈ ((Registry.init max_size_mb heap).run ops).freed) :
    e.ref_count = 0 ∧ (e.status = CACHE_COMPLETE ∨ e.status = CACHE_ERROR) ∧
    e.loading_thread_active = false := by
  obtain ⟨h1, h2, h3⟩ :=
    (registry_inv_run _ ops (registry_inv_init max_size_mb heap)).freed_ok e he
  refine ⟨h1, ?_, h3⟩
  cases hs : e.status with
  | CACHE_LOADING => exact absurd hs h2
  | CACHE_COMPLETE => exact Or.inl rfl
  | CACHE_ERROR => exact Or.inr rfl

/-- The scan from any point: the time it ends with is not later than the time
it started with and not later than the access time of any evictable entry it
visited; and either it keeps `oldest` and the time, or it ends with an
evictable visited entry whose access time is the final time, earlier than the
time it started with. -/
theorem gc_scan_from_spec (heap : Heap) (l : List Nat) :
    ∀ (o : Option Nat) (t : Int),
      (gc_scan_from heap l o t).2 ≤ t ∧
      (∀ q ∈ l, evictable (heap q) → (gc_scan_from heap l o t).2 ≤ (heap q).last_accessed) ∧
      (((gc_scan_from heap l o t).1 = o ∧ (gc_scan_from heap l o t).2 = t) ∨
        ∃ v ∈ l, (gc_scan_from heap l o t).1 = some v ∧ evictable (heap v) ∧
          (heap v).last_accessed = (gc_scan_from heap l o t).2 ∧
          (gc_scan_from heap l o t).2 < t) := by
  induction l with
  | nil =>
    intro o t
    simp [gc_scan_from]
  | cons p rest ih =>
    intro o t
    simp only [gc_scan_from, gc_visit]
    by_cases hc : (heap p).ref_count = 0 ∧ (heap p).status = CACHE_COMPLETE ∧
        (heap p).last_accessed < t
    · rw [if_pos hc]
      simp only
      obtain ⟨i1, i2, i3⟩ := ih (some p) (heap p).last_accessed
      refine ⟨by omega, ?_, ?_⟩
      · intro q hq he
        simp only [List.mem_cons] at hq
        rcases hq with rfl | hq
        · exact i1
        · exact i2 q hq he
      · right
        rcases i3 with ⟨j1, j2⟩ | ⟨v, hv, j1, j2, j3, j4⟩
        · exact ⟨p, List.mem_cons_self _ _, j1, ⟨hc.1, hc.2.1⟩, j2.symm, by rw [j2]; exact hc.2.2⟩
        · exact ⟨v, List.mem_cons_of_mem _ hv, j1, j2, j3, by omega⟩
    · rw [if_neg hc]
      simp only
      obtain ⟨i1, i2, i3⟩ := ih o t
      refine ⟨i1, ?_, ?_⟩
      · intro q hq he
        simp only [List.mem_cons] at hq
        rcases hq with rfl | hq
        · have : ¬ (heap q).last_accessed < t := fun hlt => hc ⟨he.1, he.2, hlt⟩
          omega
        · exact i2 q hq he
      · rcases i3 with ⟨j1, j2⟩ | ⟨v, hv, j1, j2, j3, j4⟩
        · exact Or.inl ⟨j1, j2⟩
        · exact Or.inr ⟨v, List.mem_cons_of_mem _ hv, j1, j2, j3, j4⟩

/-- C8 (amended). When the evictor's scan runs at time `now` over a registry
in which at least one entry has `ref_count == 0`, status COMPLETE and
`last_accessed` earlier than `now`, it selects a victim; and whenever it
selects a victim, the victim is a listed entry with `ref_count == 0` and
status COMPLETE (so entries that are LOADING, in ERROR or pinned are never
selected), last accessed before `now`, whose `last_accessed` is the smallest
among all listed entries with `ref_count == 0` and status COMPLETE. -/
theorem C8_scan_selects_oldest_evictable (c : cache_t) (heap : Heap) (now : Int) :
    ((∃ p ∈ c.list, evictable (heap p) ∧ (heap p).last_accessed < now) →
      ∃ v, gc_scan c heap now = some v) ∧
    (∀ v, gc_scan c heap now = some v →
      v ∈ c.list ∧ (heap v).ref_count = 0 ∧ (heap v).status = CACHE_COMPLETE ∧
      (heap v).last_accessed < now ∧
      ∀ q ∈ c.list, (heap q).ref_count = 0 → (heap q).status = CACHE_COMPLETE →
        (heap v).last_accessed ≤ (heap q).last_accessed) := by
  obtain ⟨i1, i2, i3⟩ := gc_scan_from_spec heap c.list.reverse none now
  refine ⟨?_, ?_⟩
  · rintro ⟨p, hp, hev, hlt⟩
    have hpt := i2 p (List.mem_reverse.mpr hp) hev
    rcases i3 with ⟨-, j2⟩ | ⟨v, -, j1, -, -, -⟩
    · omega
    · exact ⟨v, j1⟩
  · intro v hv
    unfold gc_scan at hv
    rcases i3 with ⟨j1, -⟩ | ⟨w, hw, j1, j2, j3, j4⟩
    · rw [hv] at j1; cases j1
    · rw [hv] at j1
      cases j1
      refine ⟨List.mem_reverse.mp hw, j2.1, j2.2, by omega, ?_⟩
      intro q hq hr hs
      rw [j3]
      exact i2 q (List.mem_reverse.mpr hq) ⟨hr, hs⟩

/-- C8 as stated fails: the cache holds one entry, COMPLETE and not pinned,
last accessed at time 5; the scan at time 5 selects no victim. -/
theorem C8_no_victim_in_the_same_second :
    (∃ p ∈ one_entry_cache.list, (one_entry_heap p).ref_count = 0 ∧
      (one_entry_heap p).status = CACHE_COMPLETE) ∧
    gc_scan one_entry_cache one_entry_heap 5 = none := by
  decide

/-- C8 (amended) at the one entry cache, scanned at time 6: the entry, last
accessed at time 5, is selected. -/
theorem C8_scan_selects_oldest_evictable_witness :
    (∃ p ∈ one_entry_cache.list, evictable (one_entry_heap p) ∧
      (one_entry_heap p).last_accessed < 6) ∧
    gc_scan one_entry_cache one_entry_heap 6 = some 0 ∧
    (∃ v, gc_scan one_entry_cache one_entry_heap 6 = some v) ∧
    (0 ∈ one_entry_cache.list ∧ (one_entry_heap 0).ref_count = 0 ∧
      (one_entry_heap 0).status = CACHE_COMPLETE ∧ (one_entry_heap 0).last_accessed < 6 ∧
      ∀ q ∈ one_entry_cache.list, (one_entry_heap q).ref_count = 0 →
        (one_entry_heap q).status = CACHE_COMPLETE →
        (one_entry_heap 0).last_accessed ≤ (one_entry_heap q).last_accessed) :=
  ⟨⟨0, by decide, ⟨rfl, rfl⟩, by decide⟩, by decide,
   (C8_scan_selects_oldest_evictable one_entry_cache one_entry_heap 6).1
     ⟨0, by decide, ⟨rfl, rfl⟩, by decide⟩,
   (C8_scan_selects_oldest_evictable one_entry_cache one_entry_heap 6).2 0 (by decide)⟩
set_option maxRecDepth 100000 in
/-- C5 at the example registry before the evictor runs: a request for
`http://x/` finds the entry at address 0; a request for a url that is not
cached, with `calloc` returning address 7, creates the entry there. -/
theorem C5_find_or_create_witness :
    ((∃ q ∈ registry_example_mid.cache.list, (registry_example_mid.heap q).url = EX_URL) ∧
      ∃ p ∈ registry_example_mid.cache.list, (registry_example_mid.heap p).url = EX_URL ∧
        (find_or_create_cache_entry registry_example_mid.cache registry_example_mid.heap
          EX_URL 4 none).1 = some p ∧
        (find_or_create_cache_entry registry_example_mid.cache registry_example_mid.heap
          EX_URL 4 none).2.1 = registry_example_mid.cache ∧
        (find_or_create_cache_entry registry_example_mid.cache registry_example_mid.heap
          EX_URL 4 none).2.2 p =
          { registry_example_mid.heap p with
            ref_count := (registry_example_mid.heap p).ref_count + 1, last_accessed := 4 } ∧
        ∀ q, q ≠ p →
          (find_or_create_cache_entry registry_example_mid.cache registry_example_mid.heap
            EX_URL 4 none).2.2 q = registry_example_mid.heap q) ∧
    ((∀ q ∈ registry_example_mid.cache.list, (registry_example_mid.heap q).url ≠ EX_AB) ∧
      7 ∉ registry_example_mid.cache.list ∧
      (find_or_create_cache_entry registry_example_mid.cache registry_example_mid.heap
        EX_AB 4 (some 7)).1 = some 7 ∧
      (find_or_create_cache_entry registry_example_mid.cache registry_example_mid.heap
        EX_AB 4 (some 7)).2.1.list = 7 :: registry_example_mid.cache.list) :=
  ⟨⟨by decide,
    (C5_find_or_create registry_example_mid.cache registry_example_mid.heap EX_URL 4 none).1
      (by decide)⟩,
   by decide, by decide,
   ((C5_find_or_create registry_example_mid.cache registry_example_mid.heap EX_AB 4
      (some 7)).2 (by decide) 7 rfl (by decide)).1,
   ((C5_find_or_create registry_example_mid.cache registry_example_mid.heap EX_AB 4
      (some 7)).2 (by decide) 7 rfl (by decide)).2.1⟩

set_option maxRecDepth 100000 in
/-- C9 at the example registry: the evictor has freed the entry of
`http://x/`, which was COMPLETE, released by both clients and without an
active fetcher. -/
theorem C9_evictor_frees_only_idle_entries_witness :
    EX_FREED ∈ registry_example_final.freed ∧
    (EX_FREED.ref_count = 0 ∧
      (EX_FREED.status = CACHE_COMPLETE ∨ EX_FREED.status = CACHE_ERROR) ∧
      EX_FREED.loading_thread_active = false) :=
  ⟨by decide,
   C9_evictor_frees_only_idle_entries 100 EX_HEAP registry_example_ops EX_FREED (by decide)⟩

/-! ## The fetcher: a failed read -/

/-- C11. Whenever the fetcher of an entry stands at the test of its read loop
with the shutdown flags clear and its `recv` fails with an error other than
`EAGAIN`/`EWOULDBLOCK`, the fetcher leaves the loop with the entry still
LOADING, its next step is `download_complete`, and from then on the entry is
COMPLETE (not ERROR) whatever runs afterwards. -/
theorem C11_recv_error_leaves_entry_complete (c : cache_t) (url : Bytes) (now : Int)
    (request : Bytes) (sched rest : List Action) (j : Nat) (env env2 : FetchEnv)
    (hrun : ((Sys.init c url now request).run sched).running = true)
    (hforce : ((Sys.init c url now request).run sched).force_shutdown = false)
    (hpc : (((Sys.init c url now request).run sched).fetchers[j]?).map Fetcher.pc
      = some FPc.recv_loop)
    (herr : env.recv = RecvResult.error) :
    ((Sys.init c url now request).run (sched ++ [.fetcher j env])).entry.status
      = CACHE_LOADING ∧
    ((((Sys.init c url now request).run (sched ++ [.fetcher j env])).fetchers[j]?).map
      Fetcher.pc = some FPc.finish) ∧
    ((Sys.init c url now request).run
      (sched ++ [.fetcher j env, .fetcher j env2] ++ rest)).entry.status = CACHE_COMPLETE ∧
    ((Sys.init c url now request).run
      (sched ++ [.fetcher j env, .fetcher j env2] ++ rest)).entry.status ≠ CACHE_ERROR := by
  have hinv := sys_inv_run _ sched (sys_inv_init c url now request)
  rw [List.append_assoc, sys_run_append, sys_run_append, sys_run_append]
  generalize (Sys.init c url now request).run sched = s at hrun hforce hpc hinv
  cases hj : s.fetchers[j]? with
  | none => simp [hj] at hpc
  | some f =>
    have hf : f.pc = .recv_loop := by simpa [hj] using hpc
    have hlt : j < s.fetchers.length := (List.getElem?_eq_some_iff.mp hj).1
    have hstep : recv_loop_step s.running s.force_shutdown env f = { f with pc := .finish } := by
      simp [recv_loop_step, hrun, hforce, herr]
    have h1 : s.run [.fetcher j env] =
        { s with fetchers := s.fetchers.set j { f with pc := .finish } } := by
      simp [Sys.run, Sys.step, hj, download_thread_step, hf, hstep]
    have hinv1 : (s.run [.fetcher j env]).Inv := sys_inv_run s _ hinv
    have hact := hinv.active f (List.getElem?_mem hj) (by rw [hf]; simp)
    have h2 : (s.run [.fetcher j env, .fetcher j env2]).entry.status = CACHE_COMPLETE := by
      simp [Sys.run, Sys.step, hj, download_thread_step, hf, hstep, hlt, download_complete]
    have hinv2 : (s.run [.fetcher j env, .fetcher j env2]).Inv := sys_inv_run s _ hinv
    have h3 := terminal_run _ rest hinv2 (by rw [h2]; simp)
    refine ⟨?_, ?_, ?_, ?_⟩
    · rw [h1]; exact hact.1
    · rw [h1]; simp [hlt]
    · rw [h3, h2]
    · rw [h3, h2]; simp

set_option maxRecDepth 100000 in
/-- The end of the failed read scenario: the entry is COMPLETE with the
headers and the one chunk read before the failure, and client A has received
both and got 0 from `send_cached_data`, as after a clean end of the response. -/
theorem recv_error_final_state :
    recv_error_final.entry.status = CACHE_COMPLETE ∧
    recv_error_final.entry.headers = some EX_HEADERS ∧
    recv_error_final.entry.chunks = [EX_AB] ∧
    recv_error_final.fetchers.map Fetcher.pc = [FPc.exited] ∧
    recv_error_final.handlers.map (fun h => (h.sender.pc, h.sender.out)) =
      [(SPc.returned 0, [Payload.headers EX_HEADERS, Payload.chunk EX_AB])] := by
  decide

set_option maxRecDepth 100000 in
/-- C11 at the failed read scenario. -/
theorem C11_recv_error_leaves_entry_complete_witness :
    ((Sys.init (init_cache 100) EX_URL 0 EX_REQUEST).run before_failed_read).running = true ∧
    ((Sys.init (init_cache 100) EX_URL 0 EX_REQUEST).run before_failed_read).force_shutdown
      = false ∧
    ((((Sys.init (init_cache 100) EX_URL 0 EX_REQUEST).run before_failed_read).fetchers[0]?).map
      Fetcher.pc = some FPc.recv_loop) ∧
    (env_recv .error).recv = RecvResult.error ∧
    ((Sys.init (init_cache 100) EX_URL 0 EX_REQUEST).run
      (before_failed_read ++ [.fetcher 0 (env_recv .error)])).entry.status = CACHE_LOADING ∧
    ((((Sys.init (init_cache 100) EX_URL 0 EX_REQUEST).run
      (before_failed_read ++ [.fetcher 0 (env_recv .error)])).fetchers[0]?).map
      Fetcher.pc = some FPc.finish) ∧
    ((Sys.init (init_cache 100) EX_URL 0 EX_REQUEST).run
      (before_failed_read ++ [.fetcher 0 (env_recv .error), .fetcher 0 (env_recv .eof)] ++
        recv_error_rest)).entry.status = CACHE_COMPLETE ∧
    ((Sys.init (init_cache 100) EX_URL 0 EX_REQUEST).run
      (before_failed_read ++ [.fetcher 0 (env_recv .error), .fetcher 0 (env_recv .eof)] ++
        recv_error_rest)).entry.status ≠ CACHE_ERROR :=
  ⟨by decide, by decide, by decide, rfl,
   C11_recv_error_leaves_entry_complete (init_cache 100) EX_URL 0 EX_REQUEST before_failed_read
     recv_error_rest 0 (env_recv .error) (env_recv .eof) (by decide) (by decide) (by decide) rfl⟩

/-! ## The path of the on-disk mirror -/

/-- One round of the loop of `hash_url` on a byte that converts to itself. -/
theorem hash_round (hash b : Nat) :
    (((hash * 2 ^ 5) % ULONG_MOD + hash) % ULONG_MOD + int_to_ulong (b : Int)) % ULONG_MOD
      = (hash * 33 + b) % 2 ^ 64 := by
  have hb : int_to_ulong (b : Int) = b % 2 ^ 64 := by
    unfold int_to_ulong ULONG_MOD
    have : ((b : Int) % ((2 ^ 64 : Nat) : Int)) = ((b % 2 ^ 64 : Nat) : Int) := by
      push_cast; rfl
    rw [this, Int.toNat_ofNat]
  rw [hb]
  simp only [ULONG_MOD]
  norm_num
  omega

/-- A byte converts to itself when `char` is unsigned or the byte is below
128. -/
theorem char_to_int_plain (char_signed : Bool) (b : Nat)
    (h : char_signed = false ∨ b < 128) : char_to_int char_signed b = (b : Int) := by
  unfold char_to_int
  rcases h with h | h
  · simp [h]
  · rw [if_neg]
    omega

/-- On a string of plain bytes `hash_url` computes the djb2 fold. -/
theorem hash_url_from_eq (char_signed : Bool) (url : Bytes) (hash : Nat)
    (h0 : ∀ b ∈ url, b ≠ 0)
    (hplain : char_signed = false ∨ ∀ b ∈ url, b < 128) :
    hash_url_from char_signed hash url
      = url.foldl (fun hash c => (hash * 33 + c) % 2 ^ 64) hash := by
  induction url generalizing hash with
  | nil => rfl
  | cons b rest ih =>
    have hb : char_to_int char_signed b = (b : Int) :=
      char_to_int_plain char_signed b
        (hplain.imp id (fun h => h b (List.mem_cons_self b rest)))
    have hb0 : b ≠ 0 := h0 b (List.mem_cons_self b rest)
    rw [hash_url_from, hb, if_neg (by exact_mod_cast hb0), hash_round, List.foldl_cons]
    exact ih _ (fun x hx => h0 x (List.mem_cons_of_mem b hx))
      (hplain.imp id (fun h x hx => h x (List.mem_cons_of_mem b hx)))

/-- The hash is an `unsigned long` value. -/
theorem hash_url_from_lt (char_signed : Bool) (url : Bytes) (hash : Nat)
    (h : hash < ULONG_MOD) : hash_url_from char_signed hash url < ULONG_MOD := by
  induction url generalizing hash with
  | nil => exact h
  | cons b rest ih =>
    rw [hash_url_from]
    split
    · exact h
    · exact ih _ (Nat.mod_lt _ (by decide))

/-- An `unsigned long` prints with at most 20 digits. -/
theorem print_lu_length (n : Nat) (h : n < ULONG_MOD) : (print_lu n).length ≤ 20 := by
  have := Nat.repr_length n 20 (by decide) (lt_of_lt_of_le h (by decide))
  have h1 : (Nat.repr n).length = (Nat.toDigits 10 n).length := rfl
  rw [print_lu, List.length_map, ← h1]
  exact this

/-- The formatted path fits the 512 bytes of the buffer. -/
theorem get_cache_file_path_eq (char_signed : Bool) (url : Bytes) :
    get_cache_file_path char_signed true url
      = some (CACHE_DIR ++ [47] ++ print_lu (hash_url char_signed url) ++ DOT_CACHE) := by
  have h := print_lu_length (hash_url char_signed url)
    (hash_url_from_lt char_signed url 5381 (by decide))
  simp only [get_cache_file_path, if_true, Option.some.injEq]
  apply List.take_of_length_le
  simp [CACHE_DIR, DOT_CACHE]
  omega

/-- C12. The path that `get_cache_file_path` builds for a url is `"cache/"`,
the decimal value of the djb2 hash of the url, `".cache"` (start 5381, step
`hash * 33 + c` modulo `2 ^ 64` with each byte taken as its value) whenever
plain `char` is unsigned or every byte of the url is below 128; and the path
is a function of the url alone, so equal urls give equal paths. -/
theorem C12_cache_file_path (char_signed : Bool) (url : Bytes)
    (hstr : ∀ b ∈ url, b ≠ 0)
    (hplain : char_signed = false ∨ ∀ b ∈ url, b < 128) :
    get_cache_file_path char_signed true url = some (cache_file_path_spec url) ∧
    ∀ url2, url2 = url →
      get_cache_file_path char_signed true url2 = get_cache_file_path char_signed true url := by
  refine ⟨?_, fun url2 h => by rw [h]⟩
  rw [get_cache_file_path_eq, hash_url, hash_url_from_eq char_signed url 5381 hstr hplain]
  rfl

/-- C12 at the url `http://x/` on a platform with signed `char`. -/
theorem C12_cache_file_path_witness :
    (∀ b ∈ EX_URL, b ≠ 0) ∧ (true = false ∨ ∀ b ∈ EX_URL, b < 128) ∧
    get_cache_file_path true true EX_URL = some (cache_file_path_spec EX_URL) ∧
    ∀ url2, url2 = EX_URL →
      get_cache_file_path true true url2 = get_cache_file_path true true EX_URL :=
  ⟨by decide, by decide, C12_cache_file_path true EX_URL (by decide) (by decide)⟩

/-- C12 fails as stated where plain `char` is signed: for the url
`http://x/é` (bytes 195 and 169 at its end) the loop adds `195 - 256` and
`169 - 256`, and the path differs from the one the djb2 hash over the byte
values gives. -/
theorem C12_high_bytes_hash_differently :
    (∀ b ∈ EX_URL_UTF8, b ≠ 0 ∧ b < 256) ∧
    hash_url true EX_URL_UTF8 = 13877494058558343760 ∧
    djb2_spec EX_URL_UTF8 = 13877494058558352464 ∧
    get_cache_file_path true true EX_URL_UTF8 ≠ some (cache_file_path_spec EX_URL_UTF8) := by
  decide

/-! ## The command line -/

/-- The digit loop of `atoi` on a string of digits is the decimal fold. -/
theorem atoi_digits_eq (s : Bytes) (acc : Nat) (h : ∀ b ∈ s, isdigit b = true) :
    atoi_digits (acc : Int) s = ((s.foldl (fun a b => a * 10 + (b - 48)) acc : Nat) : Int) := by
  induction s generalizing acc with
  | nil => rfl
  | cons b rest ih =>
    have hb := h b (List.mem_cons_self b rest)
    have hb2 : 48 ≤ b := by
      simp only [isdigit, Bool.and_eq_true, decide_eq_true_eq] at hb
      exact hb.1
    rw [atoi_digits, if_pos hb, List.foldl_cons]
    have hc : (acc : Int) * 10 + ((b : Int) - 48) = ((acc * 10 + (b - 48) : Nat) : Int) := by
      omega
    rw [hc]
    exact ih _ (fun x hx => h x (List.mem_cons_of_mem b hx))

/-- `atoi` of a decimal number is the number. -/
theorem atoi_decimal (s : Bytes) (h : is_decimal s) : atoi s = (decimal_value s : Int) := by
  obtain ⟨hne, hd⟩ := h
  cases s with
  | nil => exact absurd rfl hne
  | cons b rest =>
    have hb := hd b (List.mem_cons_self b rest)
    simp only [isdigit, Bool.and_eq_true, decide_eq_true_eq] at hb
    have hsp : isspace b = false := by
      simp only [isspace, Bool.or_eq_false_iff, decide_eq_false_iff_not, Bool.and_eq_false_iff]
      omega
    have h45 : b ≠ 45 := by omega
    have h43 : b ≠ 43 := by omega
    have hdrop : (b :: rest).dropWhile isspace = b :: rest := by
      simp [List.dropWhile, hsp]
    unfold atoi
    rw [hdrop]
    have := atoi_digits_eq (b :: rest) 0 hd
    split
    · next heq => simp at heq; exact absurd heq.1 h45
    · next heq => simp at heq; exact absurd heq.1 h43
    · simpa [decimal_value] using this

/-- A decimal number is none of the option names. -/
theorem decimal_not_option (s : Bytes) (h : is_decimal s) :
    s ≠ OPT_H ∧ s ≠ OPT_HELP ∧ s ≠ OPT_P ∧ s ≠ OPT_PORT ∧ s ≠ OPT_C ∧ s ≠ OPT_CACHE := by
  obtain ⟨hne, hd⟩ := h
  cases s with
  | nil => exact absurd rfl hne
  | cons b rest =>
    have hb := hd b (List.mem_cons_self b rest)
    simp only [isdigit, Bool.and_eq_true, decide_eq_true_eq] at hb
    have h45 : b ≠ 45 := by omega
    simp [OPT_H, OPT_HELP, OPT_P, OPT_PORT, OPT_C, OPT_CACHE, h45]

/-- The loop of `parse_arguments` returns when it has more than `argc - i`
units of fuel. -/
theorem parse_arguments_loop_returns (argc : Nat) (argv : List Bytes) (fuel i : Nat)
    (port cache_size_mb : Int) (hpos : 0 < fuel) (h : argc < i + fuel) :
    (parse_arguments_loop argc argv fuel i port cache_size_mb).isSome = true := by
  induction fuel generalizing i port cache_size_mb with
  | zero => omega
  | succ n ih =>
    rw [parse_arguments_loop]
    split
    · next hi =>
      simp only
      split
      · rfl
      · split
        · split
          · rfl
          · exact ih _ _ _ (by omega) (by omega)
        · split
          · split
            · rfl
            · exact ih _ _ _ (by omega) (by omega)
          · split
            · split
              · rfl
              · exact ih _ _ _ (by omega) (by omega)
            · split
              · split
                · rfl
                · exact ih _ _ _ (by omega) (by omega)
              · rfl
    · rfl

/-- `parse_arguments` returns on every argument vector. -/
theorem parse_arguments_returns (argc : Nat) (argv : List Bytes) (port cache_size_mb : Int) :
    (parse_arguments argc argv port cache_size_mb).isSome = true :=
  parse_arguments_loop_returns argc argv (argc + 1) 1 port cache_size_mb (by omega) (by omega)

/-- With three arguments `parse_arguments` returns 0 only when the second
one is `-p`, `--port`, `-c` or `--cache`: the branch `i == 2 && argc == 3`
that reads a positional cache size is never reached. -/
theorem three_arguments_need_an_option (prog a1 a2 : Bytes) (port cache_size_mb : Int)
    (r : Int × Int)
    (h : parse_arguments 3 [prog, a1, a2] port cache_size_mb = some (0, r)) :
    a1 = OPT_P ∨ a1 = OPT_PORT ∨ a1 = OPT_C ∨ a1 = OPT_CACHE := by
  by_contra hne
  simp only [not_or] at hne
  obtain ⟨h3, h4, h5, h6⟩ := hne
  by_cases hh : a1 = OPT_H ∨ a1 = OPT_HELP
  · simp [parse_arguments, parse_arguments_loop, hh] at h
  · simp [parse_arguments, parse_arguments_loop, hh, h3, h4, h5, h6] at h

/-- C13 (fails on the code). For every decimal `PORT` in 1..65535,
`parse_arguments` on `[prog, PORT]` returns 0 with `port = PORT` and the cache
size untouched; but on `[prog, PORT, CACHE_MB]` it returns -1, for every third
argument, with neither value stored: at `i = 1` the test `i == 1 && argc == 2`
fails because `argc` is 3, and the argument is reported as an unknown
option. -/
theorem C13_second_positional_form_rejected (prog PORT CACHE_MB : Bytes)
    (port cache_size_mb : Int) (hdec : is_decimal PORT)
    (hlo : 1 ≤ decimal_value PORT) (hhi : decimal_value PORT ≤ 65535) :
    parse_arguments 2 [prog, PORT] port cache_size_mb
      = some (0, (decimal_value PORT : Int), cache_size_mb) ∧
    parse_arguments 3 [prog, PORT, CACHE_MB] port cache_size_mb
      = some (-1, port, cache_size_mb) := by
  obtain ⟨h1, h2, h3, h4, h5, h6⟩ := decimal_not_option PORT hdec
  have hat := atoi_decimal PORT hdec
  constructor
  · simp [parse_arguments, parse_arguments_loop, h1, h2, h3, h4, h5, h6, hat]
    omega
  · simp [parse_arguments, parse_arguments_loop, h1, h2, h3, h4, h5, h6]

/-- C13 at `proxy 3128` and `proxy 3128 200`. -/
theorem C13_second_positional_form_rejected_witness :
    is_decimal EX_PORT ∧ 1 ≤ decimal_value EX_PORT ∧ decimal_value EX_PORT ≤ 65535 ∧
    parse_arguments 2 [EX_PROG, EX_PORT] DEFAULT_PORT DEFAULT_CACHE_SIZE_MB
      = some (0, (decimal_value EX_PORT : Int), DEFAULT_CACHE_SIZE_MB) ∧
    parse_arguments 3 [EX_PROG, EX_PORT, EX_CACHE_MB] DEFAULT_PORT DEFAULT_CACHE_SIZE_MB
      = some (-1, DEFAULT_PORT, DEFAULT_CACHE_SIZE_MB) :=
  ⟨⟨by decide, by decide⟩, by decide, by decide,
   C13_second_positional_form_rejected EX_PROG EX_PORT EX_CACHE_MB DEFAULT_PORT
     DEFAULT_CACHE_SIZE_MB ⟨by decide, by decide⟩ (by decide) (by decide)⟩

/-! ## The header scan of the fetcher -/

/-- Every search in the empty needle succeeds at once. -/
theorem find_sub_nil (l : Bytes) : find_sub [] l = some 0 := by
  cases l <;> simp [find_sub]

/-- An occurrence lies inside the list. -/
theorem find_sub_some_le (needle l : Bytes) (k : Nat) (h : find_sub needle l = some k) :
    k + needle.length ≤ l.length := by
  induction l generalizing k with
  | nil =>
    simp only [find_sub] at h
    split at h
    · next hn => simp at h; subst h; simp [hn]
    · simp at h
  | cons b rest ih =>
    simp only [find_sub] at h
    split at h
    · next ht =>
      simp at h; subst h
      have := congrArg List.length ht
      simp only [List.length_take] at this
      omega
    · simp only [Option.map_eq_some'] at h
      obtain ⟨k1, hk1, rfl⟩ := h
      have := ih k1 hk1
      simp only [List.length_cons]
      omega

/-- The C string that starts at a list ends at its first zero byte. -/
theorem takeWhile_zero_cut (pre post : Bytes) (h : ∀ b ∈ pre, b ≠ 0) :
    (pre ++ 0 :: post).takeWhile (fun b => b ≠ 0) = pre := by
  induction pre with
  | nil => simp
  | cons b rest ih =>
    have hb := h b (List.mem_cons_self b rest)
    simp only [List.cons_append]
    rw [List.takeWhile_cons_of_pos (by simpa using hb)]
    rw [ih (fun x hx => h x (List.mem_cons_of_mem b hx))]

/-- The first `n` bytes of the C string are the first `n` bytes of the memory
when none of them is zero. -/
theorem take_takeWhile (l t : Bytes) (n : Nat) (hn : n ≤ l.length)
    (h : ∀ b ∈ l.take n, b ≠ 0) :
    ((l ++ t).takeWhile (fun b => b ≠ 0)).take n = l.take n := by
  induction l generalizing n with
  | nil => simp at hn; subst hn; simp
  | cons b rest ih =>
    cases n with
    | zero => simp
    | succ m =>
      have hb : b ≠ 0 := h b (by simp)
      simp only [List.cons_append]
      rw [List.takeWhile_cons_of_pos (by simpa using hb)]
      simp only [List.take_succ_cons, List.cons.injEq, true_and]
      exact ih m (by simpa using hn) (fun x hx => h x (by simp [hx]))

/-- A first occurrence that no zero byte precedes or interrupts is the first
occurrence in the C string. -/
theorem find_sub_takeWhile (needle l t : Bytes) (k : Nat) (hk : find_sub needle l = some k)
    (h : ∀ b ∈ l.take (k + needle.length), b ≠ 0) :
    find_sub needle ((l ++ t).takeWhile (fun b => b ≠ 0)) = some k := by
  induction l generalizing k with
  | nil =>
    simp only [find_sub] at hk
    split at hk
    · next hn => simp at hk; subst hk; subst hn; exact find_sub_nil _
    · simp at hk
  | cons b rest ih =>
    have hlen := find_sub_some_le needle (b :: rest) k hk
    simp only [find_sub] at hk
    split at hk
    · next ht =>
      simp at hk; subst hk
      simp only [Nat.zero_add] at h hlen
      have h2 := take_takeWhile (b :: rest) t needle.length hlen h
      cases hw : ((b :: rest) ++ t).takeWhile (fun b => b ≠ 0) with
      | nil =>
        rw [hw] at h2
        simp only [List.take_nil] at h2
        rw [← h2] at ht
        simp [find_sub, ← ht]
      | cons x xs =>
        rw [hw] at h2
        simp only [find_sub]
        rw [if_pos (by rw [h2]; exact ht)]
    · next hnt =>
      simp only [Option.map_eq_some'] at hk
      obtain ⟨k1, hk1, rfl⟩ := hk
      have hb : b ≠ 0 := h b (by simp [List.take_succ_cons, Nat.add_right_comm k1 1])
      have hrest : ∀ x ∈ rest.take (k1 + needle.length), x ≠ 0 := by
        intro x hx
        apply h x
        rw [Nat.add_right_comm k1 1, List.take_succ_cons]
        exact List.mem_cons_of_mem b hx
      have ih1 := ih k1 hk1 hrest
      have hn : needle.length ≤ (b :: rest).length := by omega
      have h2 := take_takeWhile (b :: rest) t needle.length hn
        (fun x hx => h x (List.mem_of_mem_take (by
          have : (b :: rest).take needle.length
              = ((b :: rest).take (k1 + 1 + needle.length)).take needle.length := by
            rw [List.take_take]; congr 1; omega
          rw [this] at hx; exact hx)))
      simp only [List.cons_append] at h2 ⊢
      rw [List.takeWhile_cons_of_pos (by simpa using hb)] at h2 ⊢
      simp only [find_sub]
      rw [if_neg (by rw [h2]; exact hnt), ih1]
      rfl

/-- A list that holds the needle has an occurrence of it. -/
theorem find_sub_infix (needle a b : Bytes) : find_sub needle (a ++ needle ++ b) ≠ none := by
  induction a with
  | nil =>
    cases hn : needle with
    | nil => simp [find_sub_nil]
    | cons x xs => simp [find_sub]
  | cons x rest ih =>
    simp only [List.cons_append, find_sub]
    split
    · simp
    · simpa using ih

/-- `strstr` on a buffer in which no zero byte precedes or interrupts the
first terminator finds that terminator, whatever lies behind the buffer. -/
theorem scan_response_headers_clean (buf tail : Bytes) (scanned : Option Int) (k : Nat)
    (hk : find_sub CRLFCRLF buf = some k) (hz : ∀ b ∈ buf.take (k + 4), b ≠ 0) :
    scan_response_headers buf buf.length tail scanned
      = some { mem := buf ++ tail, headers_len := buf.length, header_size := k + 4,
               status_code := extract_status_code scanned } := by
  have h := find_sub_takeWhile CRLFCRLF buf tail k hk hz
  simp only [scan_response_headers, strstr, h]

/-- On a buffer in which no zero byte precedes or interrupts the first
terminator, and with its allocations succeeding, `process_response_headers`
publishes the bytes up to and including the first terminator and, for every
status code, appends the bytes behind it as one chunk when there are any. -/
theorem process_response_headers_clean (c : cache_t) (e : cache_entry_t) (buf tail : Bytes)
    (scanned : Option Int) (done : Bool) (k : Nat)
    (hk : find_sub CRLFCRLF buf = some k) (hz : ∀ b ∈ buf.take (k + 4), b ≠ 0) :
    process_response_headers c e buf buf.length tail scanned true true done
      = if k + 4 < buf.length then
          ({ c with total_size := (c.total_size + (buf.length - (k + 4))) % SIZE_MOD },
           { e with headers := some (buf.take (k + 4)), headers_size := k + 4,
                    status_code := extract_status_code scanned,
                    chunks := e.chunks ++ [buf.drop (k + 4)],
                    total_size := (e.total_size + (buf.length - (k + 4))) % SIZE_MOD,
                    num_chunks := e.num_chunks + 1 },
           true)
        else
          (c,
           { e with headers := some (buf.take (k + 4)), headers_size := k + 4,
                    status_code := extract_status_code scanned },
           true) := by
  have hle := find_sub_some_le CRLFCRLF buf k hk
  simp only [CRLFCRLF, List.length_cons, List.length_nil] at hle
  have htake : (buf ++ tail).take (k + 4) = buf.take (k + 4) :=
    List.take_append_of_le_length hle
  have hdrop : ((buf ++ tail).drop (k + 4)).take (buf.length - (k + 4)) = buf.drop (k + 4) := by
    rw [List.drop_append_of_le_length hle, List.take_append_of_le_length (by simp)]
    exact List.take_of_length_le (by simp)
  rw [process_response_headers, scan_response_headers_clean buf tail scanned k hk hz]
  simp only [publish_headers, response_body_start, htake, hdrop, if_true, ite_self]
  by_cases hlt : k + 4 < buf.length
  · simp [hlt, add_chunk_to_cache]
  · simp [hlt]

/-- C14 (fails on the code). A zero byte in the header block hides the
terminator from `strstr`: for every buffer `pre ++ [0] ++ mid ++ CRLFCRLF ++
body` whose part `pre` holds neither a zero byte nor a terminator, the buffer
contains `CRLFCRLF`, yet `process_response_headers` publishes nothing,
appends nothing and leaves `headers_done` unset, whatever the status code and
whatever lies behind the buffer. -/
theorem C14_zero_byte_hides_terminator (c : cache_t) (e : cache_entry_t)
    (pre mid body tail : Bytes) (scanned : Option Int) (malloc_ok chunk_ok : Bool)
    (hpre : ∀ b ∈ pre, b ≠ 0) (hno : find_sub CRLFCRLF pre = none) :
    find_sub CRLFCRLF (pre ++ 0 :: mid ++ CRLFCRLF ++ body) ≠ none ∧
    process_response_headers c e (pre ++ 0 :: mid ++ CRLFCRLF ++ body)
        (pre ++ 0 :: mid ++ CRLFCRLF ++ body).length tail scanned malloc_ok chunk_ok false
      = (c, e, false) := by
  constructor
  · have := find_sub_infix CRLFCRLF (pre ++ 0 :: mid) body
    simpa [List.append_assoc] using this
  · have hcut : ((pre ++ 0 :: mid ++ CRLFCRLF ++ body) ++ tail).takeWhile (fun b => b ≠ 0)
        = pre := by
      have := takeWhile_zero_cut pre (mid ++ CRLFCRLF ++ body ++ tail) hpre
      simpa [List.append_assoc] using this
    simp only [process_response_headers, scan_response_headers, strstr, hcut, hno]

/-- C14 at the response `"HTTP/1.0 200 OK\r\nX: \0\r\n\r\nAB"`. -/
theorem C14_zero_byte_hides_terminator_witness :
    (∀ b ∈ EX_STATUS_LINE, b ≠ 0) ∧ find_sub CRLFCRLF EX_STATUS_LINE = none ∧
    find_sub CRLFCRLF (EX_STATUS_LINE ++ 0 :: [] ++ CRLFCRLF ++ EX_AB) ≠ none ∧
    process_response_headers (init_cache 100) (create_cache_entry EX_URL 0)
        (EX_STATUS_LINE ++ 0 :: [] ++ CRLFCRLF ++ EX_AB)
        (EX_STATUS_LINE ++ 0 :: [] ++ CRLFCRLF ++ EX_AB).length [0] (some 200) true true false
      = (init_cache 100, create_cache_entry EX_URL 0, false) :=
  ⟨by decide, by decide,
   C14_zero_byte_hides_terminator (init_cache 100) (create_cache_entry EX_URL 0) EX_STATUS_LINE
     [] EX_AB [0] (some 200) true true (by decide) (by decide)⟩

set_option maxRecDepth 100000 in
/-- The response with the zero byte, read in full and followed by a clean end
of the connection, leaves the entry COMPLETE with no headers and no chunk. -/
theorem zero_byte_final_state :
    zero_byte_final.entry.status = CACHE_COMPLETE ∧
    zero_byte_final.entry.headers = none ∧
    zero_byte_final.entry.chunks = [] ∧
    zero_byte_final.fetchers.map (fun f => (f.pc, f.headers_done, f.headers_len))
      = [(FPc.exited, false, 27)] := by
  decide

/-- The buffer is not terminated before `strstr` reads it: when it ends with
`"\r\n\r"` and the byte behind it happens to be a line feed, the search
finds a terminator that the buffer does not contain, and the published headers
take in that byte. -/
theorem stale_byte_completes_terminator :
    find_sub CRLFCRLF EX_SPLIT_RESPONSE = none ∧
    process_response_headers (init_cache 100) (create_cache_entry EX_URL 0) EX_SPLIT_RESPONSE
        EX_SPLIT_RESPONSE.length [10, 0] (some 200) true true false
      = (init_cache 100,
         { create_cache_entry EX_URL 0 with
           headers := some (EX_SPLIT_RESPONSE ++ [10]), headers_size := 19, status_code := 200 },
         true) := by
  decide

/-! ## The header buffer of the fetcher -/

/-- A read into the header buffer: what one round of the loop does to the
locals when the headers are not done, `recv` yields `b` of 1 to `CHUNK_SIZE`
bytes and a `realloc`, if any, succeeds. -/
theorem recv_loop_step_copy (env : FetchEnv) (f : Fetcher) (b : Bytes)
    (hdone : f.headers_done = false) (hrecv : env.recv = .data b) (hn1 : 1 ≤ b.length)
    (hn2 : b.length ≤ CHUNK_SIZE) (hre : env.realloc_ok = true) :
    (recv_loop_step true false env f).headers_buf = f.headers_buf ++ b ∧
    (recv_loop_step true false env f).headers_len = f.headers_len + b.length ∧
    (recv_loop_step true false env f).headers_capacity
      = (if f.headers_len + b.length ≥ f.headers_capacity then (f.headers_capacity * 2) % SIZE_MOD
         else f.headers_capacity) ∧
    ((recv_loop_step true false env f).pc = f.pc ∨
      ∃ p, (recv_loop_step true false env f).pc = .publish p) := by
  have htake : b.take CHUNK_SIZE = b := List.take_of_length_le hn2
  have hne : ¬ b.length = 0 := by omega
  unfold recv_loop_step
  simp only [hrecv, htake, hdone, hre, hne, if_false, if_true, true_and, and_self,
    and_false, Bool.true_eq_false, Bool.false_eq_true]
  split <;> simp

/-- The arithmetic of lines 118 and 119: a buffer that is in order stays in
order when `n` bytes, at most `CHUNK_SIZE`, are added after the test and the
doubling. -/
theorem grow_keeps_room (len cap n : Nat) (hn : n ≤ CHUNK_SIZE)
    (h : len ≤ PTRDIFF_MAX → len < cap ∧ BUFFER_SIZE ≤ cap ∧ cap ≤ max BUFFER_SIZE (2 * len))
    (hsize : len + n ≤ PTRDIFF_MAX) :
    len + n < (if len + n ≥ cap then (cap * 2) % SIZE_MOD else cap) ∧
    BUFFER_SIZE ≤ (if len + n ≥ cap then (cap * 2) % SIZE_MOD else cap) ∧
    (if len + n ≥ cap then (cap * 2) % SIZE_MOD else cap) ≤ max BUFFER_SIZE (2 * (len + n)) ∧
    ((if len + n ≥ cap then (cap * 2) % SIZE_MOD else cap) = cap ∨
      (if len + n ≥ cap then (cap * 2) % SIZE_MOD else cap) = 2 * cap) := by
  simp only [PTRDIFF_MAX, CHUNK_SIZE, BUFFER_SIZE, SIZE_MOD] at *
  norm_num at *
  obtain ⟨h1, h2, h3⟩ := h (by omega)
  by_cases hg : cap ≤ len + n
  · rw [if_pos hg]
    have : cap * 2 % 18446744073709551616 = cap * 2 := Nat.mod_eq_of_lt (by omega)
    rw [this]
    omega
  · rw [if_neg hg]
    omega

/-- One round of the read loop keeps the header buffer in order. -/
theorem recv_loop_step_buffer_ok (r fs : Bool) (env : FetchEnv) (f : Fetcher)
    (hpc : f.pc = .recv_loop) (h : buffer_ok f) : buffer_ok (recv_loop_step r fs env f) := by
  have hf := h (Or.inl hpc)
  unfold recv_loop_step
  by_cases h1 : r = true ∧ fs = false
  · rw [if_pos h1]
    cases env.recv with
    | eagain => exact h
    | error => intro hp; simp at hp
    | eof => intro hp; simp at hp
    | data b =>
      simp only
      by_cases h2 : (b.take CHUNK_SIZE).length = 0
      · rw [if_pos h2]; intro hp; simp at hp
      · rw [if_neg h2]
        by_cases h3 : f.headers_done = false
        · rw [if_pos h3]
          have hn : (b.take CHUNK_SIZE).length ≤ CHUNK_SIZE := by
            rw [List.length_take]; exact Nat.min_le_left _ _
          split
          · intro hp; simp at hp
          · have key : buffer_ok
                { f with headers_buf := f.headers_buf ++ b.take CHUNK_SIZE,
                         headers_len := f.headers_len + (b.take CHUNK_SIZE).length,
                         headers_capacity :=
                           if decide (f.headers_len + (b.take CHUNK_SIZE).length
                               ≥ f.headers_capacity) = true
                           then (f.headers_capacity * 2) % SIZE_MOD else f.headers_capacity } := by
              intro _
              refine ⟨by simp [hf.1], fun hsize => ?_⟩
              have g := grow_keeps_room f.headers_len f.headers_capacity
                (b.take CHUNK_SIZE).length hn hf.2 hsize
              simp only [decide_eq_true_eq]
              exact ⟨g.1, g.2.1, g.2.2.1⟩
            split
            · exact key
            · intro _
              exact key (Or.inl hpc)
        · rw [if_neg h3]
          intro _
          exact hf
  · rw [if_neg h1]; intro hp; simp at hp

/-- One step of the fetcher keeps the header buffer in order. -/
theorem download_thread_step_buffer_ok (r fs : Bool) (env : FetchEnv) (c : cache_t)
    (e : cache_entry_t) (f : Fetcher) (h : buffer_ok f) :
    buffer_ok (download_thread_step r fs env c e f).1 := by
  unfold download_thread_step
  cases hpc : f.pc with
  | parse_url => simp only; split <;> (intro hp; simp at hp)
  | connect => simp only; split <;> (intro hp; simp at hp)
  | send_request => simp only; split <;> (intro hp; simp at hp)
  | alloc_buf =>
    simp only
    split
    · intro _
      simp [PTRDIFF_MAX, BUFFER_SIZE]
    · intro hp; simp at hp
  | recv_loop => exact recv_loop_step_buffer_ok r fs env f hpc h
  | publish p =>
    have hf := h (Or.inr (Or.inl ⟨p, hpc⟩))
    simp only
    split <;> (intro _; exact hf)
  | append d =>
    have hf := h (Or.inr (Or.inr ⟨d, hpc⟩))
    simp only
    intro _
    exact hf
  | finish => simp only; intro hp; simp at hp
  | exited => simp only; exact h

/-- A step of the system keeps the header buffer of every fetcher in order. -/
theorem sys_buffer_ok_step (s : Sys) (a : Action) (h : ∀ f ∈ s.fetchers, buffer_ok f) :
    ∀ f ∈ (s.step a).fetchers, buffer_ok f := by
  cases a with
  | join now request => exact h
  | wake i =>
    simp only [Sys.step]
    cases s.handlers[i]? <;> exact h
  | signal => exact h
  | handler i env =>
    simp only [Sys.step]
    cases s.handlers[i]? with
    | none => exact h
    | some hd =>
      simp only
      split
      · intro f hf
        rcases List.mem_append.mp hf with hf | hf
        · exact h f hf
        · simp only [List.mem_singleton] at hf
          subst hf
          intro hp
          simp [Fetcher.start] at hp
      · exact h
  | fetcher j env =>
    simp only [Sys.step]
    cases hj : s.fetchers[j]? with
    | none => exact h
    | some f0 =>
      simp only
      intro f hf
      rcases List.mem_or_eq_of_mem_set hf with hf | hf
      · exact h f hf
      · subst hf
        exact download_thread_step_buffer_ok _ _ _ _ _ _ (h f0 (List.getElem?_mem hj))

/-- Every schedule keeps the header buffer of every fetcher in order. -/
theorem sys_buffer_ok_run (c : cache_t) (url : Bytes) (now : Int) (request : Bytes)
    (sched : List Action) :
    ∀ f ∈ ((Sys.init c url now request).run sched).fetchers, buffer_ok f := by
  have gen : ∀ (s : Sys), (∀ f ∈ s.fetchers, buffer_ok f) →
      ∀ f ∈ (s.run sched).fetchers, buffer_ok f := by
    induction sched with
    | nil => intro s h; exact h
    | cons a rest ih => intro s h; exact ih (s.step a) (sys_buffer_ok_step s a h)
  exact gen _ (by intro f hf; simp [Sys.init] at hf)

/-- C15. In every run of an entry's threads, when the fetcher stands at the
test of its read loop with the headers not done and the shutdown flags clear,
and `recv` yields `n` bytes with `1 ≤ n ≤ CHUNK_SIZE`, then with a succeeding
`realloc` (where one is made) the copy of line 124 fits the buffer: the
capacity is the old one or twice the old one, `headers_len + n` is below it,
and the buffer then holds the bytes read so far followed by the new ones. The
bytes accumulated are taken to be no more than an object can hold
(`PTRDIFF_MAX`). -/
theorem C15_header_copy_fits (c : cache_t) (url : Bytes) (now : Int) (request : Bytes)
    (sched : List Action) (j : Nat) (f : Fetcher) (env : FetchEnv) (b : Bytes)
    (hf : ((Sys.init c url now request).run sched).fetchers[j]? = some f)
    (hpc : f.pc = FPc.recv_loop) (hdone : f.headers_done = false)
    (hrecv : env.recv = RecvResult.data b) (hn1 : 1 ≤ b.length) (hn2 : b.length ≤ CHUNK_SIZE)
    (hre : env.realloc_ok = true) (hsize : f.headers_len + b.length ≤ PTRDIFF_MAX) :
    f.headers_buf.length = f.headers_len ∧
    ((recv_loop_step true false env f).headers_capacity = f.headers_capacity ∨
      (recv_loop_step true false env f).headers_capacity = 2 * f.headers_capacity) ∧
    f.headers_len + b.length < (recv_loop_step true false env f).headers_capacity ∧
    (recv_loop_step true false env f).headers_buf = f.headers_buf ++ b ∧
    (recv_loop_step true false env f).headers_len = f.headers_len + b.length := by
  have hok := sys_buffer_ok_run c url now request sched f (List.getElem?_mem hf) (Or.inl hpc)
  obtain ⟨g1, g2, g3, -⟩ := recv_loop_step_copy env f b hdone hrecv hn1 hn2 hre
  have g := grow_keeps_room f.headers_len f.headers_capacity b.length hn2 hok.2 hsize
  rw [g1, g2, g3]
  exact ⟨hok.1, g.2.2.2, g.1, rfl, rfl⟩

set_option maxRecDepth 100000 in
/-- C15 at the first read of the example response. -/
theorem C15_header_copy_fits_witness :
    ((Sys.init (init_cache 100) EX_URL 0 EX_REQUEST).run before_first_read).fetchers[0]?
      = some EX_FETCHER ∧
    EX_FETCHER.pc = FPc.recv_loop ∧ EX_FETCHER.headers_done = false ∧
    (env_recv (.data (EX_HEADERS ++ EX_AB))).recv = RecvResult.data (EX_HEADERS ++ EX_AB) ∧
    1 ≤ (EX_HEADERS ++ EX_AB).length ∧ (EX_HEADERS ++ EX_AB).length ≤ CHUNK_SIZE ∧
    (env_recv (.data (EX_HEADERS ++ EX_AB))).realloc_ok = true ∧
    EX_FETCHER.headers_len + (EX_HEADERS ++ EX_AB).length ≤ PTRDIFF_MAX ∧
    EX_FETCHER.headers_buf.length = EX_FETCHER.headers_len ∧
    ((recv_loop_step true false (env_recv (.data (EX_HEADERS ++ EX_AB)))
        EX_FETCHER).headers_capacity = EX_FETCHER.headers_capacity ∨
      (recv_loop_step true false (env_recv (.data (EX_HEADERS ++ EX_AB)))
        EX_FETCHER).headers_capacity = 2 * EX_FETCHER.headers_capacity) ∧
    EX_FETCHER.headers_len + (EX_HEADERS ++ EX_AB).length
      < (recv_loop_step true false (env_recv (.data (EX_HEADERS ++ EX_AB)))
          EX_FETCHER).headers_capacity ∧
    (recv_loop_step true false (env_recv (.data (EX_HEADERS ++ EX_AB))) EX_FETCHER).headers_buf
      = EX_FETCHER.headers_buf ++ (EX_HEADERS ++ EX_AB) ∧
    (recv_loop_step true false (env_recv (.data (EX_HEADERS ++ EX_AB))) EX_FETCHER).headers_len
      = EX_FETCHER.headers_len + (EX_HEADERS ++ EX_AB).length :=
  ⟨by decide, rfl, rfl, rfl, by decide, by decide, rfl, by decide,
   C15_header_copy_fits (init_cache 100) EX_URL 0 EX_REQUEST before_first_read 0 EX_FETCHER
     (env_recv (.data (EX_HEADERS ++ EX_AB))) (EX_HEADERS ++ EX_AB) (by decide) rfl rfl rfl
     (by decide) (by decide) rfl (by decide)⟩

end OsProxy
